import Mathlib

/-!
Shared quota: pod usage policy and aggregation reconciler.

A shallow embedding of the quota core of the repository:

* `pkg/quota/evaluator/core/pods.go`: the usage policy of the pod evaluator
  (`podComputeUsageHelper`, `PodUsageFunc`, `QuotaV1Pod`, `Constraints`);
* `pkg/quota/util.go`: the per-namespace breakdown helpers;
* `internal/controller/sharedquota_controller.go`: `syncQuotaForNamespaces`.

A Go `map[ResourceName]Quantity` is embedded as an association list read with
`lookup` (Go's `m[k]` with its found flag) and written with `assign` (Go's
`m[k] = v`).  Go maps have no duplicate keys; `KeysNodup` states this for an
input list.
-/

namespace SharedQuotaCore

/-! ## Resource lists -/

/-- The type corev1.ResourceName, a string. -/
abbrev ResourceName := String

/-- A resource.Quantity, as a non-negative number of the resource's smallest unit
(usage is never negative: spec, section 3). -/
abbrev Quantity := Nat

/-- The type corev1.ResourceList, a Go map from resource names to quantities. -/
abbrev ResourceList := List (ResourceName × Quantity)

/-- Go's `v, found := m[k]`. -/
def lookup : ResourceList → ResourceName → Option Quantity
  | [], _ => none
  | (k', v) :: rest, k => if k' = k then some v else lookup rest k

/-- Go's `m[k] = v`: overwrite the entry of `k`, or add one. -/
def assign : ResourceList → ResourceName → Quantity → ResourceList
  | [], k, v => [(k, v)]
  | (k', v') :: rest, k, v =>
    if k' = k then (k, v) :: rest else (k', v') :: assign rest k v

/-- The quantity charged for `k`, zero when the key is absent. -/
def amount (rl : ResourceList) (k : ResourceName) : Nat :=
  (lookup rl k).getD 0

/-- The keys of a Go map are pairwise distinct. -/
def KeysNodup (rl : ResourceList) : Prop :=
  (rl.map Prod.fst).Nodup

instance (rl : ResourceList) : Decidable (KeysNodup rl) := by
  unfold KeysNodup; infer_instance

/-- Go's strings.HasPrefix. -/
def hasPrefix (s pfx : String) : Bool :=
  pfx.data.isPrefixOf s.data

/-- Go's strings.Contains. -/
def containsStr (s sub : String) : Bool :=
  s.data.tails.any (fun t => sub.data.isPrefixOf t)

/-! ## Names from k8s.io/api/core/v1 -/

def ResourceCPU : ResourceName := "cpu"
def ResourceMemory : ResourceName := "memory"
def ResourceEphemeralStorage : ResourceName := "ephemeral-storage"
def ResourcePods : ResourceName := "pods"
def ResourceRequestsCPU : ResourceName := "requests.cpu"
def ResourceRequestsMemory : ResourceName := "requests.memory"
def ResourceRequestsEphemeralStorage : ResourceName := "requests.ephemeral-storage"
def ResourceLimitsCPU : ResourceName := "limits.cpu"
def ResourceLimitsMemory : ResourceName := "limits.memory"
def ResourceLimitsEphemeralStorage : ResourceName := "limits.ephemeral-storage"
def ResourceHugePagesPrefix : String := "hugepages-"
def ResourceRequestsHugePagesPrefix : String := "requests.hugepages-"
def DefaultResourceRequestsPrefix : String := "requests."
def ResourceDefaultNamespacePrefix : String := "kubernetes.io/"
def PodFailed : String := "Failed"
def PodSucceeded : String := "Succeeded"

/-! ## Package pkg/quota (resource-list arithmetic) -/

/-- Modelled from the spec: `quota.Add` of package pkg/quota is not among the
sources.  Section 3 lists Add on resource vectors as the additive sum of
quantities: every key of either list is kept, and a key of both carries the sum. -/
def quotapkg.Add (a b : ResourceList) : ResourceList :=
  a.map (fun kv => (kv.1, kv.2 + amount b kv.1))
    ++ b.filter (fun kv => (lookup a kv.1).isNone)

/-- Modelled from the spec: `quota.Subtract` of package pkg/quota is not among
the sources.  Sections 3 and 7 define subtraction as clamped at zero per key, so
that usage is never negative: every key of either list is kept, a key of `a`
carries `a - b` cut off at zero, a key of `b` alone carries zero. -/
def quotapkg.Subtract (a b : ResourceList) : ResourceList :=
  a.map (fun kv => (kv.1, kv.2 - amount b kv.1))
    ++ (b.filter (fun kv => (lookup a kv.1).isNone)).map (fun kv => (kv.1, 0))

/-- Modelled from the spec: `quota.Max` of package pkg/quota is not among the
sources.  Section 3 lists Max as the elementwise maximum: every key of either
list is kept, and a key of both carries the larger quantity. -/
def quotapkg.Max (a b : ResourceList) : ResourceList :=
  a.map (fun kv => (kv.1, max kv.2 (amount b kv.1)))
    ++ b.filter (fun kv => (lookup a kv.1).isNone)

/-- Modelled from the spec: `quota.ContainsPrefix` of package pkg/quota is not
among the sources.  Section 4.1: a resource matches a recognized prefix pattern
when its name starts with one of the listed prefixes. -/
def quotapkg.ContainsPrefix (prefixSet : List String) (item : ResourceName) : Bool :=
  prefixSet.any (fun p => hasPrefix item p)

/-- Modelled from the spec: `quota.ResourceNames` of package pkg/quota is not
among the sources.  Section 3: the set-of-keys extraction of a resource vector. -/
def quotapkg.ResourceNames (rl : ResourceList) : List ResourceName :=
  rl.map Prod.fst

/-! ## Package pkg/apis/core/v1/helper -/

/-- Modelled from the spec: `helper.IsNativeResource` is not among the sources.
The spec names the "extended/opaque" convention without defining it; this is the
Kubernetes convention the package mirrors: a name is native when it has no
slash, or lies in the kubernetes.io/ namespace. -/
def helper.IsNativeResource (name : ResourceName) : Bool :=
  !containsStr name "/" || containsStr name ResourceDefaultNamespacePrefix

/-- Modelled from the spec: `helper.IsExtendedResourceName` is not among the
sources.  Sections 4.1 and 4.2: an extended (opaque) resource is a non-native
name that does not already carry the "requests." prefix. -/
def helper.IsExtendedResourceName (name : ResourceName) : Bool :=
  !(helper.IsNativeResource name || hasPrefix name DefaultResourceRequestsPrefix)

/-! ## pods.go -/

/-- Modelled from the spec: `generic.ObjectCountQuotaResourceNameFor` is not among
the sources.  Section 4.2, rule 1: the object-count resource of pods, `count/pods`. -/
def podObjectCountName : ResourceName := "count/pods"

def ResourceGPU : ResourceName := "nvidia.com/gpu"
def ResourceRequestsGPU : ResourceName := "requests.nvidia.com/gpu"

/-- The set of resources managed by quota associated with pods. -/
def podResources : List ResourceName :=
  [ podObjectCountName, ResourceCPU, ResourceMemory, ResourceEphemeralStorage,
    ResourceGPU, ResourceRequestsCPU, ResourceRequestsMemory,
    ResourceRequestsEphemeralStorage, ResourceRequestsGPU, ResourceLimitsCPU,
    ResourceLimitsMemory, ResourceLimitsEphemeralStorage, ResourcePods ]

def podResourcePrefixes : List String :=
  [ResourceHugePagesPrefix, ResourceRequestsHugePagesPrefix]

def requestedResourcePrefixes : List String :=
  [ResourceHugePagesPrefix]

/-- The function maskResourceWithPrefix: `hugepages-XXX -> requests.hugepages-XXX`. -/
def maskResourceWithPrefix (resource : ResourceName) (pfx : String) : ResourceName :=
  pfx ++ resource

def isExtendedResourceNameForQuota (name : ResourceName) : Bool :=
  !helper.IsNativeResource name && hasPrefix name DefaultResourceRequestsPrefix

/-- The legacy set of resources a pod must declare when a quota tracks them. -/
def validationSet : List String :=
  [ ResourceCPU, ResourceMemory, ResourceRequestsCPU, ResourceRequestsMemory,
    ResourceLimitsCPU, ResourceLimitsMemory ]

/-- One round of the loop over `requests` in podComputeUsageHelper. -/
def usageLoopStep (result : ResourceList) (entry : ResourceName × Quantity) : ResourceList :=
  let resource := entry.1
  let request := entry.2
  let result :=
    if quotapkg.ContainsPrefix requestedResourcePrefixes resource then
      assign (assign result resource request)
        (maskResourceWithPrefix resource DefaultResourceRequestsPrefix) request
    else result
  if helper.IsExtendedResourceName resource then
    assign result (maskResourceWithPrefix resource DefaultResourceRequestsPrefix) request
  else result

/-- The fixed keys of podComputeUsageHelper, before its loop over `requests`. -/
def usageFixedKeys (requests limits : ResourceList) : ResourceList :=
  let result : ResourceList := []
  let result := assign result ResourcePods 1
  let result := match lookup requests ResourceCPU with
    | some request => assign (assign result ResourceCPU request) ResourceRequestsCPU request
    | none => result
  let result := match lookup limits ResourceCPU with
    | some limit => assign result ResourceLimitsCPU limit
    | none => result
  let result := match lookup requests ResourceMemory with
    | some request =>
      assign (assign result ResourceMemory request) ResourceRequestsMemory request
    | none => result
  let result := match lookup limits ResourceMemory with
    | some limit => assign result ResourceLimitsMemory limit
    | none => result
  let result := match lookup requests ResourceEphemeralStorage with
    | some request =>
      assign (assign result ResourceEphemeralStorage request)
        ResourceRequestsEphemeralStorage request
    | none => result
  let result := match lookup limits ResourceEphemeralStorage with
    | some limit => assign result ResourceLimitsEphemeralStorage limit
    | none => result
  match lookup requests ResourceGPU with
  | some request => assign (assign result ResourceGPU request) ResourceRequestsGPU request
  | none => result

/-- The function podComputeUsageHelper: the pod compute quota usage of a
requests/limits pair. -/
def podComputeUsageHelper (requests limits : ResourceList) : ResourceList :=
  requests.foldl usageLoopStep (usageFixedKeys requests limits)

/-- Whether the round of the loop of podComputeUsageHelper for `entry` writes key `k`. -/
def writesKey (entry : ResourceName × Quantity) (k : ResourceName) : Bool :=
  (quotapkg.ContainsPrefix requestedResourcePrefixes entry.1
      && (decide (entry.1 = k)
        || decide (maskResourceWithPrefix entry.1 DefaultResourceRequestsPrefix = k)))
    || (helper.IsExtendedResourceName entry.1
      && decide (maskResourceWithPrefix entry.1 DefaultResourceRequestsPrefix = k))

/-- A corev1.Container with its Resources.Requests and Resources.Limits. -/
structure Container where
  Requests : ResourceList := []
  Limits : ResourceList := []
deriving DecidableEq, Repr

/-- An instant of time.Time, in nanoseconds. -/
abbrev Time := Int

/-- The fields of corev1.Pod the evaluator reads: Status.Phase, the deletion
metadata, and the Spec fields. -/
structure Pod where
  Phase : String := ""
  DeletionTimestamp : Option Time := none
  DeletionGracePeriodSeconds : Option Int := none
  ActiveDeadlineSeconds : Option Int := none
  PriorityClassName : String := ""
  Containers : List Container := []
  InitContainers : List Container := []
deriving DecidableEq, Repr

/-- A runtime.Object handed to the evaluator: a pod, or an object of another kind. -/
inductive Object where
  | pod (p : Pod)
  | other (kind : String)
deriving DecidableEq, Repr

deriving instance DecidableEq for Except

def toExternalPodOrError : Object → Except String Pod
  | Object.pod t => Except.ok t
  | Object.other t => Except.error ("expect *v1.Pod, got " ++ t)

/-- Two's-complement wrap-around of a 64-bit signed integer. -/
def wrapInt64 (x : Int) : Int :=
  (x + 2 ^ 63) % 2 ^ 64 - 2 ^ 63

/-- The expression `time.Duration(secs) * time.Second`, an int64 of nanoseconds. -/
def gracePeriodDuration (secs : Int) : Int :=
  wrapInt64 (secs * 1000000000)

/-- The function QuotaV1Pod: whether the pod is eligible to track against a
quota; `now` is `clock.Now()`. -/
def QuotaV1Pod (pod : Pod) (now : Time) : Bool :=
  if PodFailed = pod.Phase || PodSucceeded = pod.Phase then
    false
  else
    match pod.DeletionTimestamp, pod.DeletionGracePeriodSeconds with
    | some deletionTime, some secs =>
      let gracePeriod := gracePeriodDuration secs
      if now > deletionTime + gracePeriod then false else true
    | _, _ => true

/-- The loop of PodUsageFunc over the ordinary containers. -/
def sumContainers (containers : List Container) (requests limits : ResourceList) :
    ResourceList × ResourceList :=
  containers.foldl
    (fun acc c => (quotapkg.Add acc.1 c.Requests, quotapkg.Add acc.2 c.Limits))
    (requests, limits)

/-- The loop of PodUsageFunc over the init containers. -/
def maxInitContainers (initContainers : List Container) (requests limits : ResourceList) :
    ResourceList × ResourceList :=
  initContainers.foldl
    (fun acc c => (quotapkg.Max acc.1 c.Requests, quotapkg.Max acc.2 c.Limits))
    (requests, limits)

/-- The function PodUsageFunc: the quota usage of a pod. -/
def PodUsageFunc (obj : Object) (now : Time) : Except String ResourceList :=
  match toExternalPodOrError obj with
  | Except.error err => Except.error err
  | Except.ok pod =>
    let result : ResourceList := [(podObjectCountName, 1)]
    if !QuotaV1Pod pod now then
      Except.ok result
    else
      let acc := sumContainers pod.Containers [] []
      let acc := maxInitContainers pod.InitContainers acc.1 acc.2
      Except.ok (quotapkg.Add result (podComputeUsageHelper acc.1 acc.2))

/-! ## String sets (sets.Set[string]) -/

/-- A sets.Set[string], kept as a list without repetitions. -/
abbrev StringSet := List String

/-- The method Insert: add the items that are not yet members. -/
def StringSet.Insert (s : StringSet) (items : List String) : StringSet :=
  items.foldl (fun acc x => if x ∈ acc then acc else acc ++ [x]) s

/-- The method Intersection. -/
def StringSet.Intersection (s1 s2 : StringSet) : StringSet :=
  s1.filter (fun x => x ∈ s2)

/-- The method Difference: the members of `s1` that are not in `s2`. -/
def StringSet.Difference (s1 s2 : StringSet) : StringSet :=
  s1.filter (fun x => x ∉ s2)

/-- The method Equal: the two sets have the same members. -/
def StringSet.Equal (s1 s2 : StringSet) : Bool :=
  s1.all (fun x => x ∈ s2) && s2.all (fun x => x ∈ s1)

/-- Modelled from the spec: `quota.ToSet` of package pkg/quota is not among the
sources.  Section 3: the set of the given resource names. -/
def quotapkg.ToSet (names : List ResourceName) : StringSet :=
  StringSet.Insert [] names

/-- The function enforcePodContainerConstraints: adds to `missingSet` the required
resources that are not set on this container, and returns the grown set.
`order` stands for the iteration order of UnsortedList, which Go leaves open. -/
def enforcePodContainerConstraints (order : List String → List String)
    (container : Container) (requiredSet missingSet : StringSet) : StringSet :=
  let requests := container.Requests
  let limits := container.Limits
  let containerUsage := podComputeUsageHelper requests limits
  let containerSet := quotapkg.ToSet (quotapkg.ResourceNames containerUsage)
  if !StringSet.Equal containerSet requiredSet then
    let difference := StringSet.Difference requiredSet containerSet
    StringSet.Insert missingSet (order difference)
  else missingSet

/-- The method Constraints of the pod evaluator: `Except.ok ()` is Go's nil, an
error carries its text.  `order` stands for the iteration order of UnsortedList. -/
def Constraints (order : List String → List String) (required : List ResourceName)
    (item : Object) : Except String Unit :=
  match toExternalPodOrError item with
  | Except.error err => Except.error err
  | Except.ok pod =>
    let requiredSet := StringSet.Intersection (quotapkg.ToSet required) validationSet
    let missingSet : StringSet := []
    let missingSet := pod.Containers.foldl
      (fun m c => enforcePodContainerConstraints order c requiredSet m) missingSet
    let missingSet := pod.InitContainers.foldl
      (fun m c => enforcePodContainerConstraints order c requiredSet m) missingSet
    if missingSet.length = 0 then
      Except.ok ()
    else
      Except.error ("must specify " ++ ",".intercalate (order missingSet))

/-! ## api/v1/sharedquota_types.go -/

/-- The type corev1.ResourceQuotaStatus. -/
structure ResourceQuotaStatus where
  Hard : ResourceList := []
  Used : ResourceList := []
deriving DecidableEq, Repr

/-- The status of one namespace: the embedded ResourceQuotaStatus and the
namespace it applies to. -/
structure ResourceQuotaStatusByNamespace where
  ResourceQuotaStatus : ResourceQuotaStatus := {}
  Namespace : String := ""
deriving DecidableEq, Repr

abbrev ResourceQuotasStatusByNamespace := List ResourceQuotaStatusByNamespace

/-- The type corev1.ScopedResourceSelectorRequirement. -/
structure ScopedResourceSelectorRequirement where
  ScopeName : String := ""
  Operator : String := ""
  Values : List String := []
deriving DecidableEq, Repr

/-- The type corev1.ResourceQuotaSpec. -/
structure ResourceQuotaSpec where
  Hard : ResourceList := []
  ScopeSelector : Option (List ScopedResourceSelectorRequirement) := none
  Scopes : List String := []
deriving DecidableEq, Repr

structure SharedQuotaSpec where
  LabelSelector : List (String × String) := []
  Quota : ResourceQuotaSpec := {}
deriving DecidableEq, Repr

structure SharedQuotaStatus where
  Total : ResourceQuotaStatus := {}
  Namespaces : ResourceQuotasStatusByNamespace := []
deriving DecidableEq, Repr

/-- The SharedQuota object: the name and UID of its metadata, Spec and Status. -/
structure SharedQuota where
  Name : String := ""
  UID : String := ""
  Spec : SharedQuotaSpec := {}
  Status : SharedQuotaStatus := {}
deriving DecidableEq, Repr

/-! ## pkg/quota/util.go -/

def GetResourceQuotasStatusByNamespace :
    ResourceQuotasStatusByNamespace → String → ResourceQuotaStatus × Bool
  | [], _ => ({}, false)
  | curr :: rest, ns =>
    if curr.Namespace = ns then (curr.ResourceQuotaStatus, true)
    else GetResourceQuotasStatusByNamespace rest ns

/-- The function RemoveResourceQuotasStatusByNamespace; the new slice is returned. -/
def RemoveResourceQuotasStatusByNamespace :
    ResourceQuotasStatusByNamespace → String → ResourceQuotasStatusByNamespace
  | [], _ => []
  | curr :: rest, ns =>
    if curr.Namespace = ns then RemoveResourceQuotasStatusByNamespace rest ns
    else curr :: RemoveResourceQuotasStatusByNamespace rest ns

/-- The loop of InsertResourceQuotasStatus: the copied slice and the `found` flag. -/
def insertLoop : ResourceQuotasStatusByNamespace → ResourceQuotaStatusByNamespace →
    ResourceQuotasStatusByNamespace × Bool
  | [], _ => ([], false)
  | curr :: rest, newStatus =>
    let r := insertLoop rest newStatus
    if curr.Namespace = newStatus.Namespace then (newStatus :: r.1, true)
    else (curr :: r.1, r.2)

/-- The function InsertResourceQuotasStatus; the new slice is returned. -/
def InsertResourceQuotasStatus (namespaceStatuses : ResourceQuotasStatusByNamespace)
    (newStatus : ResourceQuotaStatusByNamespace) : ResourceQuotasStatusByNamespace :=
  let r := insertLoop namespaceStatuses newStatus
  if !r.2 then r.1 ++ [newStatus] else r.1

/-! ## internal/controller/sharedquota_controller.go -/

/-- An error of the API client; `notFound` is what client.IgnoreNotFound asks of it. -/
structure ClientError where
  text : String := ""
  notFound : Bool := false
deriving DecidableEq, Repr

/-- What syncQuotaForNamespaces reaches through the reconciler: the namespace
listing for a label selector (the names of the matching namespaces),
quotaUsageCalculationFunc for the reconciler's registry, and the status update;
for Reconcile, the Get of the embedded client and the field ResyncPeriod (the
default is DefaultResyncPeriod, five minutes in nanoseconds). -/
structure SharedQuotaReconciler where
  ListNamespaces : List (String × String) → Except String (List String)
  quotaUsageCalculationFunc : String → List String → ResourceList →
    Option (List ScopedResourceSelectorRequirement) → Except String ResourceList
  StatusUpdate : SharedQuota → Except String Unit
  Get : String → Except ClientError SharedQuota :=
    fun _ => Except.error { text := "not found", notFound := true }
  ResyncPeriod : Int := 300000000000

/-- The body of the loop over the matching namespaces. -/
def foldNamespace (r : SharedQuotaReconciler) (quota : SharedQuota)
    (namespaceName : String) : Except String SharedQuota :=
  let namespaceTotals :=
    (GetResourceQuotasStatusByNamespace quota.Status.Namespaces namespaceName).1
  match r.quotaUsageCalculationFunc namespaceName quota.Spec.Quota.Scopes
      quota.Spec.Quota.Hard quota.Spec.Quota.ScopeSelector with
  | Except.error err => Except.error err
  | Except.ok actualUsage =>
    let recalculatedStatus : ResourceQuotaStatus :=
      { Used := actualUsage, Hard := quota.Spec.Quota.Hard }
    let used := quotapkg.Subtract quota.Status.Total.Used namespaceTotals.Used
    let used := quotapkg.Add used recalculatedStatus.Used
    Except.ok { quota with
      Status :=
        { Total := { quota.Status.Total with Used := used }
          Namespaces := InsertResourceQuotasStatus quota.Status.Namespaces
            { Namespace := namespaceName, ResourceQuotaStatus := recalculatedStatus } } }

/-- The loop over the matching namespaces, left at the first error. -/
def foldNamespaces (r : SharedQuotaReconciler) :
    List String → SharedQuota → Except String SharedQuota
  | [], quota => Except.ok quota
  | namespaceName :: rest, quota =>
    match foldNamespace r quota namespaceName with
    | Except.error err => Except.error err
    | Except.ok quota => foldNamespaces r rest quota

/-- The body of the loop that removes the namespaces that no longer match. -/
def pruneNamespace (matchingNamespaceNames : List String) (quota : SharedQuota)
    (namespaceTotals : ResourceQuotaStatusByNamespace) : SharedQuota :=
  let namespaceName := namespaceTotals.Namespace
  if !matchingNamespaceNames.contains namespaceName then
    { quota with
      Status :=
        { Total := { quota.Status.Total with
            Used := quotapkg.Subtract quota.Status.Total.Used
              namespaceTotals.ResourceQuotaStatus.Used }
          Namespaces :=
            RemoveResourceQuotasStatusByNamespace quota.Status.Namespaces namespaceName } }
  else quota

/-- The quota object syncQuotaForNamespaces has computed when it reaches the
comparison with the original: the deep copy after folding, pruning and the
overwrite of Total.Hard; an error when the listing or a usage calculation failed.
A nil and an empty breakdown are the same list here. -/
def reconciledQuota (r : SharedQuotaReconciler) (originalQuota : SharedQuota) :
    Except String SharedQuota :=
  let quota := originalQuota
  match r.ListNamespaces quota.Spec.LabelSelector with
  | Except.error err => Except.error err
  | Except.ok matchingNamespaceList =>
    let matchingNamespaceNames := matchingNamespaceList
    match foldNamespaces r matchingNamespaceList quota with
    | Except.error err => Except.error err
    | Except.ok quota =>
      let statusCopy := quota.Status.Namespaces
      let quota := statusCopy.foldl (pruneNamespace matchingNamespaceNames) quota
      Except.ok { quota with
        Status := { quota.Status with
          Total := { quota.Status.Total with Hard := quota.Spec.Quota.Hard } } }

/-- Semantic equality of two Go maps: the same keys with the same values. -/
def mapDeepEqual {β : Type} [DecidableEq β] (a b : List (String × β)) : Bool :=
  a.all (fun kv => List.lookup kv.1 a == List.lookup kv.1 b)
    && b.all (fun kv => List.lookup kv.1 a == List.lookup kv.1 b)

/-- Semantic equality of two resource lists. -/
def resourceListDeepEqual (a b : ResourceList) : Bool :=
  a.all (fun kv => lookup a kv.1 == lookup b kv.1)
    && b.all (fun kv => lookup a kv.1 == lookup b kv.1)

def statusDeepEqual (a b : ResourceQuotaStatus) : Bool :=
  resourceListDeepEqual a.Hard b.Hard && resourceListDeepEqual a.Used b.Used

def namespacesDeepEqual :
    ResourceQuotasStatusByNamespace → ResourceQuotasStatusByNamespace → Bool
  | [], [] => true
  | x :: xs, y :: ys =>
    decide (x.Namespace = y.Namespace)
      && statusDeepEqual x.ResourceQuotaStatus y.ResourceQuotaStatus
      && namespacesDeepEqual xs ys
  | _, _ => false

/-- The comparison equality.Semantic.DeepEqual of two SharedQuota objects: maps
are equal when they hold the same keys and values, slices when they are equal
element by element, an empty and a nil map or slice are equal. -/
def DeepEqual (a b : SharedQuota) : Bool :=
  decide (a.Name = b.Name) && decide (a.UID = b.UID)
    && mapDeepEqual a.Spec.LabelSelector b.Spec.LabelSelector
    && resourceListDeepEqual a.Spec.Quota.Hard b.Spec.Quota.Hard
    && decide (a.Spec.Quota.ScopeSelector = b.Spec.Quota.ScopeSelector)
    && decide (a.Spec.Quota.Scopes = b.Spec.Quota.Scopes)
    && statusDeepEqual a.Status.Total b.Status.Total
    && namespacesDeepEqual a.Status.Namespaces b.Status.Namespaces

/-- What a call of syncQuotaForNamespaces does: the error it returns (none is
nil) and the object it hands to the status update, if it issues one. -/
structure SyncResult where
  err : Option String
  update : Option SharedQuota
deriving DecidableEq, Repr

/-- The method syncQuotaForNamespaces. -/
def syncQuotaForNamespaces (r : SharedQuotaReconciler) (originalQuota : SharedQuota) :
    SyncResult :=
  match reconciledQuota r originalQuota with
  | Except.error err => { err := some err, update := none }
  | Except.ok quota =>
    if DeepEqual quota originalQuota then
      { err := none, update := none }
    else
      match r.StatusUpdate quota with
      | Except.error err => { err := some err, update := some quota }
      | Except.ok _ => { err := none, update := some quota }

/-- The object in the store after a call of syncQuotaForNamespaces that returned
nil: the updated object when an update was issued, the original otherwise. -/
def storedAfterSync (r : SharedQuotaReconciler) (originalQuota : SharedQuota) :
    SharedQuota :=
  match (syncQuotaForNamespaces r originalQuota).update with
  | some quota => quota
  | none => originalQuota

/-- The sum over the breakdown entries of the quantity used of resource `k`. -/
def sumUsed (namespaces : ResourceQuotasStatusByNamespace) (k : ResourceName) : Nat :=
  (namespaces.map (fun e => amount e.ResourceQuotaStatus.Used k)).sum

/-- The status invariant: per resource, Total.Used is the sum of the Used of the
breakdown entries. -/
def StatusInvariant (st : SharedQuotaStatus) : Prop :=
  ∀ k : ResourceName,
    amount st.Total.Used k = sumUsed st.Namespaces k

/-- The namespaces of the breakdown entries are pairwise distinct. -/
def NamespacesNodup (st : SharedQuotaStatus) : Prop :=
  (st.Namespaces.map (fun e => e.Namespace)).Nodup

/-- Total.Used covers the breakdown: per resource it is at least the sum of the
Used of the breakdown entries.  On such a status no subtraction of a contribution
of the breakdown goes below zero. -/
def StatusCovers (st : SharedQuotaStatus) : Prop :=
  ∀ k : ResourceName,
    sumUsed st.Namespaces k ≤ amount st.Total.Used k

/-! ## The effective usage of a pod, as the specification words it -/

/-- Whether at least one ordinary or init container declares resource `r` in the
list `f` selects (its requests or its limits). -/
def declaredBy (f : Container → ResourceList) (pod : Pod) (r : ResourceName) : Bool :=
  (pod.Containers ++ pod.InitContainers).any (fun c => (lookup (f c) r).isSome)

/-- The expression `max(sum(ordinary), max(init))` of the specification for resource
`r`, over the list `f` selects; a container that does not declare `r` counts zero. -/
def effectiveUsage (f : Container → ResourceList) (pod : Pod) (r : ResourceName) :
    Quantity :=
  max ((pod.Containers.map (fun c => amount (f c) r)).sum)
    ((pod.InitContainers.map (fun c => amount (f c) r)).foldr max 0)

/-- Whether a container declares a resource of the legacy set, as the
specification words it: cpu and requests.cpu are declared by a cpu request,
limits.cpu by a cpu limit, and likewise for memory. -/
def declaresResource (c : Container) (r : ResourceName) : Bool :=
  if r = ResourceCPU ∨ r = ResourceRequestsCPU then (lookup c.Requests ResourceCPU).isSome
  else if r = ResourceLimitsCPU then (lookup c.Limits ResourceCPU).isSome
  else if r = ResourceMemory ∨ r = ResourceRequestsMemory then
    (lookup c.Requests ResourceMemory).isSome
  else if r = ResourceLimitsMemory then (lookup c.Limits ResourceMemory).isSome
  else true

/-- The missing set Constraints has collected after its two loops. -/
def missingOf (order : List String → List String) (required : List ResourceName)
    (pod : Pod) : StringSet :=
  pod.InitContainers.foldl
    (fun m c => enforcePodContainerConstraints order c
      (StringSet.Intersection (quotapkg.ToSet required) validationSet) m)
    (pod.Containers.foldl
      (fun m c => enforcePodContainerConstraints order c
        (StringSet.Intersection (quotapkg.ToSet required) validationSet) m) [])

instance (st : SharedQuotaStatus) : Decidable (NamespacesNodup st) := by
  unfold NamespacesNodup; infer_instance

/-- The breakdown entry the pass writes for namespace `ns` with usage `u`. -/
def freshEntry (spec : SharedQuotaSpec) (ns : String) (u : ResourceList) :
    ResourceQuotaStatusByNamespace :=
  { Namespace := ns, ResourceQuotaStatus := { Used := u, Hard := spec.Quota.Hard } }

/-- Namespace `ns` is settled in a status: its usage is calculated without error,
the breakdown holds an entry for it, every entry for it is the entry the pass
writes, and Total.Used has every key of that usage. -/
def Settled (r : SharedQuotaReconciler) (spec : SharedQuotaSpec) (st : SharedQuotaStatus)
    (ns : String) : Prop :=
  ∃ u, r.quotaUsageCalculationFunc ns spec.Quota.Scopes spec.Quota.Hard
        spec.Quota.ScopeSelector = Except.ok u
    ∧ (∃ e ∈ st.Namespaces, e.Namespace = ns)
    ∧ (∀ e ∈ st.Namespaces, e.Namespace = ns → e = freshEntry spec ns u)
    ∧ (∀ k, (lookup u k).isSome = true → (lookup st.Total.Used k).isSome = true)

/-- Two quota objects that differ at most in how the map Total.Used is laid out. -/
def Similar (a b : SharedQuota) : Prop :=
  a.Name = b.Name ∧ a.UID = b.UID ∧ a.Spec = b.Spec
    ∧ a.Status.Namespaces = b.Status.Namespaces
    ∧ a.Status.Total.Hard = b.Status.Total.Hard
    ∧ ∀ k, lookup a.Status.Total.Used k = lookup b.Status.Total.Used k

/-- A reconciler for the examples: the listing returns the namespaces a and b, the
usage of every namespace is one cpu, and the status update succeeds. -/
def exampleReconciler : SharedQuotaReconciler :=
  { ListNamespaces := fun _ => Except.ok ["a", "b"]
    quotaUsageCalculationFunc := fun _ _ _ _ => Except.ok [("cpu", 1)]
    StatusUpdate := fun _ => Except.ok () }

/-- A quota for the examples, whose status satisfies the invariant. -/
def exampleQuota : SharedQuota :=
  { Name := "q"
    Spec := { LabelSelector := [("team", "x")], Quota := { Hard := [("cpu", 10)] } }
    Status :=
      { Total := { Used := [("cpu", 5)] }
        Namespaces :=
          [ { Namespace := "c", ResourceQuotaStatus := { Used := [("cpu", 3)] } },
            { Namespace := "a", ResourceQuotaStatus := { Used := [("cpu", 2)] } } ] } }

/-- The example quota with a Total.Used of 9 cpu over its breakdown of 5: the
status invariant does not hold, but Total.Used covers the breakdown. -/
def aboveQuota : SharedQuota :=
  { exampleQuota with
    Status := { exampleQuota.Status with Total := { Used := [("cpu", 9)] } } }

/-- A reconciler for the examples whose listing returns the namespace b alone. -/
def staleReconciler : SharedQuotaReconciler :=
  { ListNamespaces := fun _ => Except.ok ["b"]
    quotaUsageCalculationFunc := fun _ _ _ _ => Except.ok [("cpu", 1)]
    StatusUpdate := fun _ => Except.ok () }

/-- A quota for the examples whose Total.Used is below the sum of its breakdown. -/
def staleQuota : SharedQuota :=
  { Name := "q"
    Status :=
      { Total := { Used := [("cpu", 0)] }
        Namespaces :=
          [ { Namespace := "a", ResourceQuotaStatus := { Used := [("cpu", 5)] } } ] } }

/-! ## Reconcile -/

/-- What Reconcile returns and records: the RequeueAfter of its ctrl.Result (zero
for the empty result), its error (none is nil), and the reason of the event it
records. -/
structure ReconcileResult where
  RequeueAfter : Int
  err : Option String
  event : Option String
deriving DecidableEq, Repr

/-- The method Reconcile, for the request of the quota named `req`. -/
def Reconcile (r : SharedQuotaReconciler) (req : String) : ReconcileResult :=
  match r.Get req with
  | Except.error err =>
    { RequeueAfter := 0, err := if err.notFound then none else some err.text, event := none }
  | Except.ok sharedQuota =>
    match (syncQuotaForNamespaces r sharedQuota).err with
    | some err => { RequeueAfter := 0, err := some err, event := none }
    | none => { RequeueAfter := r.ResyncPeriod, err := none, event := some "Synced" }

/-- The usage quotaUsageCalculationFunc calculates for a namespace under a spec. -/
def usageOf (r : SharedQuotaReconciler) (spec : SharedQuotaSpec) (ns : String) :
    Except String ResourceList :=
  r.quotaUsageCalculationFunc ns spec.Quota.Scopes spec.Quota.Hard spec.Quota.ScopeSelector

/-- A reconciler for the examples whose usage calculation fails for namespace b. -/
def failingReconciler : SharedQuotaReconciler :=
  { ListNamespaces := fun _ => Except.ok ["a", "b"]
    quotaUsageCalculationFunc := fun ns _ _ _ =>
      if ns = "b" then Except.error "list pods: timeout" else Except.ok [("cpu", 1)]
    StatusUpdate := fun _ => Except.ok ()
    Get := fun _ => Except.ok exampleQuota }

/-! ## internal/webhook/v1/sharedquota_webhook.go: lock acquisition -/

/-- The fields of corev1.ResourceQuota that lockAquisition reads. -/
structure ResourceQuota where
  Name : String := ""
  UID : String := ""
deriving DecidableEq, Repr

/-- The method Less of ByName, `v[i].Name < v[j].Name`: Go compares strings byte by
byte, which on UTF-8 is the lexicographic order of the characters. -/
def ByName.Less (a b : ResourceQuota) : Prop :=
  a.Name.data < b.Name.data

instance (a b : ResourceQuota) : Decidable (ByName.Less a b) := by
  unfold ByName.Less; infer_instance

/-- What sort.Sort promises of `sort.Sort(ByName(quotas))`: the slice holds the
same quotas afterwards and none is Less than one before it.  The sort is not
stable, so the order of quotas of equal Name is left open. -/
def SortsByName (sort : List ResourceQuota → List ResourceQuota) : Prop :=
  ∀ l, (sort l).Perm l ∧ (sort l).Pairwise (fun a b => ¬ ByName.Less b a)

/-- The insertion sort that sort.Sort runs on a slice of fewer than twelve
elements: an element moves to the front past the elements it is Less than. -/
def insertionSortByName (l : List ResourceQuota) : List ResourceQuota :=
  l.insertionSort (fun a b => a.Name.data ≤ b.Name.data)

/-- The loop of the function lockAquisition returns: `locks[i].Unlock()` for `i`
from `len(locks) - 1` down to zero; the keys of the locks unlocked, in order. -/
def releaseLoop (locks : List String) : Nat → List String
  | 0 => []
  | i + 1 => (locks.get? i).toList ++ releaseLoop locks i

/-- What a call of lockAquisition does: `locks` are the keys of the locks it has
locked, in the order of the calls of Lock (the lock factory hands out one lock per
key), and `release` are the keys the returned function unlocks, in order. -/
structure Acquisition where
  locks : List String
  release : List String
deriving DecidableEq, Repr

/-- The method lockAquisition; `sort` stands for sort.Sort on ByName. -/
def lockAquisition (sort : List ResourceQuota → List ResourceQuota)
    (quotas : List ResourceQuota) : Acquisition :=
  let quotas := sort quotas
  let locks := quotas.foldl (fun locks q => locks ++ [q.UID]) []
  { locks := locks, release := releaseLoop locks locks.length }

/-- The names identify the quotas of a list: two of them that carry one name are
one object, with one UID.  The quotas of one listing of a cluster-scoped kind are
such a list. -/
def NamesIdentify (l : List ResourceQuota) : Prop :=
  ∀ q ∈ l, ∀ q' ∈ l, q.Name = q'.Name → q.UID = q'.UID

instance (l : List ResourceQuota) : Decidable (NamesIdentify l) := by
  unfold NamesIdentify; infer_instance

/-- The lock of key `a` is acquired before the lock of key `b`. -/
def AcquiredBefore (locks : List String) (a b : String) : Prop :=
  [a, b].Sublist locks

instance (locks : List String) (a b : String) : Decidable (AcquiredBefore locks a b) := by
  unfold AcquiredBefore; infer_instance

/-! ## internal/webhook/v1/sharedquota_webhook.go: Handle -/

/-- What a Go call does: it returns a value, or it panics (here: the dereference
of a nil pointer). -/
inductive Outcome (α : Type) where
  | returned (value : α)
  | panicked (reason : String)
deriving DecidableEq, Repr

structure GroupVersionKind where
  Group : String := ""
  Version : String := ""
  Kind : String := ""
deriving DecidableEq, Repr

structure GroupVersionResource where
  Group : String := ""
  Version : String := ""
  Resource : String := ""
deriving DecidableEq, Repr

/-- The type authenticationv1.UserInfo, and the user.DefaultInfo built from it. -/
structure UserInfo where
  Username : String := ""
  UID : String := ""
  Groups : List String := []
  Extra : List (String × List String) := []
deriving DecidableEq, Repr

/-- The fields of admission.Request that Handle reads.  The payloads are the Raw
bytes of Object, OldObject and Options; RequestKind, RequestResource and DryRun are
pointers in Go, `none` is nil. -/
structure AdmissionRequest where
  RequestKind : Option GroupVersionKind := none
  RequestResource : Option GroupVersionResource := none
  RequestSubResource : String := ""
  SubResource : String := ""
  Namespace : String := ""
  Name : String := ""
  Operation : String := ""
  UserInfo : UserInfo := {}
  ObjectRaw : String := ""
  OldObjectRaw : String := ""
  OptionsRaw : String := ""
  DryRun : Option Bool := none
deriving DecidableEq, Repr

/-- The record admissionapi.NewAttributesRecord builds from its arguments. -/
structure Attributes where
  Object : Option SharedQuotaCore.Object
  OldObject : Option SharedQuotaCore.Object
  Kind : GroupVersionKind
  Namespace : String
  Name : String
  Resource : GroupVersionResource
  SubResource : String
  Operation : String
  OperationOptions : Option SharedQuotaCore.Object
  DryRun : Bool
  UserInfo : UserInfo
deriving DecidableEq, Repr

/-- An error of the quota evaluator: its text, and what errors.IsForbidden says
of it. -/
structure EvaluateError where
  text : String := ""
  forbidden : Bool := false
deriving DecidableEq, Repr

/-- An admission response: Allowed, and the Code, Reason and Message of its
Result. -/
structure AdmissionResponse where
  Allowed : Bool
  Code : Int
  Reason : String := ""
  Message : String := ""
deriving DecidableEq, Repr

/-- The response webhook.Allowed builds. -/
def webhook.Allowed (message : String) : AdmissionResponse :=
  { Allowed := true, Code := 200, Reason := "", Message := message }

/-- The response webhook.Denied builds. -/
def webhook.Denied (message : String) : AdmissionResponse :=
  { Allowed := false, Code := 403, Reason := "Forbidden", Message := message }

/-- The response webhook.Errored builds from a status code and the text of an
error. -/
def webhook.Errored (code : Int) (err : String) : AdmissionResponse :=
  { Allowed := false, Code := code, Reason := "", Message := err }

def StatusBadRequest : Int := 400
def StatusInternalServerError : Int := 500

/-- What Handle reaches through the SharedQuotaAdmission: Decode of the universal
deserializer of the scheme, and Evaluate of the quota evaluator that the first
call of Handle builds (none is nil). -/
structure SharedQuotaAdmission where
  Decode : String → Except String Object
  Evaluate : Attributes → Option EvaluateError

/-- One of the three decoding blocks of convertToAdmissionAttributes: an empty
payload leaves the variable nil. -/
def decodePayload (decode : String → Except String Object) (raw : String) :
    Except String (Option Object) :=
  if raw.length > 0 then
    match decode raw with
    | Except.error err => Except.error err
    | Except.ok object => Except.ok (some object)
  else Except.ok none

/-- The function convertToAdmissionAttributes.  The arguments of
NewAttributesRecord are evaluated after the three payloads are decoded; they
dereference RequestKind, RequestResource and DryRun. -/
def convertToAdmissionAttributes (decode : String → Except String Object)
    (req : AdmissionRequest) : Outcome (Except String Attributes) :=
  match decodePayload decode req.ObjectRaw with
  | Except.error err => Outcome.returned (Except.error err)
  | Except.ok object =>
    match decodePayload decode req.OldObjectRaw with
    | Except.error err => Outcome.returned (Except.error err)
    | Except.ok oldObject =>
      match decodePayload decode req.OptionsRaw with
      | Except.error err => Outcome.returned (Except.error err)
      | Except.ok operationOptions =>
        match req.RequestKind, req.RequestResource, req.DryRun with
        | some kind, some resource, some dryRun =>
          Outcome.returned (Except.ok
            { Object := object
              OldObject := oldObject
              Kind := { Group := kind.Group, Version := kind.Version, Kind := kind.Kind }
              Namespace := req.Namespace
              Name := req.Name
              Resource :=
                { Group := resource.Group, Version := resource.Version,
                  Resource := resource.Resource }
              SubResource := req.SubResource
              Operation := req.Operation
              OperationOptions := operationOptions
              DryRun := dryRun
              UserInfo := req.UserInfo })
        | _, _, _ => Outcome.panicked "invalid memory address or nil pointer dereference"

/-- The method Handle. -/
def Handle (a : SharedQuotaAdmission) (req : AdmissionRequest) :
    Outcome AdmissionResponse :=
  if req.RequestSubResource.length ≠ 0 then
    Outcome.returned (webhook.Allowed "")
  else if req.Namespace.length = 0 then
    Outcome.returned (webhook.Allowed "")
  else
    match convertToAdmissionAttributes a.Decode req with
    | Outcome.panicked reason => Outcome.panicked reason
    | Outcome.returned (Except.error err) =>
      Outcome.returned (webhook.Errored StatusBadRequest err)
    | Outcome.returned (Except.ok attributesRecord) =>
      match a.Evaluate attributesRecord with
      | some err =>
        if err.forbidden then Outcome.returned (webhook.Denied err.text)
        else Outcome.returned (webhook.Errored StatusInternalServerError err.text)
      | none => Outcome.returned (webhook.Allowed "")

/-- Every payload of the request that is not empty decodes without error. -/
def payloadsDecode (decode : String → Except String Object) (req : AdmissionRequest) :
    Bool :=
  [req.ObjectRaw, req.OldObjectRaw, req.OptionsRaw].all
    (fun raw => raw.length = 0 || (decode raw).toBool)

/-- An admission for the examples: a payload decodes iff it is not "garbage"; the
evaluator forbids the namespace "full", fails on the namespace "down" and accepts
every other request. -/
def exampleAdmission : SharedQuotaAdmission :=
  { Decode := fun raw =>
      if raw = "garbage" then Except.error "couldn't get version/kind"
      else Except.ok (Object.pod {})
    Evaluate := fun attrs =>
      if attrs.Namespace = "full" then
        some { text := "exceeded quota: pods, requested 1, used 3, limited 3",
               forbidden := true }
      else if attrs.Namespace = "down" then
        some { text := "connection refused", forbidden := false }
      else none }

/-- A request for the examples: the creation of a pod in the namespace `ns`. -/
def exampleRequest (ns : String) (raw : String) : AdmissionRequest :=
  { RequestKind := some { Version := "v1", Kind := "Pod" }
    RequestResource := some { Version := "v1", Resource := "pods" }
    Namespace := ns
    Name := "p"
    Operation := "CREATE"
    ObjectRaw := raw
    DryRun := some false }

/-! ## Two requests that acquire their locks concurrently -/

/-- A call on a lock of the lock factory, named by the key of the lock. -/
inductive LockOp where
  | lock (key : String)
  | unlock (key : String)
deriving DecidableEq, Repr

/-- The calls on locks a request makes: those of lockAquisition on its quotas, in
order, then those of the function lockAquisition returned. -/
def lockProgram (sort : List ResourceQuota → List ResourceQuota)
    (quotas : List ResourceQuota) : List LockOp :=
  (lockAquisition sort quotas).locks.map LockOp.lock
    ++ (lockAquisition sort quotas).release.map LockOp.unlock

/-- A request on its way: the calls it has still to make and the keys of the locks
it holds. -/
structure LockThread where
  remaining : List LockOp
  held : List String
deriving DecidableEq, Repr

/-- Two requests that run concurrently. -/
structure LockSystem where
  first : LockThread
  second : LockThread
deriving DecidableEq, Repr

/-- Modelled from the spec: the lock factory and its locks are not among the
sources.  Section 4.3: one mutual-exclusion lock per quota identity.  The next
call of a request goes through unless it is a Lock on a key whose lock is held (by
the other request or by itself: the lock is not reentrant); then the request
waits, which is `none`. -/
def stepThread (self other : LockThread) : Option LockThread :=
  match self.remaining with
  | [] => none
  | LockOp.lock k :: rest =>
    if k ∈ self.held ∨ k ∈ other.held then none
    else some { remaining := rest, held := k :: self.held }
  | LockOp.unlock k :: rest => some { remaining := rest, held := self.held.erase k }

/-- One step of an interleaving: one of the two requests makes its next call. -/
def LockStep (s s' : LockSystem) : Prop :=
  (∃ t, stepThread s.first s.second = some t ∧ s' = { s with first := t })
    ∨ (∃ t, stepThread s.second s.first = some t ∧ s' = { s with second := t })

/-- Both requests have made all their calls: each has obtained all its locks and
released them. -/
def LockFinished (s : LockSystem) : Prop :=
  s.first.remaining = [] ∧ s.second.remaining = []

/-- The two requests at their start, on the quota lists `l1` and `l2`. -/
def lockStart (sort : List ResourceQuota → List ResourceQuota)
    (l1 l2 : List ResourceQuota) : LockSystem :=
  { first := { remaining := lockProgram sort l1, held := [] }
    second := { remaining := lockProgram sort l2, held := [] } }

/-- The states the two requests reach from `init` under some interleaving. -/
def LockReachable (init s : LockSystem) : Prop :=
  Relation.ReflTransGen LockStep init s

/-- The number of calls the two requests have still to make. -/
def lockCallsLeft (s : LockSystem) : Nat :=
  s.first.remaining.length + s.second.remaining.length

/-- The calls of a request on two quotas whose locks it takes in the order `kx`,
`ky`. -/
def pairProgram (kx ky : String) : List LockOp :=
  [LockOp.lock kx, LockOp.lock ky, LockOp.unlock ky, LockOp.unlock kx]

/-- The keys such a request holds after `i` of its four calls. -/
def pairHeld (kx ky : String) : Nat → List String
  | 1 => [kx]
  | 2 => [ky, kx]
  | 3 => [kx]
  | _ => []

/-- Such a request after `i` of its calls. -/
def pairThread (kx ky : String) (i : Nat) : LockThread :=
  { remaining := (pairProgram kx ky).drop i, held := pairHeld kx ky i }

/-- The states of two such requests in which at most one of them holds a lock. -/
def PairInvariant (kx ky : String) (s : LockSystem) : Prop :=
  ∃ i j, i ≤ 4 ∧ j ≤ 4 ∧ (i = 0 ∨ i = 4 ∨ j = 0 ∨ j = 4)
    ∧ s = { first := pairThread kx ky i, second := pairThread kx ky j }

/-- Two quotas of one name, for the examples. -/
def sameNameFirst : ResourceQuota := { Name := "x", UID := "u1" }

def sameNameSecond : ResourceQuota := { Name := "x", UID := "u2" }

/-- The state in which the first request holds the lock of u1 and waits for u2,
and the second holds the lock of u2 and waits for u1. -/
def crossedLocks : LockSystem :=
  { first :=
      { remaining := [LockOp.lock "u2", LockOp.unlock "u2", LockOp.unlock "u1"]
        held := ["u1"] }
    second :=
      { remaining := [LockOp.lock "u1", LockOp.unlock "u1", LockOp.unlock "u2"]
        held := ["u2"] } }

/-! ## pods.go: MatchingResources, scopes -/

/-- Modelled from the spec: `quota.Intersection` of package pkg/quota is not among
the sources.  Sections 3 and 4.1: the intersection by key, the names of `a` that
are also in `b`, kept in the order of `a`.  What is proved of it reads only which
names the result holds, and how often for an `a` without duplicates. -/
def quotapkg.Intersection (a b : List ResourceName) : List ResourceName :=
  a.filter (fun item => item ∈ b)

/-- One round of the loop of MatchingResources. -/
def matchingLoopStep (result : List ResourceName) (resource : ResourceName) :
    List ResourceName :=
  let result :=
    if quotapkg.ContainsPrefix podResourcePrefixes resource then result ++ [resource]
    else result
  if isExtendedResourceNameForQuota resource then result ++ [resource] else result

/-- The method MatchingResources of the pod evaluator. -/
def MatchingResources (input : List ResourceName) : List ResourceName :=
  input.foldl matchingLoopStep (quotapkg.Intersection input podResources)

def ResourceQuotaScopeTerminating : String := "Terminating"
def ResourceQuotaScopeNotTerminating : String := "NotTerminating"
def ResourceQuotaScopeBestEffort : String := "BestEffort"
def ResourceQuotaScopeNotBestEffort : String := "NotBestEffort"
def ResourceQuotaScopePriorityClass : String := "PriorityClass"
def PodQOSBestEffort : String := "BestEffort"

/-- What the scope predicates reach outside the sources: qos.GetPodQOS, and
helper.ScopedResourceSelectorRequirementsAsSelector, whose selector is given by
what its method Matches answers on a label set. -/
structure ScopeHelpers where
  GetPodQOS : Pod → String
  ScopedResourceSelectorRequirementsAsSelector :
    ScopedResourceSelectorRequirement → Except String (List (String × String) → Bool)

def isBestEffort (h : ScopeHelpers) (pod : Pod) : Bool :=
  h.GetPodQOS pod = PodQOSBestEffort

def isTerminating (pod : Pod) : Bool :=
  match pod.ActiveDeadlineSeconds with
  | some seconds => if seconds ≥ 0 then true else false
  | none => false

def podMatchesSelector (h : ScopeHelpers) (pod : Pod)
    (selector : ScopedResourceSelectorRequirement) : Except String Bool :=
  match h.ScopedResourceSelectorRequirementsAsSelector selector with
  | Except.error err =>
    Except.error ("failed to parse and convert selector: " ++ err)
  | Except.ok labelSelector =>
    let m : List (String × String) :=
      if pod.PriorityClassName.length ≠ 0 then
        [(ResourceQuotaScopePriorityClass, pod.PriorityClassName)]
      else []
    if labelSelector m then Except.ok true else Except.ok false

/-- The function podMatchesScopeFunc: whether a pod matches a scope. -/
def podMatchesScopeFunc (h : ScopeHelpers) (selector : ScopedResourceSelectorRequirement)
    (object : Object) : Except String Bool :=
  match toExternalPodOrError object with
  | Except.error err => Except.error err
  | Except.ok pod =>
    if selector.ScopeName = ResourceQuotaScopeTerminating then
      Except.ok (isTerminating pod)
    else if selector.ScopeName = ResourceQuotaScopeNotTerminating then
      Except.ok (!isTerminating pod)
    else if selector.ScopeName = ResourceQuotaScopeBestEffort then
      Except.ok (isBestEffort h pod)
    else if selector.ScopeName = ResourceQuotaScopeNotBestEffort then
      Except.ok (!isBestEffort h pod)
    else if selector.ScopeName = ResourceQuotaScopePriorityClass then
      podMatchesSelector h pod selector
    else Except.ok false

/-- The inner loop of UncoveredQuotaScopes, left at the first covering selector. -/
def isCoveredLoop :
    List ScopedResourceSelectorRequirement → ScopedResourceSelectorRequirement → Bool
  | [], _ => false
  | matchedScopeSelector :: rest, selector =>
    if matchedScopeSelector.ScopeName = selector.ScopeName then true
    else isCoveredLoop rest selector

/-- The method UncoveredQuotaScopes: the uncovered scopes and its error (none is
nil). -/
def UncoveredQuotaScopes (limitedScopes matchedQuotaScopes :
    List ScopedResourceSelectorRequirement) :
    List ScopedResourceSelectorRequirement × Option String :=
  let uncoveredScopes := limitedScopes.foldl
    (fun uncoveredScopes selector =>
      let isCovered := isCoveredLoop matchedQuotaScopes selector
      if !isCovered then uncoveredScopes ++ [selector] else uncoveredScopes) []
  (uncoveredScopes, none)

/-! ## util.go: the reverse index -/

/-- The answer of `labels.SelectorFromSet(ls).Matches(labels.Set(set))`: the
selector of a label set asks every one of its pairs of the set it is matched
against; the selector of an empty set matches everything. -/
def selectorFromSetMatches (ls set : List (String × String)) : Bool :=
  ls.all (fun kv => set.lookup kv.1 == some kv.2)

/-- The name and the labels of a corev1.Namespace. -/
structure Namespace where
  Name : String := ""
  Labels : List (String × String) := []
deriving DecidableEq, Repr

/-- What ResourceQuotaNamesFor asks of the client: the Get of a namespace by name
and the List of the shared quotas. -/
structure QuotaClient where
  GetNamespace : String → Except String Namespace
  ListSharedQuotas : Except String (List SharedQuota)

/-- The function ResourceQuotaNamesFor: the names it returns and its error (none
is nil). -/
def ResourceQuotaNamesFor (client : QuotaClient) (namespaceName : String) :
    List String × Option String :=
  let resourceQuotaNames : List String := []
  match client.GetNamespace namespaceName with
  | Except.error err => (resourceQuotaNames, some err)
  | Except.ok ns =>
    if ns.Labels.length = 0 then (resourceQuotaNames, none)
    else
      match client.ListSharedQuotas with
      | Except.error err => (resourceQuotaNames, some err)
      | Except.ok items =>
        (items.foldl
          (fun names resourceQuota =>
            if resourceQuota.Spec.LabelSelector.length > 0
                && selectorFromSetMatches resourceQuota.Spec.LabelSelector ns.Labels then
              names ++ [resourceQuota.Name]
            else names) resourceQuotaNames, none)

/-! ## sharedquota_controller.go: the filter of the watches -/

/-- An object of a watched kind, with the generation of its metadata: a pod, a
service (given by what GetQuotaServiceType answers on it, the evaluator of services
is not among the sources), or a persistent volume claim. -/
inductive WatchedObject where
  | pod (generation : Int) (p : Pod)
  | service (generation : Int) (quotaServiceType : String)
  | persistentVolumeClaim (generation : Int)
deriving DecidableEq, Repr

def WatchedObject.GetGeneration : WatchedObject → Int
  | WatchedObject.pod generation _ => generation
  | WatchedObject.service generation _ => generation
  | WatchedObject.persistentVolumeClaim generation => generation

/-- The type event.UpdateEvent. -/
structure UpdateEvent where
  ObjectOld : WatchedObject
  ObjectNew : WatchedObject
deriving DecidableEq, Repr

/-- The UpdateFunc of the Funcs the watches are set up with; `now` is the time of
the real clock.  The type assertion on the new object panics on another kind. -/
def watchUpdateFunc (now : Time) (e : UpdateEvent) : Outcome Bool :=
  match e.ObjectOld with
  | WatchedObject.pod _ oldPod =>
    match e.ObjectNew with
    | WatchedObject.pod _ newPod =>
      Outcome.returned (QuotaV1Pod oldPod now && !QuotaV1Pod newPod now)
    | _ => Outcome.panicked "interface conversion"
  | WatchedObject.service _ oldService =>
    match e.ObjectNew with
    | WatchedObject.service _ newService =>
      Outcome.returned (decide (oldService ≠ newService))
    | _ => Outcome.panicked "interface conversion"
  | WatchedObject.persistentVolumeClaim _ => Outcome.returned true

/-- The type predicate.Funcs, with the functions the source sets. -/
structure Funcs where
  GenericFunc : Bool
  CreateFunc : Bool
  UpdateFunc : UpdateEvent → Outcome Bool
  DeleteFunc : Bool

/-- The type predicate.GenerationChangedPredicate of controller-runtime: a struct
that embeds Funcs as the field TypedFuncs. -/
structure GenerationChangedPredicate where
  TypedFuncs : Funcs

/-- The method Update of GenerationChangedPredicate in controller-runtime: it is
declared on the predicate itself and compares the generations of the two objects.
Being the predicate's own method, it is the Update the watch calls; the Update
promoted from the embedded Funcs, which would call UpdateFunc, is shadowed. -/
def GenerationChangedPredicate.Update (_p : GenerationChangedPredicate)
    (e : UpdateEvent) : Bool :=
  e.ObjectNew.GetGeneration != e.ObjectOld.GetGeneration

/-- The methods Create, Delete and Generic are promoted from the embedded Funcs. -/
def GenerationChangedPredicate.Create (p : GenerationChangedPredicate) : Bool :=
  p.TypedFuncs.CreateFunc

def GenerationChangedPredicate.Delete (p : GenerationChangedPredicate) : Bool :=
  p.TypedFuncs.DeleteFunc

def GenerationChangedPredicate.Generic (p : GenerationChangedPredicate) : Bool :=
  p.TypedFuncs.GenericFunc

/-- The predicate `p` SetupWithManager builds for the watch of each kind. -/
def watchPredicate (now : Time) : GenerationChangedPredicate :=
  { TypedFuncs :=
      { GenericFunc := false
        CreateFunc := false
        UpdateFunc := watchUpdateFunc now
        DeleteFunc := true } }


/-! ## Examples for the reverse index, the watch filter and the grace period -/

/-- A client for the examples: every namespace name resolves to the namespace "n"
labelled team=x; the shared quotas are "all", whose selector is empty, and "t",
whose selector is team=x. -/
def exampleQuotaClient : QuotaClient :=
  { GetNamespace := fun _ => Except.ok { Name := "n", Labels := [("team", "x")] }
    ListSharedQuotas := Except.ok
      [ { Name := "all" },
        { Name := "t", Spec := { LabelSelector := [("team", "x")] } } ] }

/-- The update of a pod whose phase goes from Running to Failed; the generation of
the metadata stays 0. -/
def podFailsEvent : UpdateEvent :=
  { ObjectOld := WatchedObject.pod 0 { Phase := "Running" }
    ObjectNew := WatchedObject.pod 0 { Phase := "Failed" } }

/-- The update of a running pod that stays running, while the generation of the
metadata goes from 1 to 2. -/
def podGenerationEvent : UpdateEvent :=
  { ObjectOld := WatchedObject.pod 1 { Phase := "Running" }
    ObjectNew := WatchedObject.pod 2 { Phase := "Running" } }

/-- A running pod with one container that requests 1 of cpu, deleted at the
instant 1700000000 s after the epoch with a grace period of 9223372037 seconds, the
least number of seconds whose nanoseconds exceed an int64. -/
def longGracePod : Pod :=
  { Phase := "Running"
    DeletionTimestamp := some 1700000000000000000
    DeletionGracePeriodSeconds := some 9223372037
    Containers := [{ Requests := [(ResourceCPU, 1)] }] }

/-- The creation of a pod in the namespace "default" with its payload, as the example
request, but without the dry-run flag: the field DryRun is nil. -/
def dryRunAbsentRequest : AdmissionRequest :=
  { exampleRequest "default" "pod" with DryRun := none }

/-- An admission for the examples whose evaluator never returns an error; its
decoder is the one of exampleAdmission. -/
def permissiveAdmission : SharedQuotaAdmission :=
  { Decode := exampleAdmission.Decode
    Evaluate := fun _ => none }
/-! ## Lookups in resource lists -/

theorem lookup_assign (rl : ResourceList) (k k' : ResourceName) (v : Quantity) :
    lookup (assign rl k v) k' = if k = k' then some v else lookup rl k' := by
  induction rl with
  | nil => simp [assign, lookup]
  | cons hd tl ih =>
    obtain ⟨a, b⟩ := hd
    by_cases h : a = k
    · subst h
      by_cases h2 : a = k' <;> simp [assign, lookup, h2]
    · by_cases h2 : a = k'
      · subst h2
        simp [assign, lookup, h, Ne.symm h]
      · simp [assign, lookup, h, h2, ih]

theorem lookup_append (a b : ResourceList) (k : ResourceName) :
    lookup (a ++ b) k = (lookup a k).or (lookup b k) := by
  induction a with
  | nil => simp [lookup]
  | cons hd tl ih =>
    obtain ⟨x, y⟩ := hd
    by_cases h : x = k <;> simp [lookup, h, ih]

theorem lookup_map (a : ResourceList) (g : ResourceName → Quantity → Quantity)
    (k : ResourceName) :
    lookup (a.map (fun kv => (kv.1, g kv.1 kv.2))) k = (lookup a k).map (g k) := by
  induction a with
  | nil => simp [lookup]
  | cons hd tl ih =>
    obtain ⟨x, y⟩ := hd
    by_cases h : x = k
    · subst h; simp [lookup]
    · simp [lookup, h, ih]

theorem lookup_filter (b : ResourceList) (p : ResourceName → Bool) (k : ResourceName) :
    lookup (b.filter (fun kv => p kv.1)) k = if p k then lookup b k else none := by
  induction b with
  | nil => simp [lookup]
  | cons hd tl ih =>
    obtain ⟨x, y⟩ := hd
    by_cases hp : p x
    · by_cases h : x = k
      · subst h; simp [List.filter, hp, lookup]
      · simp [List.filter, hp, lookup, h, ih]
    · by_cases h : x = k
      · subst h; simp [List.filter, hp, lookup, ih]
      · simp [List.filter, hp, lookup, h, ih]

theorem lookup_Add (a b : ResourceList) (k : ResourceName) :
    lookup (quotapkg.Add a b) k
      = match lookup a k with
        | some x => some (x + amount b k)
        | none => lookup b k := by
  unfold quotapkg.Add
  rw [lookup_append, lookup_map a (fun k v => v + amount b k),
    lookup_filter b (fun k => (lookup a k).isNone)]
  cases h : lookup a k <;> simp

theorem lookup_Max (a b : ResourceList) (k : ResourceName) :
    lookup (quotapkg.Max a b) k
      = match lookup a k with
        | some x => some (max x (amount b k))
        | none => lookup b k := by
  unfold quotapkg.Max
  rw [lookup_append, lookup_map a (fun k v => max v (amount b k)),
    lookup_filter b (fun k => (lookup a k).isNone)]
  cases h : lookup a k <;> simp

theorem lookup_Subtract (a b : ResourceList) (k : ResourceName) :
    lookup (quotapkg.Subtract a b) k
      = match lookup a k with
        | some x => some (x - amount b k)
        | none => (lookup b k).map (fun _ => 0) := by
  unfold quotapkg.Subtract
  rw [lookup_append, lookup_map a (fun k v => v - amount b k),
    lookup_map _ (fun _ _ => 0), lookup_filter b (fun k => (lookup a k).isNone)]
  cases h : lookup a k <;> simp

theorem amount_Add (a b : ResourceList) (k : ResourceName) :
    amount (quotapkg.Add a b) k = amount a k + amount b k := by
  unfold amount
  rw [lookup_Add]
  cases h : lookup a k <;> simp [amount]

theorem amount_Subtract (a b : ResourceList) (k : ResourceName) :
    amount (quotapkg.Subtract a b) k = amount a k - amount b k := by
  unfold amount
  rw [lookup_Subtract]
  cases h : lookup a k <;> cases h2 : lookup b k <;> simp [amount, h2]

theorem amount_Max (a b : ResourceList) (k : ResourceName) :
    amount (quotapkg.Max a b) k = max (amount a k) (amount b k) := by
  unfold amount
  rw [lookup_Max]
  cases h : lookup a k <;> simp [amount]

theorem isSome_Add (a b : ResourceList) (k : ResourceName) :
    (lookup (quotapkg.Add a b) k).isSome
      = ((lookup a k).isSome || (lookup b k).isSome) := by
  rw [lookup_Add]
  cases h : lookup a k <;> simp

theorem isSome_Subtract (a b : ResourceList) (k : ResourceName) :
    (lookup (quotapkg.Subtract a b) k).isSome
      = ((lookup a k).isSome || (lookup b k).isSome) := by
  rw [lookup_Subtract]
  cases h : lookup a k <;> simp

theorem isSome_Max (a b : ResourceList) (k : ResourceName) :
    (lookup (quotapkg.Max a b) k).isSome
      = ((lookup a k).isSome || (lookup b k).isSome) := by
  rw [lookup_Max]
  cases h : lookup a k <;> simp

theorem lookup_eq_amount (rl : ResourceList) (k : ResourceName) :
    lookup rl k = if (lookup rl k).isSome then some (amount rl k) else none := by
  unfold amount
  cases h : lookup rl k <;> simp

/-! ## Prefixes -/

theorem hasPrefix_append (p s : String) : hasPrefix (p ++ s) p = true := by
  unfold hasPrefix
  rw [String.data_append, List.isPrefixOf_iff_prefix]
  exact List.prefix_append _ _

theorem append_left_cancel (p a b : String) (h : p ++ a = p ++ b) : a = b := by
  have h2 := congrArg String.data h
  rw [String.data_append, String.data_append] at h2
  exact String.ext (List.append_cancel_left h2)

theorem mask_ne_of_not_hasPrefix (r k : ResourceName) (p : String)
    (h : hasPrefix k p = false) : maskResourceWithPrefix r p ≠ k := by
  intro heq
  rw [← heq] at h
  unfold maskResourceWithPrefix at h
  rw [hasPrefix_append] at h
  exact Bool.noConfusion h


theorem lookup_match_assign2 (o : Option Quantity) (res : ResourceList)
    (a b k : ResourceName) :
    lookup (match o with
      | some request => assign (assign res a request) b request
      | none => res) k
      = if o.isSome = true ∧ (b = k ∨ a = k) then o else lookup res k := by
  cases o with
  | none => simp
  | some v =>
    by_cases h1 : b = k
    · simp [lookup_assign, h1]
    · by_cases h2 : a = k <;> simp [lookup_assign, h1, h2]

theorem lookup_match_assign1 (o : Option Quantity) (res : ResourceList)
    (a k : ResourceName) :
    lookup (match o with
      | some limit => assign res a limit
      | none => res) k
      = if o.isSome = true ∧ a = k then o else lookup res k := by
  cases o with
  | none => simp
  | some v =>
    by_cases h1 : a = k <;> simp [lookup_assign, h1]

theorem lookup_usageFixedKeys (requests limits : ResourceList) (k : ResourceName) :
    lookup (usageFixedKeys requests limits) k
      = if (lookup requests ResourceGPU).isSome = true
            ∧ (ResourceRequestsGPU = k ∨ ResourceGPU = k) then
          lookup requests ResourceGPU
        else if (lookup limits ResourceEphemeralStorage).isSome = true
            ∧ ResourceLimitsEphemeralStorage = k then
          lookup limits ResourceEphemeralStorage
        else if (lookup requests ResourceEphemeralStorage).isSome = true
            ∧ (ResourceRequestsEphemeralStorage = k ∨ ResourceEphemeralStorage = k) then
          lookup requests ResourceEphemeralStorage
        else if (lookup limits ResourceMemory).isSome = true
            ∧ ResourceLimitsMemory = k then
          lookup limits ResourceMemory
        else if (lookup requests ResourceMemory).isSome = true
            ∧ (ResourceRequestsMemory = k ∨ ResourceMemory = k) then
          lookup requests ResourceMemory
        else if (lookup limits ResourceCPU).isSome = true ∧ ResourceLimitsCPU = k then
          lookup limits ResourceCPU
        else if (lookup requests ResourceCPU).isSome = true
            ∧ (ResourceRequestsCPU = k ∨ ResourceCPU = k) then
          lookup requests ResourceCPU
        else if ResourcePods = k then some 1
        else none := by
  unfold usageFixedKeys
  simp only [lookup_match_assign2, lookup_match_assign1, lookup_assign, lookup]


theorem lookup_usageLoopStep (res : ResourceList) (e : ResourceName × Quantity)
    (k : ResourceName) :
    lookup (usageLoopStep res e) k = if writesKey e k then some e.2 else lookup res k := by
  obtain ⟨r, q⟩ := e
  unfold usageLoopStep writesKey
  by_cases h3 : r = k
  · subst h3
    by_cases h1 : quotapkg.ContainsPrefix requestedResourcePrefixes r = true <;>
    by_cases h2 : helper.IsExtendedResourceName r = true <;>
    by_cases h4 : maskResourceWithPrefix r DefaultResourceRequestsPrefix = r <;>
    simp [h1, h2, h4, lookup_assign]
  · by_cases h1 : quotapkg.ContainsPrefix requestedResourcePrefixes r = true <;>
    by_cases h2 : helper.IsExtendedResourceName r = true <;>
    by_cases h4 : maskResourceWithPrefix r DefaultResourceRequestsPrefix = k <;>
    simp [h1, h2, h3, h4, lookup_assign]

theorem lookup_foldl_not_written (reqs : ResourceList) (init : ResourceList)
    (k : ResourceName) (h : ∀ e ∈ reqs, writesKey e k = false) :
    lookup (reqs.foldl usageLoopStep init) k = lookup init k := by
  induction reqs generalizing init with
  | nil => rfl
  | cons hd tl ih =>
    rw [List.foldl_cons, ih _ (fun e he => h e (List.mem_cons_of_mem _ he)),
      lookup_usageLoopStep, h hd (List.mem_cons_self _ _)]
    simp

theorem lookup_foldl_written (reqs : ResourceList) (init : ResourceList)
    (k : ResourceName) (q : Quantity) (h1 : ∃ e ∈ reqs, writesKey e k = true)
    (h2 : ∀ e ∈ reqs, writesKey e k = true → e.2 = q) :
    lookup (reqs.foldl usageLoopStep init) k = some q := by
  induction reqs generalizing init with
  | nil => obtain ⟨e, he, _⟩ := h1; cases he
  | cons hd tl ih =>
    rw [List.foldl_cons]
    by_cases htl : ∃ e ∈ tl, writesKey e k = true
    · exact ih _ htl (fun e he => h2 e (List.mem_cons_of_mem _ he))
    · have hnot : ∀ e ∈ tl, writesKey e k = false := by
        intro e he
        by_contra hc
        exact htl ⟨e, he, by simpa using hc⟩
      rw [lookup_foldl_not_written tl _ k hnot, lookup_usageLoopStep]
      obtain ⟨e, he, hw⟩ := h1
      rcases List.mem_cons.mp he with rfl | he2
      · rw [hw, if_pos rfl, h2 e (List.mem_cons_self _ _) hw]
      · exact absurd ⟨e, he2, hw⟩ htl

theorem hugepages_not_requests (s : String)
    (h : hasPrefix s ResourceHugePagesPrefix = true) :
    hasPrefix s DefaultResourceRequestsPrefix = false := by
  unfold hasPrefix at *
  have e1 : ResourceHugePagesPrefix.data = 'h' :: "ugepages-".data := rfl
  have e2 : DefaultResourceRequestsPrefix.data = 'r' :: "equests.".data := rfl
  rw [e1] at h
  rw [e2]
  cases hs : s.data with
  | nil => rfl
  | cons c t =>
    rw [hs] at h
    simp only [List.isPrefixOf, Bool.and_eq_true, beq_iff_eq] at h
    obtain ⟨hc, _⟩ := h
    subst hc
    simp [List.isPrefixOf]

theorem containsPrefix_requested (n : ResourceName) :
    quotapkg.ContainsPrefix requestedResourcePrefixes n = hasPrefix n ResourceHugePagesPrefix := by
  simp [quotapkg.ContainsPrefix, requestedResourcePrefixes]

theorem extended_not_requests (n : ResourceName)
    (h : helper.IsExtendedResourceName n = true) :
    hasPrefix n DefaultResourceRequestsPrefix = false := by
  unfold helper.IsExtendedResourceName at h
  simp at h
  exact h.2

/-- No round of the loop writes a key that starts with neither prefix. -/
theorem writesKey_plain (e : ResourceName × Quantity) (k : ResourceName)
    (h1 : hasPrefix k ResourceHugePagesPrefix = false)
    (h2 : hasPrefix k DefaultResourceRequestsPrefix = false) : writesKey e k = false := by
  unfold writesKey
  rw [containsPrefix_requested]
  have hm : maskResourceWithPrefix e.1 DefaultResourceRequestsPrefix ≠ k :=
    mask_ne_of_not_hasPrefix _ _ _ h2
  by_cases h3 : e.1 = k
  · rw [h3] at hm ⊢
    rw [h1]; simp [hm]
  · simp [h3, hm]

/-- The rounds that write the alias of `n` are those of the entry `n` itself. -/
theorem writesKey_mask (e : ResourceName × Quantity) (n : ResourceName) :
    writesKey e (maskResourceWithPrefix n DefaultResourceRequestsPrefix)
      = ((hasPrefix e.1 ResourceHugePagesPrefix || helper.IsExtendedResourceName e.1)
          && decide (e.1 = n)) := by
  unfold writesKey
  rw [containsPrefix_requested]
  have hinj : (maskResourceWithPrefix e.1 DefaultResourceRequestsPrefix
      = maskResourceWithPrefix n DefaultResourceRequestsPrefix) ↔ e.1 = n := by
    constructor
    · intro h; exact append_left_cancel _ _ _ h
    · intro h; rw [h]
  by_cases hp : hasPrefix e.1 ResourceHugePagesPrefix = true
  · have hne : e.1 ≠ maskResourceWithPrefix n DefaultResourceRequestsPrefix := by
      intro heq
      have := hugepages_not_requests _ hp
      rw [heq] at this
      unfold maskResourceWithPrefix at this
      rw [hasPrefix_append] at this
      exact Bool.noConfusion this
    by_cases h3 : e.1 = n <;> simp [hp, hne, hinj, h3]
  · by_cases h3 : e.1 = n <;> simp [hp, hinj, h3]

/-- The rounds that write a raw key `n` are those of a hugepages entry `n`. -/
theorem writesKey_raw (e : ResourceName × Quantity) (n : ResourceName)
    (h : hasPrefix n DefaultResourceRequestsPrefix = false) :
    writesKey e n = (hasPrefix e.1 ResourceHugePagesPrefix && decide (e.1 = n)) := by
  unfold writesKey
  rw [containsPrefix_requested]
  have hm : maskResourceWithPrefix e.1 DefaultResourceRequestsPrefix ≠ n :=
    mask_ne_of_not_hasPrefix _ _ _ h
  simp [hm]

theorem lookup_some_mem (rl : ResourceList) (k : ResourceName) (v : Quantity)
    (h : lookup rl k = some v) : (k, v) ∈ rl := by
  induction rl with
  | nil => simp [lookup] at h
  | cons hd tl ih =>
    obtain ⟨a, b⟩ := hd
    by_cases hk : a = k
    · subst hk
      simp [lookup] at h
      subst h
      exact List.mem_cons_self _ _
    · simp [lookup, hk] at h
      exact List.mem_cons_of_mem _ (ih h)

theorem lookup_none_of_not_mem (rl : ResourceList) (k : ResourceName)
    (h : ∀ e ∈ rl, e.1 ≠ k) : lookup rl k = none := by
  induction rl with
  | nil => rfl
  | cons hd tl ih =>
    obtain ⟨a, b⟩ := hd
    have hk : a ≠ k := h (a, b) (List.mem_cons_self _ _)
    simp [lookup, hk, ih (fun e he => h e (List.mem_cons_of_mem _ he))]

theorem not_mem_of_lookup_none (rl : ResourceList) (k : ResourceName)
    (h : lookup rl k = none) : ∀ e ∈ rl, e.1 ≠ k := by
  induction rl with
  | nil => intro e he; cases he
  | cons hd tl ih =>
    obtain ⟨a, b⟩ := hd
    by_cases hk : a = k
    · simp [lookup, hk] at h
    · simp [lookup, hk] at h
      intro e he
      rcases List.mem_cons.mp he with rfl | he2
      · exact hk
      · exact ih h e he2

theorem value_unique (rl : ResourceList) (hnd : KeysNodup rl) (k : ResourceName)
    (v : Quantity) (h : lookup rl k = some v) : ∀ e ∈ rl, e.1 = k → e.2 = v := by
  induction rl with
  | nil => intro e he; cases he
  | cons hd tl ih =>
    obtain ⟨a, b⟩ := hd
    unfold KeysNodup at hnd
    simp only [List.map_cons, List.nodup_cons] at hnd
    obtain ⟨hnotin, hnd2⟩ := hnd
    intro e he hek
    by_cases hk : a = k
    · simp [lookup, hk] at h
      rcases List.mem_cons.mp he with rfl | he2
      · exact h
      · exfalso
        apply hnotin
        rw [hk, ← hek]
        exact List.mem_map_of_mem _ he2
    · simp [lookup, hk] at h
      rcases List.mem_cons.mp he with rfl | he2
      · exact absurd hek hk
      · exact ih hnd2 h e he2 hek


theorem lookup_helper_plain (requests limits : ResourceList) (k : ResourceName)
    (h1 : hasPrefix k ResourceHugePagesPrefix = false)
    (h2 : hasPrefix k DefaultResourceRequestsPrefix = false) :
    lookup (podComputeUsageHelper requests limits) k
      = lookup (usageFixedKeys requests limits) k := by
  unfold podComputeUsageHelper
  exact lookup_foldl_not_written _ _ _ (fun e _ => writesKey_plain e k h1 h2)

theorem lookup_helper_objectCount (requests limits : ResourceList) :
    lookup (podComputeUsageHelper requests limits) podObjectCountName = none := by
  rw [lookup_helper_plain _ _ _ (by decide) (by decide), lookup_usageFixedKeys]
  simp [podObjectCountName, ResourceGPU, ResourceRequestsGPU, ResourceLimitsEphemeralStorage,
    ResourceRequestsEphemeralStorage, ResourceEphemeralStorage, ResourceLimitsMemory,
    ResourceRequestsMemory, ResourceMemory, ResourceLimitsCPU, ResourceRequestsCPU,
    ResourceCPU, ResourcePods]

theorem QuotaV1Pod_false_of (pod : Pod) (now : Time)
    (h : pod.Phase = PodFailed ∨ pod.Phase = PodSucceeded ∨
      ∃ deletionTime secs, pod.DeletionTimestamp = some deletionTime
        ∧ pod.DeletionGracePeriodSeconds = some secs
        ∧ now > deletionTime + gracePeriodDuration secs) :
    QuotaV1Pod pod now = false := by
  unfold QuotaV1Pod
  rcases h with h | h | ⟨t, s, h1, h2, h3⟩
  · simp [h]
  · simp [h]
  · rw [h1, h2]
    simp [h3]

/-- C1: a pod whose phase is Failed or Succeeded, or which has a deletion timestamp
and a deletion grace period with the clock's time after the timestamp plus the
grace period, is charged exactly the one-entry list of count/pods with quantity 1,
whatever its containers request.  The grace period is the duration the code forms
from the pod's grace seconds. -/
theorem PodUsageFunc_end_of_life (pod : Pod) (now : Time)
    (h : pod.Phase = PodFailed ∨ pod.Phase = PodSucceeded ∨
      ∃ deletionTime secs, pod.DeletionTimestamp = some deletionTime
        ∧ pod.DeletionGracePeriodSeconds = some secs
        ∧ now > deletionTime + gracePeriodDuration secs) :
    PodUsageFunc (Object.pod pod) now = Except.ok [(podObjectCountName, 1)]
      ∧ ∀ usage, PodUsageFunc (Object.pod pod) now = Except.ok usage →
          ∀ k, k ≠ podObjectCountName → lookup usage k = none := by
  have hq := QuotaV1Pod_false_of pod now h
  have he : PodUsageFunc (Object.pod pod) now = Except.ok [(podObjectCountName, 1)] := by
    simp [PodUsageFunc, toExternalPodOrError, hq]
  refine ⟨he, ?_⟩
  intro usage hu k hk
  rw [he] at hu
  injection hu with hu
  subst hu
  simp [lookup, Ne.symm hk]

theorem PodUsageFunc_end_of_life_witness :
    (({ Phase := "Succeeded", Containers := [{ Requests := [("cpu", 2)] }] } : Pod).Phase
        = PodFailed ∨
      ({ Phase := "Succeeded", Containers := [{ Requests := [("cpu", 2)] }] } : Pod).Phase
        = PodSucceeded ∨
      ∃ deletionTime secs,
        ({ Phase := "Succeeded", Containers := [{ Requests := [("cpu", 2)] }] } :
          Pod).DeletionTimestamp = some deletionTime
        ∧ ({ Phase := "Succeeded", Containers := [{ Requests := [("cpu", 2)] }] } :
          Pod).DeletionGracePeriodSeconds = some secs
        ∧ (7 : Time) > deletionTime + gracePeriodDuration secs)
    ∧ PodUsageFunc
        (Object.pod { Phase := "Succeeded", Containers := [{ Requests := [("cpu", 2)] }] })
        7 = Except.ok [(podObjectCountName, 1)] :=
  ⟨Or.inr (Or.inl rfl),
    (PodUsageFunc_end_of_life
      { Phase := "Succeeded", Containers := [{ Requests := [("cpu", 2)] }] } 7
      (Or.inr (Or.inl rfl))).1⟩

/-- C3: for every pod, live or not, and whatever its containers request, the usage
returned by PodUsageFunc maps count/pods to exactly 1; no key written by
podComputeUsageHelper is count/pods, so nothing is added to it. -/
theorem PodUsageFunc_object_count (pod : Pod) (now : Time) :
    (∃ usage, PodUsageFunc (Object.pod pod) now = Except.ok usage
        ∧ lookup usage podObjectCountName = some 1)
      ∧ ∀ requests limits : ResourceList,
          lookup (podComputeUsageHelper requests limits) podObjectCountName = none := by
  refine ⟨?_, lookup_helper_objectCount⟩
  by_cases hq : QuotaV1Pod pod now = true
  · refine ⟨_, by simp only [PodUsageFunc, toExternalPodOrError, hq]; rfl, ?_⟩
    rw [lookup_Add]
    simp [lookup, amount, lookup_helper_objectCount]
  · refine ⟨[(podObjectCountName, 1)], by simp [PodUsageFunc, toExternalPodOrError, hq], ?_⟩
    simp [lookup]

theorem gracePeriodDuration_exact (secs : Int) (h1 : -9223372036 ≤ secs)
    (h2 : secs ≤ 9223372036) : gracePeriodDuration secs = secs * 1000000000 := by
  unfold gracePeriodDuration wrapInt64
  have h3 : (0 : Int) ≤ secs * 1000000000 + 2 ^ 63 := by norm_num; omega
  have h4 : secs * 1000000000 + 2 ^ 63 < 2 ^ 64 := by norm_num; omega
  rw [Int.emod_eq_of_lt h3 h4]
  ring

theorem fixedKeys_none (requests limits : ResourceList) (k : ResourceName)
    (h : k ∉ podResources) : lookup (usageFixedKeys requests limits) k = none := by
  rw [lookup_usageFixedKeys]
  simp only [podResources, List.mem_cons, List.mem_singleton, not_or, List.not_mem_nil,
    or_false] at h
  obtain ⟨_, h1, h2, h3, h4, h5, h6, h7, h8, h9, h10, h11, h12⟩ := h
  simp [Ne.symm h1, Ne.symm h2, Ne.symm h3, Ne.symm h4, Ne.symm h5, Ne.symm h6, Ne.symm h7,
    Ne.symm h8, Ne.symm h9, Ne.symm h10, Ne.symm h11, Ne.symm h12]

/-- The alias of an entry of `requests` that the loop masks carries its quantity. -/
theorem lookup_helper_alias (requests limits : ResourceList) (n : ResourceName)
    (q : Quantity) (hnd : KeysNodup requests) (hq : lookup requests n = some q)
    (hm : (hasPrefix n ResourceHugePagesPrefix || helper.IsExtendedResourceName n) = true) :
    lookup (podComputeUsageHelper requests limits)
      (maskResourceWithPrefix n DefaultResourceRequestsPrefix) = some q := by
  unfold podComputeUsageHelper
  apply lookup_foldl_written
  · refine ⟨(n, q), lookup_some_mem _ _ _ hq, ?_⟩
    rw [writesKey_mask]
    simp only [hm, decide_True, Bool.and_self]
  · intro e he hw
    rw [writesKey_mask] at hw
    simp only [Bool.and_eq_true, decide_eq_true_eq] at hw
    exact value_unique requests hnd n q hq e he hw.2

/-- No fixed key of podComputeUsageHelper is a non-native name other than the GPU
name and its alias. -/
theorem fixedKeys_none_of_extended (requests limits : ResourceList) (n : ResourceName)
    (hnat : helper.IsNativeResource n = false) (h1 : n ≠ ResourceGPU)
    (h2 : hasPrefix n DefaultResourceRequestsPrefix = false) :
    lookup (usageFixedKeys requests limits) n = none := by
  have hne : ∀ c, helper.IsNativeResource c = true → c ≠ n := by
    intro c hc h
    rw [h, hnat] at hc
    exact Bool.noConfusion hc
  have hr : ResourceRequestsGPU ≠ n := by
    intro h
    rw [← h] at h2
    exact absurd h2 (by decide)
  rw [lookup_usageFixedKeys]
  simp [Ne.symm h1, hr, hne ResourceCPU (by decide), hne ResourceMemory (by decide),
    hne ResourceEphemeralStorage (by decide), hne ResourcePods (by decide),
    hne ResourceRequestsCPU (by decide), hne ResourceRequestsMemory (by decide),
    hne ResourceRequestsEphemeralStorage (by decide), hne ResourceLimitsCPU (by decide),
    hne ResourceLimitsMemory (by decide), hne ResourceLimitsEphemeralStorage (by decide)]

/-- The raw key of a name without the "requests." prefix is written only by the
round of a hugepages entry of that name. -/
theorem lookup_helper_raw_none (requests limits : ResourceList) (n : ResourceName)
    (h2 : hasPrefix n DefaultResourceRequestsPrefix = false)
    (h3 : hasPrefix n ResourceHugePagesPrefix = false ∨ lookup requests n = none) :
    lookup (podComputeUsageHelper requests limits) n
      = lookup (usageFixedKeys requests limits) n := by
  unfold podComputeUsageHelper
  apply lookup_foldl_not_written
  intro e he
  rw [writesKey_raw e n h2]
  rcases h3 with h3 | h3
  · by_cases hen : e.1 = n
    · rw [hen, h3]; rfl
    · simp [hen]
  · have := not_mem_of_lookup_none _ _ h3 e he
    simp [this]

/-- C4, as the code has it: for every requests/limits pair and every extended
resource name n of requests (a non-native name that does not start with
"requests."), the usage computed by podComputeUsageHelper holds the alias
"requests." followed by n with the requested quantity; the raw key n is absent
exactly when n is neither nvidia.com/gpu nor a name starting with "hugepages-". -/
theorem podComputeUsageHelper_extended (requests limits : ResourceList)
    (n : ResourceName) (q : Quantity) (hnd : KeysNodup requests)
    (hq : lookup requests n = some q) (hnat : helper.IsNativeResource n = false)
    (hreq : hasPrefix n DefaultResourceRequestsPrefix = false) :
    lookup (podComputeUsageHelper requests limits)
        (maskResourceWithPrefix n DefaultResourceRequestsPrefix) = some q
      ∧ (lookup (podComputeUsageHelper requests limits) n = none
          ↔ (n ≠ ResourceGPU ∧ hasPrefix n ResourceHugePagesPrefix = false)) := by
  have hext : helper.IsExtendedResourceName n = true := by
    simp [helper.IsExtendedResourceName, hnat, hreq]
  refine ⟨lookup_helper_alias requests limits n q hnd hq (by simp [hext]), ?_⟩
  constructor
  · intro hnone
    constructor
    · intro hgpu
      subst hgpu
      rw [lookup_helper_raw_none _ _ _ (by decide) (Or.inl (by decide)),
        lookup_usageFixedKeys] at hnone
      simp [hq] at hnone
    · by_contra hhp
      have hhp2 : hasPrefix n ResourceHugePagesPrefix = true := by simpa using hhp
      have : lookup (podComputeUsageHelper requests limits) n = some q := by
        unfold podComputeUsageHelper
        apply lookup_foldl_written
        · refine ⟨(n, q), lookup_some_mem _ _ _ hq, ?_⟩
          rw [writesKey_raw _ _ hreq]
          simp [hhp2]
        · intro e he hw
          rw [writesKey_raw _ _ hreq] at hw
          simp only [Bool.and_eq_true, decide_eq_true_eq] at hw
          exact value_unique requests hnd n q hq e he hw.2
      rw [this] at hnone
      cases hnone
  · rintro ⟨hgpu, hhp⟩
    rw [lookup_helper_raw_none _ _ _ hreq (Or.inl hhp)]
    exact fixedKeys_none_of_extended _ _ _ hnat hgpu hreq

theorem podComputeUsageHelper_extended_witness :
    (KeysNodup [("example.com/foo", 3), ("cpu", 1)]
      ∧ lookup [("example.com/foo", 3), ("cpu", 1)] "example.com/foo" = some 3
      ∧ helper.IsNativeResource "example.com/foo" = false
      ∧ hasPrefix "example.com/foo" DefaultResourceRequestsPrefix = false)
    ∧ lookup (podComputeUsageHelper [("example.com/foo", 3), ("cpu", 1)] [])
        (maskResourceWithPrefix "example.com/foo" DefaultResourceRequestsPrefix) = some 3 :=
  ⟨⟨by decide, by decide, by decide, by decide⟩,
    (podComputeUsageHelper_extended [("example.com/foo", 3), ("cpu", 1)] []
      "example.com/foo" 3 (by decide) (by decide) (by decide) (by decide)).1⟩

/-- C4, as stated, fails: nvidia.com/gpu is an extended resource name, and a
request for it is charged under the raw key nvidia.com/gpu as well as under its
alias; so is a non-native name that starts with "hugepages-". -/
theorem podComputeUsageHelper_extended_counterexample :
    ¬ (∀ (requests limits : ResourceList) (n : ResourceName) (q : Quantity),
        KeysNodup requests → lookup requests n = some q →
        helper.IsNativeResource n = false →
        hasPrefix n DefaultResourceRequestsPrefix = false →
        lookup (podComputeUsageHelper requests limits)
            (maskResourceWithPrefix n DefaultResourceRequestsPrefix) = some q
          ∧ lookup (podComputeUsageHelper requests limits) n = none)
      ∧ lookup (podComputeUsageHelper [("nvidia.com/gpu", 1)] []) "nvidia.com/gpu" = some 1
      ∧ lookup (podComputeUsageHelper [("hugepages-x.example.com/y", 1)] [])
          "hugepages-x.example.com/y" = some 1 := by
  refine ⟨?_, by decide, by decide⟩
  intro h
  have h2 := (h [("nvidia.com/gpu", 1)] [] "nvidia.com/gpu" 1 (by decide) (by decide)
    (by decide) (by decide)).2
  exact absurd h2 (by decide)

/-- C5: for every requests list and every name n of it that starts with
"hugepages-", podComputeUsageHelper maps both the raw name n and the alias
"requests." followed by n to the requested quantity; an entry of limits under a
hugepages name changes nothing in the result, and a hugepages name that requests
does not hold is absent from the result under both keys. -/
theorem podComputeUsageHelper_hugepages (requests limits : ResourceList)
    (n : ResourceName) (hhp : hasPrefix n ResourceHugePagesPrefix = true) :
    (∀ q, KeysNodup requests → lookup requests n = some q →
        lookup (podComputeUsageHelper requests limits) n = some q
          ∧ lookup (podComputeUsageHelper requests limits)
              (maskResourceWithPrefix n DefaultResourceRequestsPrefix) = some q)
      ∧ (∀ q, podComputeUsageHelper requests (assign limits n q)
          = podComputeUsageHelper requests limits)
      ∧ (lookup requests n = none →
          lookup (podComputeUsageHelper requests limits) n = none
            ∧ lookup (podComputeUsageHelper requests limits)
                (maskResourceWithPrefix n DefaultResourceRequestsPrefix) = none) := by
  have hreq := hugepages_not_requests n hhp
  refine ⟨?_, ?_, ?_⟩
  · intro q hnd hq
    refine ⟨?_, lookup_helper_alias requests limits n q hnd hq (by simp [hhp])⟩
    unfold podComputeUsageHelper
    apply lookup_foldl_written
    · refine ⟨(n, q), lookup_some_mem _ _ _ hq, ?_⟩
      rw [writesKey_raw _ _ hreq]
      simp [hhp]
    · intro e he hw
      rw [writesKey_raw _ _ hreq] at hw
      simp only [Bool.and_eq_true, decide_eq_true_eq] at hw
      exact value_unique requests hnd n q hq e he hw.2
  · intro q
    have hl : ∀ c : ResourceName, hasPrefix c ResourceHugePagesPrefix = false →
        lookup (assign limits n q) c = lookup limits c := by
      intro c hc
      rw [lookup_assign]
      have : n ≠ c := by
        intro h
        rw [h, hc] at hhp
        exact Bool.noConfusion hhp
      simp [this]
    unfold podComputeUsageHelper usageFixedKeys
    rw [hl ResourceCPU (by decide), hl ResourceMemory (by decide),
      hl ResourceEphemeralStorage (by decide)]
  · intro hnone
    have hfix : n ∉ podResources := by
      intro hmem
      simp only [podResources, List.mem_cons, List.mem_singleton, List.not_mem_nil,
        or_false] at hmem
      rcases hmem with h | h | h | h | h | h | h | h | h | h | h | h | h <;>
        (subst h; exact absurd hhp (by decide))
    constructor
    · rw [lookup_helper_raw_none _ _ _ hreq (Or.inr hnone)]
      exact fixedKeys_none _ _ _ hfix
    · have hw : ∀ e ∈ requests,
          writesKey e (maskResourceWithPrefix n DefaultResourceRequestsPrefix) = false := by
        intro e he
        rw [writesKey_mask]
        have := not_mem_of_lookup_none _ _ hnone e he
        simp [this]
      unfold podComputeUsageHelper
      rw [lookup_foldl_not_written _ _ _ hw]
      apply fixedKeys_none
      intro hmem
      simp only [podResources, List.mem_cons, List.mem_singleton, List.not_mem_nil,
        or_false] at hmem
      have hpre : hasPrefix (maskResourceWithPrefix n DefaultResourceRequestsPrefix)
          ResourceRequestsHugePagesPrefix = true := by
        unfold hasPrefix maskResourceWithPrefix at *
        rw [String.data_append]
        have e1 : ResourceRequestsHugePagesPrefix.data
            = DefaultResourceRequestsPrefix.data ++ ResourceHugePagesPrefix.data := by decide
        rw [e1, List.isPrefixOf_iff_prefix] at *
        exact (List.prefix_append_right_inj _).mpr hhp
      rcases hmem with h | h | h | h | h | h | h | h | h | h | h | h | h <;>
        (rw [h] at hpre; exact absurd hpre (by decide))

theorem podComputeUsageHelper_hugepages_witness :
    hasPrefix "hugepages-2Mi" ResourceHugePagesPrefix = true
    ∧ lookup (podComputeUsageHelper [("hugepages-2Mi", 4)] [("hugepages-1Gi", 2)])
        "hugepages-2Mi" = some 4
    ∧ lookup (podComputeUsageHelper [("hugepages-2Mi", 4)] [("hugepages-1Gi", 2)])
        "requests.hugepages-2Mi" = some 4 :=
  ⟨by decide,
    ((podComputeUsageHelper_hugepages [("hugepages-2Mi", 4)] [("hugepages-1Gi", 2)]
      "hugepages-2Mi" (by decide)).1 4 (by decide) (by decide)).1,
    ((podComputeUsageHelper_hugepages [("hugepages-2Mi", 4)] [("hugepages-1Gi", 2)]
      "hugepages-2Mi" (by decide)).1 4 (by decide) (by decide)).2⟩

theorem sumContainers_eq (cs : List Container) (a l : ResourceList) :
    sumContainers cs a l
      = (cs.foldl (fun x c => quotapkg.Add x c.Requests) a,
          cs.foldl (fun x c => quotapkg.Add x c.Limits) l) := by
  unfold sumContainers
  induction cs generalizing a l with
  | nil => rfl
  | cons hd tl ih => simp only [List.foldl_cons]; exact ih _ _

theorem maxInitContainers_eq (cs : List Container) (a l : ResourceList) :
    maxInitContainers cs a l
      = (cs.foldl (fun x c => quotapkg.Max x c.Requests) a,
          cs.foldl (fun x c => quotapkg.Max x c.Limits) l) := by
  unfold maxInitContainers
  induction cs generalizing a l with
  | nil => rfl
  | cons hd tl ih => simp only [List.foldl_cons]; exact ih _ _

theorem amount_foldl_Add (f : Container → ResourceList) (cs : List Container)
    (a : ResourceList) (k : ResourceName) :
    amount (cs.foldl (fun x c => quotapkg.Add x (f c)) a) k
      = amount a k + (cs.map (fun c => amount (f c) k)).sum := by
  induction cs generalizing a with
  | nil => simp
  | cons hd tl ih =>
    simp only [List.foldl_cons, List.map_cons, List.sum_cons]
    rw [ih, amount_Add]
    exact Nat.add_assoc _ _ _

theorem isSome_foldl_Add (f : Container → ResourceList) (cs : List Container)
    (a : ResourceList) (k : ResourceName) :
    (lookup (cs.foldl (fun x c => quotapkg.Add x (f c)) a) k).isSome
      = ((lookup a k).isSome || cs.any (fun c => (lookup (f c) k).isSome)) := by
  induction cs generalizing a with
  | nil => simp
  | cons hd tl ih =>
    simp only [List.foldl_cons, List.any_cons]
    rw [ih, isSome_Add, Bool.or_assoc]

theorem amount_foldl_Max (f : Container → ResourceList) (cs : List Container)
    (a : ResourceList) (k : ResourceName) :
    amount (cs.foldl (fun x c => quotapkg.Max x (f c)) a) k
      = max (amount a k) ((cs.map (fun c => amount (f c) k)).foldr max 0) := by
  induction cs generalizing a with
  | nil => simp
  | cons hd tl ih =>
    simp only [List.foldl_cons, List.map_cons, List.foldr_cons]
    rw [ih, amount_Max, max_assoc]

theorem isSome_foldl_Max (f : Container → ResourceList) (cs : List Container)
    (a : ResourceList) (k : ResourceName) :
    (lookup (cs.foldl (fun x c => quotapkg.Max x (f c)) a) k).isSome
      = ((lookup a k).isSome || cs.any (fun c => (lookup (f c) k).isSome)) := by
  induction cs generalizing a with
  | nil => simp
  | cons hd tl ih =>
    simp only [List.foldl_cons, List.any_cons]
    rw [ih, isSome_Max, Bool.or_assoc]

/-- The effective list PodUsageFunc hands to podComputeUsageHelper, per key. -/
theorem lookup_effective (f : Container → ResourceList) (pod : Pod) (k : ResourceName) :
    lookup (pod.InitContainers.foldl (fun x c => quotapkg.Max x (f c))
        (pod.Containers.foldl (fun x c => quotapkg.Add x (f c)) [])) k
      = if declaredBy f pod k then some (effectiveUsage f pod k) else none := by
  rw [lookup_eq_amount, isSome_foldl_Max, isSome_foldl_Add, amount_foldl_Max,
    amount_foldl_Add]
  simp [declaredBy, effectiveUsage, lookup, amount, List.any_append]

/-- The alias of a native name outside the hugepages family is a fixed key or absent. -/
theorem lookup_helper_mask_native (requests limits : ResourceList) (n : ResourceName)
    (h1 : hasPrefix n ResourceHugePagesPrefix = false)
    (h2 : helper.IsExtendedResourceName n = false) :
    lookup (podComputeUsageHelper requests limits)
        (maskResourceWithPrefix n DefaultResourceRequestsPrefix)
      = lookup (usageFixedKeys requests limits)
          (maskResourceWithPrefix n DefaultResourceRequestsPrefix) := by
  unfold podComputeUsageHelper
  apply lookup_foldl_not_written
  intro e _
  rw [writesKey_mask]
  by_cases hen : e.1 = n
  · rw [hen, h1, h2]; rfl
  · simp [hen]

theorem lookup_some_or_none (o : Option Quantity) :
    (if o.isSome = true then o else none) = o := by
  cases o <;> rfl

/-- The compute keys of podComputeUsageHelper. -/
theorem lookup_helper_compute (requests limits : ResourceList) :
    (lookup (podComputeUsageHelper requests limits) ResourceCPU
        = lookup requests ResourceCPU
      ∧ lookup (podComputeUsageHelper requests limits) ResourceRequestsCPU
        = lookup requests ResourceCPU
      ∧ lookup (podComputeUsageHelper requests limits) ResourceLimitsCPU
        = lookup limits ResourceCPU)
    ∧ (lookup (podComputeUsageHelper requests limits) ResourceMemory
        = lookup requests ResourceMemory
      ∧ lookup (podComputeUsageHelper requests limits) ResourceRequestsMemory
        = lookup requests ResourceMemory
      ∧ lookup (podComputeUsageHelper requests limits) ResourceLimitsMemory
        = lookup limits ResourceMemory)
    ∧ (lookup (podComputeUsageHelper requests limits) ResourceEphemeralStorage
        = lookup requests ResourceEphemeralStorage
      ∧ lookup (podComputeUsageHelper requests limits) ResourceRequestsEphemeralStorage
        = lookup requests ResourceEphemeralStorage
      ∧ lookup (podComputeUsageHelper requests limits) ResourceLimitsEphemeralStorage
        = lookup limits ResourceEphemeralStorage) := by
  have m1 : ResourceRequestsCPU
      = maskResourceWithPrefix ResourceCPU DefaultResourceRequestsPrefix := by decide
  have m2 : ResourceRequestsMemory
      = maskResourceWithPrefix ResourceMemory DefaultResourceRequestsPrefix := by decide
  have m3 : ResourceRequestsEphemeralStorage
      = maskResourceWithPrefix ResourceEphemeralStorage DefaultResourceRequestsPrefix := by
    decide
  refine ⟨⟨?_, ?_, ?_⟩, ⟨?_, ?_, ?_⟩, ⟨?_, ?_, ?_⟩⟩
  · rw [lookup_helper_plain _ _ _ (by decide) (by decide), lookup_usageFixedKeys]
    simp [ResourceGPU, ResourceRequestsGPU, ResourceLimitsEphemeralStorage,
      ResourceRequestsEphemeralStorage, ResourceEphemeralStorage, ResourceLimitsMemory,
      ResourceRequestsMemory, ResourceMemory, ResourceLimitsCPU, ResourceRequestsCPU,
      ResourceCPU, ResourcePods, lookup_some_or_none]
  · rw [m1, lookup_helper_mask_native _ _ _ (by decide) (by decide), ← m1,
      lookup_usageFixedKeys]
    simp [ResourceGPU, ResourceRequestsGPU, ResourceLimitsEphemeralStorage,
      ResourceRequestsEphemeralStorage, ResourceEphemeralStorage, ResourceLimitsMemory,
      ResourceRequestsMemory, ResourceMemory, ResourceLimitsCPU, ResourceRequestsCPU,
      ResourceCPU, ResourcePods, lookup_some_or_none]
  · rw [lookup_helper_plain _ _ _ (by decide) (by decide), lookup_usageFixedKeys]
    simp [ResourceGPU, ResourceRequestsGPU, ResourceLimitsEphemeralStorage,
      ResourceRequestsEphemeralStorage, ResourceEphemeralStorage, ResourceLimitsMemory,
      ResourceRequestsMemory, ResourceMemory, ResourceLimitsCPU, ResourceRequestsCPU,
      ResourceCPU, ResourcePods, lookup_some_or_none]
  · rw [lookup_helper_plain _ _ _ (by decide) (by decide), lookup_usageFixedKeys]
    simp [ResourceGPU, ResourceRequestsGPU, ResourceLimitsEphemeralStorage,
      ResourceRequestsEphemeralStorage, ResourceEphemeralStorage, ResourceLimitsMemory,
      ResourceRequestsMemory, ResourceMemory, ResourceLimitsCPU, ResourceRequestsCPU,
      ResourceCPU, ResourcePods, lookup_some_or_none]
  · rw [m2, lookup_helper_mask_native _ _ _ (by decide) (by decide), ← m2,
      lookup_usageFixedKeys]
    simp [ResourceGPU, ResourceRequestsGPU, ResourceLimitsEphemeralStorage,
      ResourceRequestsEphemeralStorage, ResourceEphemeralStorage, ResourceLimitsMemory,
      ResourceRequestsMemory, ResourceMemory, ResourceLimitsCPU, ResourceRequestsCPU,
      ResourceCPU, ResourcePods, lookup_some_or_none]
  · rw [lookup_helper_plain _ _ _ (by decide) (by decide), lookup_usageFixedKeys]
    simp [ResourceGPU, ResourceRequestsGPU, ResourceLimitsEphemeralStorage,
      ResourceRequestsEphemeralStorage, ResourceEphemeralStorage, ResourceLimitsMemory,
      ResourceRequestsMemory, ResourceMemory, ResourceLimitsCPU, ResourceRequestsCPU,
      ResourceCPU, ResourcePods, lookup_some_or_none]
  · rw [lookup_helper_plain _ _ _ (by decide) (by decide), lookup_usageFixedKeys]
    simp [ResourceGPU, ResourceRequestsGPU, ResourceLimitsEphemeralStorage,
      ResourceRequestsEphemeralStorage, ResourceEphemeralStorage, ResourceLimitsMemory,
      ResourceRequestsMemory, ResourceMemory, ResourceLimitsCPU, ResourceRequestsCPU,
      ResourceCPU, ResourcePods, lookup_some_or_none]
  · rw [m3, lookup_helper_mask_native _ _ _ (by decide) (by decide), ← m3,
      lookup_usageFixedKeys]
    simp [ResourceGPU, ResourceRequestsGPU, ResourceLimitsEphemeralStorage,
      ResourceRequestsEphemeralStorage, ResourceEphemeralStorage, ResourceLimitsMemory,
      ResourceRequestsMemory, ResourceMemory, ResourceLimitsCPU, ResourceRequestsCPU,
      ResourceCPU, ResourcePods, lookup_some_or_none]
  · rw [lookup_helper_plain _ _ _ (by decide) (by decide), lookup_usageFixedKeys]
    simp [ResourceGPU, ResourceRequestsGPU, ResourceLimitsEphemeralStorage,
      ResourceRequestsEphemeralStorage, ResourceEphemeralStorage, ResourceLimitsMemory,
      ResourceRequestsMemory, ResourceMemory, ResourceLimitsCPU, ResourceRequestsCPU,
      ResourceCPU, ResourcePods, lookup_some_or_none]

/-- The usage of a live pod, in terms of the effective requests and limits. -/
theorem PodUsageFunc_live (pod : Pod) (now : Time) (hlive : QuotaV1Pod pod now = true) :
    PodUsageFunc (Object.pod pod) now
      = Except.ok (quotapkg.Add [(podObjectCountName, 1)]
          (podComputeUsageHelper
            (pod.InitContainers.foldl (fun x c => quotapkg.Max x c.Requests)
              (pod.Containers.foldl (fun x c => quotapkg.Add x c.Requests) []))
            (pod.InitContainers.foldl (fun x c => quotapkg.Max x c.Limits)
              (pod.Containers.foldl (fun x c => quotapkg.Add x c.Limits) [])))) := by
  simp only [PodUsageFunc, toExternalPodOrError, hlive, sumContainers_eq,
    maxInitContainers_eq]
  rfl

theorem lookup_Add_objectCount (rl : ResourceList) (k : ResourceName)
    (hk : k ≠ podObjectCountName) :
    lookup (quotapkg.Add [(podObjectCountName, 1)] rl) k = lookup rl k := by
  rw [lookup_Add]
  simp [lookup, Ne.symm hk]

/-- C2: for every pod that passes the liveness gate and every r among cpu, memory
and ephemeral-storage, PodUsageFunc charges requests.r and its bare alias r with
max(sum over the ordinary containers of requests[r], max over the init containers
of requests[r]), and limits.r with the same expression over the limits; each key is
present iff at least one ordinary or init container declares r there. -/
theorem PodUsageFunc_compute (pod : Pod) (now : Time) (r : ResourceName)
    (hlive : QuotaV1Pod pod now = true)
    (hr : r = ResourceCPU ∨ r = ResourceMemory ∨ r = ResourceEphemeralStorage) :
    ∃ usage, PodUsageFunc (Object.pod pod) now = Except.ok usage
      ∧ lookup usage ("requests." ++ r)
          = (if declaredBy Container.Requests pod r
              then some (effectiveUsage Container.Requests pod r) else none)
      ∧ lookup usage r
          = (if declaredBy Container.Requests pod r
              then some (effectiveUsage Container.Requests pod r) else none)
      ∧ lookup usage ("limits." ++ r)
          = (if declaredBy Container.Limits pod r
              then some (effectiveUsage Container.Limits pod r) else none) := by
  refine ⟨_, PodUsageFunc_live pod now hlive, ?_⟩
  obtain ⟨⟨c1, c2, c3⟩, ⟨m1, m2, m3⟩, ⟨e1, e2, e3⟩⟩ := lookup_helper_compute
    (pod.InitContainers.foldl (fun x c => quotapkg.Max x c.Requests)
      (pod.Containers.foldl (fun x c => quotapkg.Add x c.Requests) []))
    (pod.InitContainers.foldl (fun x c => quotapkg.Max x c.Limits)
      (pod.Containers.foldl (fun x c => quotapkg.Add x c.Limits) []))
  have hreq := lookup_effective Container.Requests pod
  have hlim := lookup_effective Container.Limits pod
  rcases hr with rfl | rfl | rfl
  · refine ⟨?_, ?_, ?_⟩
    · rw [lookup_Add_objectCount _ _ (by decide)]
      exact (c2.trans (hreq ResourceCPU))
    · rw [lookup_Add_objectCount _ _ (by decide)]
      exact (c1.trans (hreq ResourceCPU))
    · rw [lookup_Add_objectCount _ _ (by decide)]
      exact (c3.trans (hlim ResourceCPU))
  · refine ⟨?_, ?_, ?_⟩
    · rw [lookup_Add_objectCount _ _ (by decide)]
      exact (m2.trans (hreq ResourceMemory))
    · rw [lookup_Add_objectCount _ _ (by decide)]
      exact (m1.trans (hreq ResourceMemory))
    · rw [lookup_Add_objectCount _ _ (by decide)]
      exact (m3.trans (hlim ResourceMemory))
  · refine ⟨?_, ?_, ?_⟩
    · rw [lookup_Add_objectCount _ _ (by decide)]
      exact (e2.trans (hreq ResourceEphemeralStorage))
    · rw [lookup_Add_objectCount _ _ (by decide)]
      exact (e1.trans (hreq ResourceEphemeralStorage))
    · rw [lookup_Add_objectCount _ _ (by decide)]
      exact (e3.trans (hlim ResourceEphemeralStorage))

theorem PodUsageFunc_compute_witness :
    (QuotaV1Pod
        { Containers := [{ Requests := [("cpu", 2)] }, { Requests := [("cpu", 3)] }],
          InitContainers := [{ Requests := [("cpu", 4)], Limits := [("cpu", 9)] }] } 0 = true
      ∧ (ResourceCPU = ResourceCPU ∨ ResourceCPU = ResourceMemory
          ∨ ResourceCPU = ResourceEphemeralStorage))
    ∧ ∃ usage,
        PodUsageFunc (Object.pod
          { Containers := [{ Requests := [("cpu", 2)] }, { Requests := [("cpu", 3)] }],
            InitContainers := [{ Requests := [("cpu", 4)], Limits := [("cpu", 9)] }] }) 0
          = Except.ok usage
        ∧ lookup usage "requests.cpu" = some 5 ∧ lookup usage "cpu" = some 5
        ∧ lookup usage "limits.cpu" = some 9 := by
  refine ⟨⟨by decide, Or.inl rfl⟩, ?_⟩
  obtain ⟨usage, h1, h2, h3, h4⟩ := PodUsageFunc_compute
    { Containers := [{ Requests := [("cpu", 2)] }, { Requests := [("cpu", 3)] }],
      InitContainers := [{ Requests := [("cpu", 4)], Limits := [("cpu", 9)] }] } 0
    ResourceCPU (by decide) (Or.inl rfl)
  refine ⟨usage, h1, ?_, ?_, ?_⟩
  · rw [show ("requests.cpu" : String) = "requests." ++ ResourceCPU by decide, h2]; decide
  · rw [show ("cpu" : String) = ResourceCPU by decide, h3]; decide
  · rw [show ("limits.cpu" : String) = "limits." ++ ResourceCPU by decide, h4]; decide

theorem mem_Insert (s : StringSet) (items : List String) (x : String) :
    x ∈ StringSet.Insert s items ↔ x ∈ s ∨ x ∈ items := by
  unfold StringSet.Insert
  induction items generalizing s with
  | nil => simp
  | cons hd tl ih =>
    rw [List.foldl_cons, ih]
    by_cases h : hd ∈ s
    · simp only [h, if_true, List.mem_cons]
      constructor
      · rintro (h1 | h1)
        · exact Or.inl h1
        · exact Or.inr (Or.inr h1)
      · rintro (h1 | h1 | h1)
        · exact Or.inl h1
        · exact Or.inl (h1 ▸ h)
        · exact Or.inr h1
    · simp only [h, if_false, List.mem_append, List.mem_singleton, List.mem_cons]
      tauto

theorem nodup_Insert (s : StringSet) (items : List String) (h : s.Nodup) :
    (StringSet.Insert s items).Nodup := by
  unfold StringSet.Insert
  induction items generalizing s with
  | nil => exact h
  | cons hd tl ih =>
    rw [List.foldl_cons]
    apply ih
    by_cases hm : hd ∈ s
    · simp only [hm, if_true]; exact h
    · simp only [hm, if_false]
      rw [List.nodup_append]
      refine ⟨h, List.nodup_singleton _, ?_⟩
      intro a ha hb
      rw [List.mem_singleton] at hb
      exact hm (hb ▸ ha)

theorem mem_keys_iff (rl : ResourceList) (k : ResourceName) :
    k ∈ quotapkg.ResourceNames rl ↔ (lookup rl k).isSome = true := by
  unfold quotapkg.ResourceNames
  induction rl with
  | nil => simp [lookup]
  | cons hd tl ih =>
    obtain ⟨a, b⟩ := hd
    by_cases h : a = k
    · simp [lookup, h]
    · simp only [List.map_cons, List.mem_cons, lookup, h, if_false, ih]
      constructor
      · rintro (h1 | h1)
        · exact absurd h1.symm h
        · exact h1
      · intro h1; exact Or.inr h1

theorem mem_containerSet (c : Container) (x : String) :
    x ∈ quotapkg.ToSet (quotapkg.ResourceNames (podComputeUsageHelper c.Requests c.Limits))
      ↔ (lookup (podComputeUsageHelper c.Requests c.Limits) x).isSome = true := by
  unfold quotapkg.ToSet
  rw [mem_Insert, mem_keys_iff]
  simp

theorem Equal_superset (a b : StringSet) (h : StringSet.Equal a b = true) :
    ∀ x ∈ b, x ∈ a := by
  unfold StringSet.Equal at h
  simp only [Bool.and_eq_true, List.all_eq_true, decide_eq_true_eq] at h
  exact h.2

/-- What one call of enforcePodContainerConstraints adds to the missing set. -/
theorem mem_enforce (order : List String → List String)
    (hperm : ∀ l, (order l).Perm l) (c : Container) (requiredSet missingSet : StringSet)
    (x : String) :
    x ∈ enforcePodContainerConstraints order c requiredSet missingSet
      ↔ x ∈ missingSet ∨ (x ∈ requiredSet
          ∧ (lookup (podComputeUsageHelper c.Requests c.Limits) x).isSome = false) := by
  unfold enforcePodContainerConstraints
  simp only []
  by_cases heq : StringSet.Equal
      (quotapkg.ToSet (quotapkg.ResourceNames (podComputeUsageHelper c.Requests c.Limits)))
      requiredSet = true
  · simp only [heq, Bool.not_true, Bool.false_eq_true, if_false]
    constructor
    · intro h; exact Or.inl h
    · rintro (h | ⟨h1, h2⟩)
      · exact h
      · have := (mem_containerSet c x).mp (Equal_superset _ _ heq x h1)
        rw [this] at h2
        exact Bool.noConfusion h2
  · simp only [heq, Bool.not_false, if_true]
    rw [mem_Insert, (hperm _).mem_iff]
    unfold StringSet.Difference
    rw [List.mem_filter]
    simp only [decide_not, Bool.not_eq_true', decide_eq_false_iff_not, mem_containerSet]
    simp

theorem nodup_enforce (order : List String → List String) (c : Container)
    (requiredSet missingSet : StringSet) (h : missingSet.Nodup) :
    (enforcePodContainerConstraints order c requiredSet missingSet).Nodup := by
  unfold enforcePodContainerConstraints
  simp only []
  split
  · exact nodup_Insert _ _ h
  · exact h

theorem mem_foldl_enforce (order : List String → List String)
    (hperm : ∀ l, (order l).Perm l) (cs : List Container)
    (requiredSet missingSet : StringSet) (x : String) :
    x ∈ cs.foldl (fun m c => enforcePodContainerConstraints order c requiredSet m) missingSet
      ↔ x ∈ missingSet ∨ (x ∈ requiredSet ∧ ∃ c ∈ cs,
          (lookup (podComputeUsageHelper c.Requests c.Limits) x).isSome = false) := by
  induction cs generalizing missingSet with
  | nil => simp
  | cons hd tl ih =>
    rw [List.foldl_cons, ih, mem_enforce order hperm]
    simp only [List.mem_cons, exists_eq_or_imp]
    tauto

theorem nodup_foldl_enforce (order : List String → List String) (cs : List Container)
    (requiredSet missingSet : StringSet) (h : missingSet.Nodup) :
    (cs.foldl (fun m c => enforcePodContainerConstraints order c requiredSet m)
      missingSet).Nodup := by
  induction cs generalizing missingSet with
  | nil => exact h
  | cons hd tl ih =>
    rw [List.foldl_cons]
    exact ih _ (nodup_enforce order hd requiredSet missingSet h)

/-- On the legacy set, a key of the container usage is present iff the container
declares the resource. -/
theorem isSome_helper_validation (c : Container) (x : String) (hx : x ∈ validationSet) :
    (lookup (podComputeUsageHelper c.Requests c.Limits) x).isSome = declaresResource c x := by
  obtain ⟨⟨c1, c2, c3⟩, ⟨m1, m2, m3⟩, _⟩ := lookup_helper_compute c.Requests c.Limits
  simp only [validationSet, List.mem_cons, List.mem_singleton, List.not_mem_nil,
    or_false] at hx
  rcases hx with h | h | h | h | h | h <;> subst h
  · rw [c1]; rfl
  · rw [m1]; rfl
  · rw [c2]; rfl
  · rw [m2]; rfl
  · rw [c3]; rfl
  · rw [m3]; rfl

theorem Constraints_eq (order : List String → List String) (required : List ResourceName)
    (pod : Pod) :
    Constraints order required (Object.pod pod)
      = if (missingOf order required pod).length = 0 then Except.ok ()
        else Except.error
          ("must specify " ++ ",".intercalate (order (missingOf order required pod))) := by
  rfl

theorem mem_missingOf (order : List String → List String)
    (hperm : ∀ l, (order l).Perm l) (required : List ResourceName) (pod : Pod)
    (x : String) :
    x ∈ missingOf order required pod
      ↔ x ∈ required ∧ x ∈ validationSet
          ∧ ∃ c ∈ pod.Containers ++ pod.InitContainers, declaresResource c x = false := by
  unfold missingOf
  rw [mem_foldl_enforce order hperm, mem_foldl_enforce order hperm]
  have hreq : x ∈ StringSet.Intersection (quotapkg.ToSet required) validationSet
      ↔ x ∈ required ∧ x ∈ validationSet := by
    unfold StringSet.Intersection quotapkg.ToSet
    rw [List.mem_filter, mem_Insert]
    simp
  rw [hreq]
  constructor
  · rintro ((h | ⟨⟨h1, h2⟩, c, hc, h3⟩) | ⟨⟨h1, h2⟩, c, hc, h3⟩)
    · cases h
    · rw [isSome_helper_validation c x h2] at h3
      exact ⟨h1, h2, c, List.mem_append_left _ hc, h3⟩
    · rw [isSome_helper_validation c x h2] at h3
      exact ⟨h1, h2, c, List.mem_append_right _ hc, h3⟩
  · rintro ⟨h1, h2, c, hc, h3⟩
    rw [← isSome_helper_validation c x h2] at h3
    rcases List.mem_append.mp hc with hc | hc
    · exact Or.inl (Or.inr ⟨⟨h1, h2⟩, c, hc, h3⟩)
    · exact Or.inr ⟨⟨h1, h2⟩, c, hc, h3⟩

theorem nodup_missingOf (order : List String → List String) (required : List ResourceName)
    (pod : Pod) : (missingOf order required pod).Nodup := by
  unfold missingOf
  exact nodup_foldl_enforce _ _ _ _ (nodup_foldl_enforce _ _ _ _ List.nodup_nil)

theorem declaresResource_memory (c : Container) :
    declaresResource c ResourceMemory = (lookup c.Requests ResourceMemory).isSome := by
  simp [declaresResource, ResourceMemory, ResourceCPU, ResourceRequestsCPU,
    ResourceLimitsCPU]

/-- C6: for every pod and every required list, Constraints returns nil iff every
ordinary and init container declares every resource of the required list that lies
in the legacy set of cpu, memory, requests.cpu, requests.memory, limits.cpu and
limits.memory.  Hence a required list with none of the six names never rejects, a
pod without containers is always accepted, and a required list with memory rejects
a pod that has a container without a memory request. -/
theorem Constraints_nil_iff (order : List String → List String)
    (hperm : ∀ l, (order l).Perm l) (required : List ResourceName) (pod : Pod) :
    (Constraints order required (Object.pod pod) = Except.ok ()
        ↔ ∀ c ∈ pod.Containers ++ pod.InitContainers, ∀ r ∈ required,
            r ∈ validationSet → declaresResource c r = true)
      ∧ ((∀ r ∈ required, r ∉ validationSet) →
          Constraints order required (Object.pod pod) = Except.ok ())
      ∧ (pod.Containers = [] → pod.InitContainers = [] →
          Constraints order required (Object.pod pod) = Except.ok ())
      ∧ (ResourceMemory ∈ required →
          (∃ c ∈ pod.Containers ++ pod.InitContainers,
            lookup c.Requests ResourceMemory = none) →
          ∃ err, Constraints order required (Object.pod pod) = Except.error err) := by
  have hiff : Constraints order required (Object.pod pod) = Except.ok ()
      ↔ ∀ c ∈ pod.Containers ++ pod.InitContainers, ∀ r ∈ required,
          r ∈ validationSet → declaresResource c r = true := by
    rw [Constraints_eq]
    constructor
    · intro h c hc r hr hv
      by_contra hd
      have hmem : r ∈ missingOf order required pod :=
        (mem_missingOf order hperm required pod r).mpr
          ⟨hr, hv, c, hc, by simpa using hd⟩
      split at h
      · rename_i hlen
        rw [List.length_eq_zero] at hlen
        rw [hlen] at hmem
        cases hmem
      · cases h
    · intro h
      have hnil : missingOf order required pod = [] := by
        apply List.eq_nil_iff_forall_not_mem.mpr
        intro x hx
        obtain ⟨h1, h2, c, hc, h3⟩ := (mem_missingOf order hperm required pod x).mp hx
        rw [h c hc x h1 h2] at h3
        exact Bool.noConfusion h3
      simp [hnil]
  refine ⟨hiff, ?_, ?_, ?_⟩
  · intro hnone
    exact hiff.mpr (fun c _ r hr hv => absurd hv (hnone r hr))
  · intro h1 h2
    apply hiff.mpr
    intro c hc
    rw [h1, h2] at hc
    cases hc
  · rintro hmem ⟨c, hc, hnone⟩
    cases hres : Constraints order required (Object.pod pod) with
    | error err => exact ⟨err, rfl⟩
    | ok u =>
      have := hiff.mp hres c hc ResourceMemory hmem (by decide)
      rw [declaresResource_memory, hnone] at this
      exact Bool.noConfusion this

theorem Constraints_nil_iff_witness :
    (∀ l : List String, (id l).Perm l)
    ∧ (Constraints id ["memory", "ephemeral-storage"]
          (Object.pod { Containers := [{ Requests := [("memory", 1)] }] }) = Except.ok ()
        ↔ ∀ c ∈ ({ Containers := [{ Requests := [("memory", 1)] }] } : Pod).Containers
              ++ ({ Containers := [{ Requests := [("memory", 1)] }] } : Pod).InitContainers,
            ∀ r ∈ ["memory", "ephemeral-storage"],
              r ∈ validationSet → declaresResource c r = true) :=
  ⟨fun l => List.Perm.refl l,
    (Constraints_nil_iff id (fun l => List.Perm.refl l) ["memory", "ephemeral-storage"]
      { Containers := [{ Requests := [("memory", 1)] }] }).1⟩

/-- C7: whenever Constraints rejects a pod, its error text is "must specify "
followed by the comma-separated list of exactly the legacy-required resources that
at least one ordinary or init container does not declare, each listed once; with
required [memory] and a container without a memory request the text is
"must specify memory". -/
theorem Constraints_error_text (order : List String → List String)
    (hperm : ∀ l, (order l).Perm l) (required : List ResourceName) (pod : Pod) :
    (∀ err, Constraints order required (Object.pod pod) = Except.error err →
        ∃ missing : List String,
          err = "must specify " ++ ",".intercalate missing
            ∧ missing.Nodup
            ∧ ∀ x, x ∈ missing ↔ x ∈ required ∧ x ∈ validationSet
                ∧ ∃ c ∈ pod.Containers ++ pod.InitContainers, declaresResource c x = false)
      ∧ ((∃ c ∈ pod.Containers ++ pod.InitContainers,
            lookup c.Requests ResourceMemory = none) →
          Constraints order [ResourceMemory] (Object.pod pod)
            = Except.error "must specify memory") := by
  constructor
  · intro err herr
    rw [Constraints_eq] at herr
    split at herr
    · cases herr
    · injection herr with herr
      refine ⟨order (missingOf order required pod), herr.symm, ?_, ?_⟩
      · exact (hperm _).nodup_iff.mpr (nodup_missingOf order required pod)
      · intro x
        rw [(hperm _).mem_iff]
        exact mem_missingOf order hperm required pod x
  · rintro ⟨c, hc, hnone⟩
    have hmem : ∀ x, x ∈ missingOf order [ResourceMemory] pod ↔ x = ResourceMemory := by
      intro x
      rw [mem_missingOf order hperm]
      constructor
      · rintro ⟨h1, _, _⟩
        simpa using h1
      · intro hx
        subst hx
        refine ⟨List.mem_singleton_self _, by decide, c, hc, ?_⟩
        rw [declaresResource_memory, hnone]
        rfl
    have hnd := nodup_missingOf order [ResourceMemory] pod
    have hperm2 : (missingOf order [ResourceMemory] pod).Perm [ResourceMemory] := by
      rw [List.perm_ext_iff_of_nodup hnd (List.nodup_singleton _)]
      intro x
      rw [hmem, List.mem_singleton]
    have hsingle : order (missingOf order [ResourceMemory] pod) = [ResourceMemory] :=
      List.perm_singleton.mp ((hperm _).trans hperm2)
    have hlen : (missingOf order [ResourceMemory] pod).length ≠ 0 := by
      rw [hperm2.length_eq]; decide
    rw [Constraints_eq, if_neg hlen, hsingle]
    decide

theorem Constraints_error_text_witness :
    (∀ l : List String, (id l).Perm l)
    ∧ Constraints id ["memory", "cpu", "pods"]
        (Object.pod { Containers := [{ Requests := [("cpu", 1)] }, {}] })
        = Except.error "must specify memory,cpu"
    ∧ ∃ missing : List String,
        "must specify memory,cpu" = "must specify " ++ ",".intercalate missing
          ∧ missing.Nodup
          ∧ ∀ x, x ∈ missing ↔ x ∈ ["memory", "cpu", "pods"] ∧ x ∈ validationSet
              ∧ ∃ c ∈ ({ Containers := [{ Requests := [("cpu", 1)] }, {}] } : Pod).Containers
                  ++ ({ Containers := [{ Requests := [("cpu", 1)] }, {}] } :
                    Pod).InitContainers,
                declaresResource c x = false :=
  ⟨fun l => List.Perm.refl l, by decide,
    (Constraints_error_text id (fun l => List.Perm.refl l) ["memory", "cpu", "pods"]
      { Containers := [{ Requests := [("cpu", 1)] }, {}] }).1
      "must specify memory,cpu" (by decide)⟩

/-- C8, evaluated on the code: Constraints accepts a pod whose only container
requests more cpu and more memory than its limits, although the quota tracks the
requests and the limits of both; it compares no request with a limit. -/
theorem Constraints_accepts_request_above_limit :
    Constraints id
        ["cpu", "memory", "requests.cpu", "limits.cpu", "requests.memory", "limits.memory"]
        (Object.pod
          { Containers :=
              [{ Requests := [("cpu", 2), ("memory", 2)],
                 Limits := [("cpu", 1), ("memory", 1)] }] })
      = Except.ok () := by
  decide

/-! ## The breakdown helpers of util.go -/

theorem insertLoop_absent (B : ResourceQuotasStatusByNamespace)
    (s : ResourceQuotaStatusByNamespace) (h : ∀ e ∈ B, e.Namespace ≠ s.Namespace) :
    insertLoop B s = (B, false) := by
  induction B with
  | nil => rfl
  | cons hd tl ih =>
    have h1 : hd.Namespace ≠ s.Namespace := h hd (List.mem_cons_self _ _)
    simp [insertLoop, h1, ih (fun e he => h e (List.mem_cons_of_mem _ he))]

theorem Insert_absent (B : ResourceQuotasStatusByNamespace)
    (s : ResourceQuotaStatusByNamespace) (h : ∀ e ∈ B, e.Namespace ≠ s.Namespace) :
    InsertResourceQuotasStatus B s = B ++ [s] := by
  simp [InsertResourceQuotasStatus, insertLoop_absent B s h]

theorem Insert_cons_ne (hd : ResourceQuotaStatusByNamespace)
    (tl : ResourceQuotasStatusByNamespace) (s : ResourceQuotaStatusByNamespace)
    (h : hd.Namespace ≠ s.Namespace) :
    InsertResourceQuotasStatus (hd :: tl) s = hd :: InsertResourceQuotasStatus tl s := by
  simp only [InsertResourceQuotasStatus, insertLoop, h, if_false]
  split <;> rfl

theorem insertLoop_fst (B : ResourceQuotasStatusByNamespace)
    (s : ResourceQuotaStatusByNamespace) :
    (insertLoop B s).1 = B.map (fun e => if e.Namespace = s.Namespace then s else e) := by
  induction B with
  | nil => rfl
  | cons hd tl ih =>
    by_cases h : hd.Namespace = s.Namespace <;> simp [insertLoop, h, ih]

theorem insertLoop_snd (B : ResourceQuotasStatusByNamespace)
    (s : ResourceQuotaStatusByNamespace) :
    (insertLoop B s).2 = true ↔ ∃ e ∈ B, e.Namespace = s.Namespace := by
  induction B with
  | nil => simp [insertLoop]
  | cons hd tl ih =>
    by_cases h : hd.Namespace = s.Namespace
    · simp [insertLoop, h]
    · simp [insertLoop, h, ih]

/-- The entries of the upserted breakdown. -/
theorem mem_Insert_status (B : ResourceQuotasStatusByNamespace)
    (s e : ResourceQuotaStatusByNamespace) :
    e ∈ InsertResourceQuotasStatus B s
      ↔ e = s ∨ (e ∈ B ∧ e.Namespace ≠ s.Namespace) := by
  induction B with
  | nil => simp [InsertResourceQuotasStatus, insertLoop]
  | cons hd tl ih =>
    by_cases h : hd.Namespace = s.Namespace
    · have hfound : (insertLoop (hd :: tl) s).2 = true :=
        (insertLoop_snd _ _).mpr ⟨hd, List.mem_cons_self _ _, h⟩
      unfold InsertResourceQuotasStatus
      simp only [hfound, Bool.not_true, Bool.false_eq_true, if_false]
      rw [insertLoop_fst, List.mem_map]
      constructor
      · rintro ⟨x, hx, rfl⟩
        by_cases hxs : x.Namespace = s.Namespace
        · simp [hxs]
        · simp only [hxs, if_false]
          exact Or.inr ⟨hx, hxs⟩
      · rintro (rfl | ⟨he, hne⟩)
        · exact ⟨hd, List.mem_cons_self _ _, by simp [h]⟩
        · exact ⟨e, he, by simp [hne]⟩
    · rw [Insert_cons_ne hd tl s h, List.mem_cons, ih, List.mem_cons]
      constructor
      · rintro (rfl | rfl | ⟨h1, h2⟩)
        · exact Or.inr ⟨Or.inl rfl, h⟩
        · exact Or.inl rfl
        · exact Or.inr ⟨Or.inr h1, h2⟩
      · rintro (rfl | ⟨rfl | h1, h2⟩)
        · exact Or.inr (Or.inl rfl)
        · exact Or.inl rfl
        · exact Or.inr (Or.inr ⟨h1, h2⟩)

/-- The namespaces of the upserted breakdown, in order. -/
theorem namespaces_Insert (B : ResourceQuotasStatusByNamespace)
    (s : ResourceQuotaStatusByNamespace) :
    (InsertResourceQuotasStatus B s).map (fun e => e.Namespace)
      = if s.Namespace ∈ B.map (fun e => e.Namespace) then B.map (fun e => e.Namespace)
        else B.map (fun e => e.Namespace) ++ [s.Namespace] := by
  induction B with
  | nil => simp [InsertResourceQuotasStatus, insertLoop]
  | cons hd tl ih =>
    by_cases h : hd.Namespace = s.Namespace
    · have hfound : (insertLoop (hd :: tl) s).2 = true :=
        (insertLoop_snd _ _).mpr ⟨hd, List.mem_cons_self _ _, h⟩
      unfold InsertResourceQuotasStatus
      simp only [hfound, Bool.not_true, Bool.false_eq_true, if_false]
      rw [insertLoop_fst, List.map_map]
      have hin : s.Namespace ∈ (hd :: tl).map (fun e => e.Namespace) := by
        simp [h]
      rw [if_pos hin]
      apply List.map_congr_left
      intro x _
      by_cases hxs : x.Namespace = s.Namespace <;> simp [hxs]
    · rw [Insert_cons_ne hd tl s h, List.map_cons, ih]
      by_cases hin : s.Namespace ∈ tl.map (fun e => e.Namespace)
      · have hin2 : s.Namespace ∈ (hd :: tl).map (fun e => e.Namespace) := by
          rw [List.map_cons]; exact List.mem_cons_of_mem _ hin
        rw [if_pos hin, if_pos hin2, List.map_cons]
      · have hin2 : s.Namespace ∉ (hd :: tl).map (fun e => e.Namespace) := by
          rw [List.map_cons, List.mem_cons]
          rintro (h1 | h1)
          · exact h h1.symm
          · exact hin h1
        rw [if_neg hin, if_neg hin2, List.map_cons, List.cons_append]

theorem nodup_Insert_status (B : ResourceQuotasStatusByNamespace)
    (s : ResourceQuotaStatusByNamespace) (h : (B.map (fun e => e.Namespace)).Nodup) :
    ((InsertResourceQuotasStatus B s).map (fun e => e.Namespace)).Nodup := by
  rw [namespaces_Insert]
  split
  · exact h
  · rename_i hin
    rw [List.nodup_append]
    refine ⟨h, List.nodup_singleton _, ?_⟩
    intro a ha hb
    rw [List.mem_singleton] at hb
    exact hin (hb ▸ ha)

theorem Get_absent (B : ResourceQuotasStatusByNamespace) (ns : String)
    (h : ∀ e ∈ B, e.Namespace ≠ ns) :
    GetResourceQuotasStatusByNamespace B ns = ({}, false) := by
  induction B with
  | nil => rfl
  | cons hd tl ih =>
    have h1 : hd.Namespace ≠ ns := h hd (List.mem_cons_self _ _)
    simp [GetResourceQuotasStatusByNamespace, h1,
      ih (fun e he => h e (List.mem_cons_of_mem _ he))]

/-- The upsert exchanges, in the sum, the old contribution of the namespace for
the new one. -/
theorem sumUsed_Insert (B : ResourceQuotasStatusByNamespace)
    (s : ResourceQuotaStatusByNamespace) (k : ResourceName)
    (h : (B.map (fun e => e.Namespace)).Nodup) :
    sumUsed (InsertResourceQuotasStatus B s) k
        + amount (GetResourceQuotasStatusByNamespace B s.Namespace).1.Used k
      = sumUsed B k + amount s.ResourceQuotaStatus.Used k := by
  induction B with
  | nil =>
    simp [InsertResourceQuotasStatus, insertLoop, GetResourceQuotasStatusByNamespace,
      sumUsed, amount, lookup]
  | cons hd tl ih =>
    rw [List.map_cons, List.nodup_cons] at h
    obtain ⟨hnot, hnd⟩ := h
    by_cases hns : hd.Namespace = s.Namespace
    · have habs : ∀ e ∈ tl, e.Namespace ≠ s.Namespace := by
        intro e he heq
        apply hnot
        rw [hns, ← heq]
        exact List.mem_map_of_mem _ he
      have e1 : InsertResourceQuotasStatus (hd :: tl) s = s :: tl := by
        simp [InsertResourceQuotasStatus, insertLoop, hns, insertLoop_absent tl s habs]
      rw [e1]
      simp only [GetResourceQuotasStatusByNamespace, hns, if_true, sumUsed, List.map_cons,
        List.sum_cons]
      omega
    · rw [Insert_cons_ne hd tl s hns]
      have e2 : GetResourceQuotasStatusByNamespace (hd :: tl) s.Namespace
          = GetResourceQuotasStatusByNamespace tl s.Namespace := by
        simp [GetResourceQuotasStatusByNamespace, hns]
      rw [e2]
      have := ih hnd
      simp only [sumUsed, List.map_cons, List.sum_cons] at this ⊢
      omega

theorem Get_le_sumUsed (B : ResourceQuotasStatusByNamespace) (ns : String)
    (k : ResourceName) :
    amount (GetResourceQuotasStatusByNamespace B ns).1.Used k ≤ sumUsed B k := by
  induction B with
  | nil => simp [GetResourceQuotasStatusByNamespace, amount, lookup]
  | cons hd tl ih =>
    by_cases hns : hd.Namespace = ns
    · simp only [GetResourceQuotasStatusByNamespace, hns, if_true, sumUsed, List.map_cons,
        List.sum_cons]
      omega
    · simp only [GetResourceQuotasStatusByNamespace, hns, if_false, sumUsed, List.map_cons,
        List.sum_cons] at ih ⊢
      omega

theorem Remove_eq_filter (B : ResourceQuotasStatusByNamespace) (ns : String) :
    RemoveResourceQuotasStatusByNamespace B ns
      = B.filter (fun e => decide (e.Namespace ≠ ns)) := by
  induction B with
  | nil => rfl
  | cons hd tl ih =>
    by_cases h : hd.Namespace = ns <;>
      simp [RemoveResourceQuotasStatusByNamespace, h, ih]

theorem mem_Remove (B : ResourceQuotasStatusByNamespace) (ns : String)
    (e : ResourceQuotaStatusByNamespace) :
    e ∈ RemoveResourceQuotasStatusByNamespace B ns ↔ e ∈ B ∧ e.Namespace ≠ ns := by
  rw [Remove_eq_filter, List.mem_filter]
  simp

theorem nodup_Remove (B : ResourceQuotasStatusByNamespace) (ns : String)
    (h : (B.map (fun e => e.Namespace)).Nodup) :
    ((RemoveResourceQuotasStatusByNamespace B ns).map (fun e => e.Namespace)).Nodup := by
  rw [Remove_eq_filter]
  exact (List.filter_sublist B).map _ |>.nodup h

/-- Removing the namespace of an entry takes its contribution out of the sum. -/
theorem sumUsed_Remove (B : ResourceQuotasStatusByNamespace)
    (e : ResourceQuotaStatusByNamespace) (k : ResourceName) (he : e ∈ B)
    (h : (B.map (fun e => e.Namespace)).Nodup) :
    sumUsed (RemoveResourceQuotasStatusByNamespace B e.Namespace) k
        + amount e.ResourceQuotaStatus.Used k
      = sumUsed B k := by
  induction B with
  | nil => cases he
  | cons hd tl ih =>
    rw [List.map_cons, List.nodup_cons] at h
    obtain ⟨hnot, hnd⟩ := h
    rcases List.mem_cons.mp he with rfl | he2
    · have habs : RemoveResourceQuotasStatusByNamespace tl e.Namespace = tl := by
        rw [Remove_eq_filter, List.filter_eq_self]
        intro x hx
        simp only [ne_eq, decide_not, Bool.not_eq_true', decide_eq_false_iff_not]
        intro heq
        apply hnot
        rw [← heq]
        exact List.mem_map_of_mem _ hx
      simp only [RemoveResourceQuotasStatusByNamespace, if_true, habs, sumUsed,
        List.map_cons, List.sum_cons]
      omega
    · have hne : hd.Namespace ≠ e.Namespace := by
        intro heq
        apply hnot
        rw [heq]
        exact List.mem_map_of_mem _ he2
      have := ih he2 hnd
      simp only [RemoveResourceQuotasStatusByNamespace, hne, if_false, sumUsed,
        List.map_cons, List.sum_cons] at this ⊢
      omega

/-! ## The reconciler pass -/

/-- The usage the reconciler calculates for a namespace under the spec of `q`. -/
theorem foldNamespace_ok (r : SharedQuotaReconciler) (q q' : SharedQuota) (ns : String)
    (h : foldNamespace r q ns = Except.ok q') :
    ∃ u, r.quotaUsageCalculationFunc ns q.Spec.Quota.Scopes q.Spec.Quota.Hard
          q.Spec.Quota.ScopeSelector = Except.ok u
      ∧ q'.Name = q.Name ∧ q'.UID = q.UID ∧ q'.Spec = q.Spec
      ∧ q'.Status.Total.Hard = q.Status.Total.Hard
      ∧ q'.Status.Total.Used
          = quotapkg.Add (quotapkg.Subtract q.Status.Total.Used
              (GetResourceQuotasStatusByNamespace q.Status.Namespaces ns).1.Used) u
      ∧ q'.Status.Namespaces
          = InsertResourceQuotasStatus q.Status.Namespaces
              { Namespace := ns,
                ResourceQuotaStatus := { Used := u, Hard := q.Spec.Quota.Hard } } := by
  unfold foldNamespace at h
  simp only [] at h
  split at h
  · cases h
  · rename_i u hu
    injection h with h
    subst h
    exact ⟨u, hu, rfl, rfl, rfl, rfl, rfl, rfl⟩

theorem foldNamespace_invariant (r : SharedQuotaReconciler) (q q' : SharedQuota)
    (ns : String) (h : foldNamespace r q ns = Except.ok q')
    (hinv : StatusInvariant q.Status) (hnd : NamespacesNodup q.Status) :
    StatusInvariant q'.Status ∧ NamespacesNodup q'.Status := by
  obtain ⟨u, _, _, _, _, _, hT, hB⟩ := foldNamespace_ok r q q' ns h
  constructor
  · intro k
    rw [hT, hB, amount_Add, amount_Subtract]
    have h1 := sumUsed_Insert q.Status.Namespaces
      { Namespace := ns, ResourceQuotaStatus := { Used := u, Hard := q.Spec.Quota.Hard } }
      k hnd
    have h2 := Get_le_sumUsed q.Status.Namespaces ns k
    have h3 := hinv k
    simp only [] at h1
    omega
  · unfold NamespacesNodup
    rw [hB]
    exact nodup_Insert_status _ _ hnd

theorem foldNamespaces_invariant (r : SharedQuotaReconciler) (l : List String)
    (q q' : SharedQuota) (h : foldNamespaces r l q = Except.ok q')
    (hinv : StatusInvariant q.Status) (hnd : NamespacesNodup q.Status) :
    StatusInvariant q'.Status ∧ NamespacesNodup q'.Status := by
  induction l generalizing q with
  | nil =>
    simp only [foldNamespaces] at h
    injection h with h
    subst h
    exact ⟨hinv, hnd⟩
  | cons hd tl ih =>
    simp only [foldNamespaces] at h
    split at h
    · cases h
    · rename_i q1 h1
      obtain ⟨i1, n1⟩ := foldNamespace_invariant r q q1 hd h1 hinv hnd
      exact ih q1 h i1 n1

theorem pruneNamespace_invariant (names : List String) (q : SharedQuota)
    (e : ResourceQuotaStatusByNamespace) (he : e ∈ q.Status.Namespaces)
    (hinv : StatusInvariant q.Status) (hnd : NamespacesNodup q.Status) :
    StatusInvariant (pruneNamespace names q e).Status
      ∧ NamespacesNodup (pruneNamespace names q e).Status := by
  unfold pruneNamespace
  simp only []
  split
  · constructor
    · intro k
      simp only []
      rw [amount_Subtract]
      have h1 := sumUsed_Remove q.Status.Namespaces e k he hnd
      have h3 := hinv k
      omega
    · exact nodup_Remove _ _ hnd
  · exact ⟨hinv, hnd⟩

theorem pruneNamespace_mem (names : List String) (q : SharedQuota)
    (e x : ResourceQuotaStatusByNamespace) (hx : x ∈ q.Status.Namespaces)
    (hne : x.Namespace ≠ e.Namespace) : x ∈ (pruneNamespace names q e).Status.Namespaces := by
  unfold pruneNamespace
  simp only []
  split
  · exact (mem_Remove _ _ _).mpr ⟨hx, hne⟩
  · exact hx

theorem foldl_prune_invariant (names : List String)
    (l : ResourceQuotasStatusByNamespace) (q : SharedQuota)
    (hl : ∀ e ∈ l, e ∈ q.Status.Namespaces) (hlnd : (l.map (fun e => e.Namespace)).Nodup)
    (hinv : StatusInvariant q.Status) (hnd : NamespacesNodup q.Status) :
    StatusInvariant (l.foldl (pruneNamespace names) q).Status
      ∧ NamespacesNodup (l.foldl (pruneNamespace names) q).Status := by
  induction l generalizing q with
  | nil => exact ⟨hinv, hnd⟩
  | cons hd tl ih =>
    rw [List.foldl_cons]
    rw [List.map_cons, List.nodup_cons] at hlnd
    obtain ⟨hnot, hlnd2⟩ := hlnd
    obtain ⟨i1, n1⟩ := pruneNamespace_invariant names q hd
      (hl hd (List.mem_cons_self _ _)) hinv hnd
    apply ih _ _ hlnd2 i1 n1
    intro x hx
    apply pruneNamespace_mem names q hd x (hl x (List.mem_cons_of_mem _ hx))
    intro heq
    apply hnot
    rw [← heq]
    exact List.mem_map_of_mem _ hx

/-- The parts of a successful computation of reconciledQuota. -/
theorem reconciledQuota_ok (r : SharedQuotaReconciler) (q q' : SharedQuota)
    (h : reconciledQuota r q = Except.ok q') :
    ∃ names q1, r.ListNamespaces q.Spec.LabelSelector = Except.ok names
      ∧ foldNamespaces r names q = Except.ok q1
      ∧ q' = { (q1.Status.Namespaces.foldl (pruneNamespace names) q1) with
          Status := { (q1.Status.Namespaces.foldl (pruneNamespace names) q1).Status with
            Total := { (q1.Status.Namespaces.foldl (pruneNamespace names) q1).Status.Total with
              Hard := (q1.Status.Namespaces.foldl (pruneNamespace names) q1).Spec.Quota.Hard
                } } } := by
  unfold reconciledQuota at h
  simp only [] at h
  split at h
  · cases h
  · rename_i names hnames
    split at h
    · cases h
    · rename_i q1 hq1
      injection h with h
      exact ⟨names, q1, hnames, hq1, h.symm⟩

theorem reconciledQuota_invariant (r : SharedQuotaReconciler) (q q' : SharedQuota)
    (h : reconciledQuota r q = Except.ok q')
    (hinv : StatusInvariant q.Status) (hnd : NamespacesNodup q.Status) :
    StatusInvariant q'.Status ∧ NamespacesNodup q'.Status := by
  obtain ⟨names, q1, _, hq1, hq'⟩ := reconciledQuota_ok r q q' h
  obtain ⟨i1, n1⟩ := foldNamespaces_invariant r names q q1 hq1 hinv hnd
  obtain ⟨i2, n2⟩ := foldl_prune_invariant names q1.Status.Namespaces q1
    (fun e he => he) n1 i1 n1
  subst hq'
  exact ⟨i2, n2⟩

theorem StatusCovers_of_invariant (st : SharedQuotaStatus) (h : StatusInvariant st) :
    StatusCovers st := by
  intro k
  rw [h k]

theorem foldNamespace_covers (r : SharedQuotaReconciler) (q q' : SharedQuota)
    (ns : String) (h : foldNamespace r q ns = Except.ok q')
    (hcov : StatusCovers q.Status) (hnd : NamespacesNodup q.Status) :
    StatusCovers q'.Status ∧ NamespacesNodup q'.Status := by
  obtain ⟨u, _, _, _, _, _, hT, hB⟩ := foldNamespace_ok r q q' ns h
  constructor
  · intro k
    rw [hT, hB, amount_Add, amount_Subtract]
    have h1 := sumUsed_Insert q.Status.Namespaces
      { Namespace := ns, ResourceQuotaStatus := { Used := u, Hard := q.Spec.Quota.Hard } }
      k hnd
    have h2 := Get_le_sumUsed q.Status.Namespaces ns k
    have h3 := hcov k
    simp only [] at h1
    omega
  · unfold NamespacesNodup
    rw [hB]
    exact nodup_Insert_status _ _ hnd

theorem foldNamespaces_covers (r : SharedQuotaReconciler) (l : List String)
    (q q' : SharedQuota) (h : foldNamespaces r l q = Except.ok q')
    (hcov : StatusCovers q.Status) (hnd : NamespacesNodup q.Status) :
    StatusCovers q'.Status ∧ NamespacesNodup q'.Status := by
  induction l generalizing q with
  | nil =>
    simp only [foldNamespaces] at h
    injection h with h
    subst h
    exact ⟨hcov, hnd⟩
  | cons hd tl ih =>
    simp only [foldNamespaces] at h
    split at h
    · cases h
    · rename_i q1 h1
      obtain ⟨i1, n1⟩ := foldNamespace_covers r q q1 hd h1 hcov hnd
      exact ih q1 h i1 n1

theorem pruneNamespace_covers (names : List String) (q : SharedQuota)
    (e : ResourceQuotaStatusByNamespace) (he : e ∈ q.Status.Namespaces)
    (hcov : StatusCovers q.Status) (hnd : NamespacesNodup q.Status) :
    StatusCovers (pruneNamespace names q e).Status
      ∧ NamespacesNodup (pruneNamespace names q e).Status := by
  unfold pruneNamespace
  simp only []
  split
  · constructor
    · intro k
      simp only []
      rw [amount_Subtract]
      have h1 := sumUsed_Remove q.Status.Namespaces e k he hnd
      have h3 := hcov k
      omega
    · exact nodup_Remove _ _ hnd
  · exact ⟨hcov, hnd⟩

theorem foldl_prune_covers (names : List String)
    (l : ResourceQuotasStatusByNamespace) (q : SharedQuota)
    (hl : ∀ e ∈ l, e ∈ q.Status.Namespaces) (hlnd : (l.map (fun e => e.Namespace)).Nodup)
    (hcov : StatusCovers q.Status) (hnd : NamespacesNodup q.Status) :
    StatusCovers (l.foldl (pruneNamespace names) q).Status
      ∧ NamespacesNodup (l.foldl (pruneNamespace names) q).Status := by
  induction l generalizing q with
  | nil => exact ⟨hcov, hnd⟩
  | cons hd tl ih =>
    rw [List.foldl_cons]
    rw [List.map_cons, List.nodup_cons] at hlnd
    obtain ⟨hnot, hlnd2⟩ := hlnd
    obtain ⟨i1, n1⟩ := pruneNamespace_covers names q hd
      (hl hd (List.mem_cons_self _ _)) hcov hnd
    apply ih _ _ hlnd2 i1 n1
    intro x hx
    apply pruneNamespace_mem names q hd x (hl x (List.mem_cons_of_mem _ hx))
    intro heq
    apply hnot
    rw [← heq]
    exact List.mem_map_of_mem _ hx

/-- A pass keeps Total.Used above the sum of its breakdown. -/
theorem reconciledQuota_covers (r : SharedQuotaReconciler) (q q' : SharedQuota)
    (h : reconciledQuota r q = Except.ok q')
    (hcov : StatusCovers q.Status) (hnd : NamespacesNodup q.Status) :
    StatusCovers q'.Status ∧ NamespacesNodup q'.Status := by
  obtain ⟨names, q1, _, hq1, hq'⟩ := reconciledQuota_ok r q q' h
  obtain ⟨i1, n1⟩ := foldNamespaces_covers r names q q1 hq1 hcov hnd
  obtain ⟨i2, n2⟩ := foldl_prune_covers names q1.Status.Namespaces q1
    (fun e he => he) n1 i1 n1
  subst hq'
  exact ⟨i2, n2⟩

theorem sync_ok (r : SharedQuotaReconciler) (q : SharedQuota)
    (h : (syncQuotaForNamespaces r q).err = none) :
    ∃ q', reconciledQuota r q = Except.ok q'
      ∧ ((DeepEqual q' q = true ∧ (syncQuotaForNamespaces r q).update = none)
        ∨ (DeepEqual q' q = false ∧ (syncQuotaForNamespaces r q).update = some q')) := by
  unfold syncQuotaForNamespaces at h ⊢
  cases hrec : reconciledQuota r q with
  | error e => rw [hrec] at h; simp at h
  | ok q' =>
    refine ⟨q', rfl, ?_⟩
    by_cases hde : DeepEqual q' q = true
    · left; simp [hde]
    · right
      simp only [Bool.not_eq_true] at hde
      refine ⟨hde, ?_⟩
      simp only [hde]
      cases hup : r.StatusUpdate q' <;> simp

/-- C9: syncQuotaForNamespaces keeps the status invariant that Total.Used is, per
resource, the sum of the Used of the breakdown entries.  It holds for the empty
initial status; and for every quota whose status satisfies it with pairwise
distinct breakdown namespaces, every namespace listing and every calculated usage,
the status computed by a pass that returns nil satisfies it again, and so does the
object in the store after the pass.  Subtraction is clamped at zero per key. -/
theorem syncQuotaForNamespaces_invariant (r : SharedQuotaReconciler) (q : SharedQuota)
    (hinv : StatusInvariant q.Status) (hnd : NamespacesNodup q.Status)
    (hok : (syncQuotaForNamespaces r q).err = none) :
    StatusInvariant {}
      ∧ (∃ q', reconciledQuota r q = Except.ok q'
          ∧ StatusInvariant q'.Status ∧ NamespacesNodup q'.Status)
      ∧ StatusInvariant (storedAfterSync r q).Status
      ∧ NamespacesNodup (storedAfterSync r q).Status
      ∧ ∀ (a b : ResourceList) (k : ResourceName),
          amount (quotapkg.Subtract a b) k = amount a k - amount b k := by
  obtain ⟨q', hrec, hcase⟩ := sync_ok r q hok
  obtain ⟨i1, n1⟩ := reconciledQuota_invariant r q q' hrec hinv hnd
  refine ⟨?_, ⟨q', hrec, i1, n1⟩, ?_, ?_, amount_Subtract⟩
  · intro k
    simp [sumUsed, amount, lookup]
  · unfold storedAfterSync
    rcases hcase with ⟨_, hu⟩ | ⟨_, hu⟩ <;> rw [hu]
    · exact hinv
    · exact i1
  · unfold storedAfterSync
    rcases hcase with ⟨_, hu⟩ | ⟨_, hu⟩ <;> rw [hu]
    · exact hnd
    · exact n1

theorem exampleQuota_invariant : StatusInvariant exampleQuota.Status := by
  intro k
  by_cases h : "cpu" = k <;> simp [exampleQuota, sumUsed, amount, lookup, h]

theorem syncQuotaForNamespaces_invariant_witness :
    (StatusInvariant exampleQuota.Status ∧ NamespacesNodup exampleQuota.Status
      ∧ (syncQuotaForNamespaces exampleReconciler exampleQuota).err = none)
    ∧ StatusInvariant (storedAfterSync exampleReconciler exampleQuota).Status :=
  ⟨⟨exampleQuota_invariant, by decide, by decide⟩,
    (syncQuotaForNamespaces_invariant exampleReconciler exampleQuota
      exampleQuota_invariant (by decide) (by decide)).2.2.1⟩

/-- Where a subtraction of the pass goes below zero, its result rests on how
quota.Subtract treats it.  With the subtraction clamped at zero, as the
specification defines it, a quota whose Total.Used is below the sum of its
breakdown loses the clamped amount in the first pass, and the second pass on the
stored result computes another Total.Used. -/
theorem syncQuotaForNamespaces_below_breakdown :
    (syncQuotaForNamespaces staleReconciler staleQuota).err = none
      ∧ reconciledQuota staleReconciler staleQuota
          = Except.ok
              { Name := "q"
                Status :=
                  { Total := { Used := [("cpu", 0)] }
                    Namespaces :=
                      [ { Namespace := "b"
                          ResourceQuotaStatus := { Used := [("cpu", 1)] } } ] } }
      ∧ reconciledQuota staleReconciler (storedAfterSync staleReconciler staleQuota)
          = Except.ok
              { Name := "q"
                Status :=
                  { Total := { Used := [("cpu", 1)] }
                    Namespaces :=
                      [ { Namespace := "b"
                          ResourceQuotaStatus := { Used := [("cpu", 1)] } } ] } }
      ∧ DeepEqual
          { Name := "q"
            Status :=
              { Total := { Used := [("cpu", 1)] }
                Namespaces :=
                  [ { Namespace := "b"
                      ResourceQuotaStatus := { Used := [("cpu", 1)] } } ] } }
          { Name := "q"
            Status :=
              { Total := { Used := [("cpu", 0)] }
                Namespaces :=
                  [ { Namespace := "b"
                      ResourceQuotaStatus := { Used := [("cpu", 1)] } } ] } }
          = false
      ∧ (syncQuotaForNamespaces staleReconciler
            (storedAfterSync staleReconciler staleQuota)).update ≠ none := by
  decide

theorem foldNamespace_settles (r : SharedQuotaReconciler) (q q' : SharedQuota)
    (ns : String) (h : foldNamespace r q ns = Except.ok q') :
    Settled r q'.Spec q'.Status ns := by
  obtain ⟨u, hu, _, _, hS, _, hT, hB⟩ := foldNamespace_ok r q q' ns h
  refine ⟨u, by rw [hS]; exact hu, ?_, ?_, ?_⟩
  · rw [hB]
    exact ⟨_, (mem_Insert_status _ _ _).mpr (Or.inl rfl), rfl⟩
  · intro e he hens
    rw [hB, mem_Insert_status] at he
    rcases he with he | ⟨_, hne⟩
    · rw [he, hS]; rfl
    · exact absurd hens hne
  · intro k hk
    rw [hT, isSome_Add, hk, Bool.or_true]

theorem foldNamespace_keeps (r : SharedQuotaReconciler) (q q' : SharedQuota)
    (ns m : String) (h : foldNamespace r q ns = Except.ok q')
    (hm : Settled r q.Spec q.Status m) : Settled r q'.Spec q'.Status m := by
  by_cases hmn : m = ns
  · subst hmn
    exact foldNamespace_settles r q q' m h
  · obtain ⟨u, _, _, _, hS, _, hT, hB⟩ := foldNamespace_ok r q q' ns h
    obtain ⟨v, hv, ⟨e, he, hens⟩, hall, hkeys⟩ := hm
    refine ⟨v, by rw [hS]; exact hv, ⟨e, ?_, hens⟩, ?_, ?_⟩
    · rw [hB, mem_Insert_status]
      right
      refine ⟨he, ?_⟩
      rw [hens]
      exact hmn
    · intro x hx hxm
      rw [hB, mem_Insert_status] at hx
      rcases hx with hx | ⟨hx, _⟩
      · rw [hx] at hxm
        exact absurd hxm.symm hmn
      · rw [hS]
        exact hall x hx hxm
    · intro k hk
      rw [hT, isSome_Add, isSome_Subtract, hkeys k hk]
      rfl

theorem foldNamespaces_settles (r : SharedQuotaReconciler) (l : List String)
    (q q' : SharedQuota) (h : foldNamespaces r l q = Except.ok q') :
    (q'.Name = q.Name ∧ q'.UID = q.UID ∧ q'.Spec = q.Spec
        ∧ q'.Status.Total.Hard = q.Status.Total.Hard)
      ∧ (∀ m, Settled r q.Spec q.Status m → Settled r q'.Spec q'.Status m)
      ∧ ∀ ns ∈ l, Settled r q'.Spec q'.Status ns := by
  induction l generalizing q with
  | nil =>
    simp only [foldNamespaces] at h
    injection h with h
    subst h
    exact ⟨⟨rfl, rfl, rfl, rfl⟩, fun _ hm => hm, fun _ hns => absurd hns (List.not_mem_nil _)⟩
  | cons hd tl ih =>
    simp only [foldNamespaces] at h
    split at h
    · cases h
    · rename_i q1 h1
      obtain ⟨⟨a1, a2, a3, a4⟩, keep, settle⟩ := ih q1 h
      obtain ⟨u, _, b1, b2, b3, b4, _, _⟩ := foldNamespace_ok r q q1 hd h1
      refine ⟨⟨a1.trans b1, a2.trans b2, a3.trans b3, a4.trans b4⟩, ?_, ?_⟩
      · intro m hm
        exact keep m (foldNamespace_keeps r q q1 hd m h1 hm)
      · intro ns hns
        rcases List.mem_cons.mp hns with rfl | hns2
        · exact keep _ (foldNamespace_settles r q q1 _ h1)
        · exact settle ns hns2

theorem pruneNamespace_frame (names : List String) (q : SharedQuota)
    (e : ResourceQuotaStatusByNamespace) :
    (pruneNamespace names q e).Name = q.Name ∧ (pruneNamespace names q e).UID = q.UID
      ∧ (pruneNamespace names q e).Spec = q.Spec
      ∧ (pruneNamespace names q e).Status.Total.Hard = q.Status.Total.Hard := by
  unfold pruneNamespace
  simp only []
  split <;> exact ⟨rfl, rfl, rfl, rfl⟩

theorem pruneNamespace_keeps (r : SharedQuotaReconciler) (names : List String)
    (q : SharedQuota) (e : ResourceQuotaStatusByNamespace) (m : String) (hm : m ∈ names)
    (hs : Settled r q.Spec q.Status m) :
    Settled r (pruneNamespace names q e).Spec (pruneNamespace names q e).Status m := by
  unfold pruneNamespace
  simp only []
  split
  · rename_i hc
    have hne : m ≠ e.Namespace := by
      intro heq
      rw [heq] at hm
      simp [hm] at hc
    obtain ⟨v, hv, ⟨x, hx, hxm⟩, hall, hkeys⟩ := hs
    refine ⟨v, hv, ⟨x, ?_, hxm⟩, ?_, ?_⟩
    · exact (mem_Remove _ _ _).mpr ⟨hx, by rw [hxm]; exact hne⟩
    · intro y hy hym
      exact hall y ((mem_Remove _ _ _).mp hy).1 hym
    · intro k hk
      simp only []
      rw [isSome_Subtract, hkeys k hk]
      rfl
  · exact hs

theorem pruneNamespace_sub (names : List String) (q : SharedQuota)
    (e x : ResourceQuotaStatusByNamespace)
    (hx : x ∈ (pruneNamespace names q e).Status.Namespaces) :
    x ∈ q.Status.Namespaces ∧ (x.Namespace ∈ names ∨ x.Namespace ≠ e.Namespace) := by
  unfold pruneNamespace at hx
  simp only [] at hx
  split at hx
  · obtain ⟨h1, h2⟩ := (mem_Remove _ _ _).mp hx
    exact ⟨h1, Or.inr h2⟩
  · rename_i hc
    refine ⟨hx, ?_⟩
    by_cases hxe : x.Namespace = e.Namespace
    · left
      rw [hxe]
      simpa using hc
    · exact Or.inr hxe

theorem foldl_prune_settles (r : SharedQuotaReconciler) (names : List String)
    (l : ResourceQuotasStatusByNamespace) (q : SharedQuota) :
    ((l.foldl (pruneNamespace names) q).Name = q.Name
        ∧ (l.foldl (pruneNamespace names) q).UID = q.UID
        ∧ (l.foldl (pruneNamespace names) q).Spec = q.Spec
        ∧ (l.foldl (pruneNamespace names) q).Status.Total.Hard = q.Status.Total.Hard)
      ∧ (∀ m ∈ names, Settled r q.Spec q.Status m →
          Settled r (l.foldl (pruneNamespace names) q).Spec
            (l.foldl (pruneNamespace names) q).Status m)
      ∧ ∀ x ∈ (l.foldl (pruneNamespace names) q).Status.Namespaces,
          x ∈ q.Status.Namespaces
            ∧ (x.Namespace ∈ names ∨ ∀ e ∈ l, x.Namespace ≠ e.Namespace) := by
  induction l generalizing q with
  | nil =>
    exact ⟨⟨rfl, rfl, rfl, rfl⟩, fun _ _ hs => hs,
      fun x hx => ⟨hx, Or.inr (fun e he => absurd he (List.not_mem_nil _))⟩⟩
  | cons hd tl ih =>
    rw [List.foldl_cons]
    obtain ⟨⟨a1, a2, a3, a4⟩, keep, sub⟩ := ih (pruneNamespace names q hd)
    obtain ⟨b1, b2, b3, b4⟩ := pruneNamespace_frame names q hd
    refine ⟨⟨a1.trans b1, a2.trans b2, a3.trans b3, a4.trans b4⟩, ?_, ?_⟩
    · intro m hm hs
      exact keep m hm (pruneNamespace_keeps r names q hd m hm hs)
    · intro x hx
      obtain ⟨h1, h2⟩ := sub x hx
      obtain ⟨h3, h4⟩ := pruneNamespace_sub names q hd x h1
      refine ⟨h3, ?_⟩
      rcases h2 with h2 | h2
      · exact Or.inl h2
      · rcases h4 with h4 | h4
        · exact Or.inl h4
        · right
          intro e he
          rcases List.mem_cons.mp he with rfl | he2
          · exact h4
          · exact h2 e he2

/-- What a successful pass leaves behind: the spec is untouched, Total.Hard is the
hard limit of the spec, every listed namespace is settled, and every breakdown
entry belongs to a listed namespace. -/
theorem reconciledQuota_settled (r : SharedQuotaReconciler) (q q' : SharedQuota)
    (h : reconciledQuota r q = Except.ok q') :
    ∃ names, r.ListNamespaces q.Spec.LabelSelector = Except.ok names
      ∧ q'.Name = q.Name ∧ q'.UID = q.UID ∧ q'.Spec = q.Spec
      ∧ q'.Status.Total.Hard = q.Spec.Quota.Hard
      ∧ (∀ ns ∈ names, Settled r q'.Spec q'.Status ns)
      ∧ ∀ x ∈ q'.Status.Namespaces, x.Namespace ∈ names := by
  obtain ⟨names, q1, hnames, hq1, hq'⟩ := reconciledQuota_ok r q q' h
  obtain ⟨⟨a1, a2, a3, _⟩, _, settle⟩ := foldNamespaces_settles r names q q1 hq1
  obtain ⟨⟨b1, b2, b3, _⟩, keep, sub⟩ :=
    foldl_prune_settles r names q1.Status.Namespaces q1
  subst hq'
  refine ⟨names, hnames, b1.trans a1, b2.trans a2, b3.trans a3, ?_, ?_, ?_⟩
  · show (q1.Status.Namespaces.foldl (pruneNamespace names) q1).Spec.Quota.Hard
      = q.Spec.Quota.Hard
    rw [b3, a3]
  · intro ns hns
    obtain ⟨v, hv, hex, hall, hkeys⟩ := keep ns hns (settle ns hns)
    exact ⟨v, hv, hex, hall, hkeys⟩
  · intro x hx
    obtain ⟨h1, h2⟩ := sub x hx
    rcases h2 with h2 | h2
    · exact h2
    · exact absurd rfl (h2 x h1)

theorem Insert_same (B : ResourceQuotasStatusByNamespace)
    (s : ResourceQuotaStatusByNamespace) (hex : ∃ e ∈ B, e.Namespace = s.Namespace)
    (hall : ∀ e ∈ B, e.Namespace = s.Namespace → e = s) :
    InsertResourceQuotasStatus B s = B := by
  have hfound : (insertLoop B s).2 = true := (insertLoop_snd B s).mpr hex
  unfold InsertResourceQuotasStatus
  simp only [hfound, Bool.not_true, Bool.false_eq_true, if_false]
  rw [insertLoop_fst]
  conv_rhs => rw [← List.map_id B]
  apply List.map_congr_left
  intro x hx
  by_cases hxs : x.Namespace = s.Namespace
  · simp only [hxs, if_true, id]
    exact (hall x hx hxs).symm
  · simp [hxs]

theorem Get_settled (B : ResourceQuotasStatusByNamespace) (ns : String)
    (s : ResourceQuotaStatusByNamespace) (hex : ∃ e ∈ B, e.Namespace = ns)
    (hall : ∀ e ∈ B, e.Namespace = ns → e = s) :
    (GetResourceQuotasStatusByNamespace B ns).1 = s.ResourceQuotaStatus := by
  induction B with
  | nil => obtain ⟨e, he, _⟩ := hex; cases he
  | cons hd tl ih =>
    by_cases h : hd.Namespace = ns
    · simp only [GetResourceQuotasStatusByNamespace, h, if_true]
      rw [hall hd (List.mem_cons_self _ _) h]
    · simp only [GetResourceQuotasStatusByNamespace, h, if_false]
      apply ih
      · obtain ⟨e, he, hens⟩ := hex
        rcases List.mem_cons.mp he with rfl | he2
        · exact absurd hens h
        · exact ⟨e, he2, hens⟩
      · intro e he hens
        exact hall e (List.mem_cons_of_mem _ he) hens

theorem Similar_refl (a : SharedQuota) : Similar a a :=
  ⟨rfl, rfl, rfl, rfl, rfl, fun _ => rfl⟩

/-- On a settled namespace of a status whose Total.Used covers the breakdown, a
round of the loop changes nothing but the layout of Total.Used. -/
theorem foldNamespace_similar (r : SharedQuotaReconciler) (c q : SharedQuota)
    (ns : String) (hsim : Similar q c) (hcov : StatusCovers c.Status)
    (hs : Settled r c.Spec c.Status ns) :
    ∃ q', foldNamespace r q ns = Except.ok q' ∧ Similar q' c := by
  obtain ⟨s1, s2, s3, s4, s5, s6⟩ := hsim
  obtain ⟨u, hu, hex, hall, hkeys⟩ := hs
  have hget : (GetResourceQuotasStatusByNamespace q.Status.Namespaces ns).1
      = (freshEntry c.Spec ns u).ResourceQuotaStatus := by
    rw [s4]; exact Get_settled _ _ _ hex hall
  have hins : InsertResourceQuotasStatus q.Status.Namespaces (freshEntry q.Spec ns u)
      = q.Status.Namespaces := by
    rw [s4, s3]
    exact Insert_same _ _ hex hall
  have hu2 : r.quotaUsageCalculationFunc ns q.Spec.Quota.Scopes q.Spec.Quota.Hard
      q.Spec.Quota.ScopeSelector = Except.ok u := by
    rw [s3]; exact hu
  refine ⟨{ q with
      Status :=
        { Total := { q.Status.Total with
            Used := quotapkg.Add (quotapkg.Subtract q.Status.Total.Used
              (GetResourceQuotasStatusByNamespace q.Status.Namespaces ns).1.Used) u }
          Namespaces :=
            InsertResourceQuotasStatus q.Status.Namespaces (freshEntry q.Spec ns u) } },
    ?_, s1, s2, s3, ?_, s5, ?_⟩
  · simp only [foldNamespace, hu2]
    rfl
  · show InsertResourceQuotasStatus q.Status.Namespaces (freshEntry q.Spec ns u)
      = c.Status.Namespaces
    rw [hins, s4]
  · intro k
    show lookup (quotapkg.Add (quotapkg.Subtract q.Status.Total.Used
        (GetResourceQuotasStatusByNamespace q.Status.Namespaces ns).1.Used) u) k
      = lookup c.Status.Total.Used k
    rw [hget]
    show lookup (quotapkg.Add (quotapkg.Subtract q.Status.Total.Used u) u) k
      = lookup c.Status.Total.Used k
    have hle : amount u k ≤ amount c.Status.Total.Used k := by
      have h1 := Get_le_sumUsed c.Status.Namespaces ns k
      rw [Get_settled _ _ _ hex hall] at h1
      exact Nat.le_trans h1 (hcov k)
    rw [lookup_Add, lookup_Subtract, s6 k]
    cases hc : lookup c.Status.Total.Used k with
    | none =>
      have hnone : lookup u k = none := by
        cases hu3 : lookup u k with
        | none => rfl
        | some v =>
          have := hkeys k (by rw [hu3]; rfl)
          rw [hc] at this
          exact Bool.noConfusion this
      simp [hnone]
    | some x =>
      have hle2 : amount u k ≤ x := by
        unfold amount at hle
        rw [hc] at hle
        exact hle
      show some (x - amount u k + amount u k) = some x
      rw [Nat.sub_add_cancel hle2]

theorem Settled_similar (r : SharedQuotaReconciler) (c : SharedQuota)
    (names : List String) (hcov : StatusCovers c.Status)
    (hs : ∀ ns ∈ names, Settled r c.Spec c.Status ns) (l : List String)
    (hl : ∀ ns ∈ l, ns ∈ names) (q : SharedQuota) (hsim : Similar q c) :
    ∃ q', foldNamespaces r l q = Except.ok q' ∧ Similar q' c := by
  induction l generalizing q with
  | nil => exact ⟨q, rfl, hsim⟩
  | cons hd tl ih =>
    obtain ⟨q1, h1, hsim1⟩ := foldNamespace_similar r c q hd hsim hcov
      (hs hd (hl hd (List.mem_cons_self _ _)))
    obtain ⟨q2, h2, hsim2⟩ := ih (fun ns hns => hl ns (List.mem_cons_of_mem _ hns)) q1 hsim1
    refine ⟨q2, ?_, hsim2⟩
    simp only [foldNamespaces, h1]
    exact h2

theorem foldl_prune_id (names : List String) (l : ResourceQuotasStatusByNamespace)
    (q : SharedQuota) (h : ∀ e ∈ l, e.Namespace ∈ names) :
    l.foldl (pruneNamespace names) q = q := by
  induction l generalizing q with
  | nil => rfl
  | cons hd tl ih =>
    rw [List.foldl_cons]
    have h1 : pruneNamespace names q hd = q := by
      unfold pruneNamespace
      simp [h hd (List.mem_cons_self _ _)]
    rw [h1]
    exact ih q (fun e he => h e (List.mem_cons_of_mem _ he))

theorem resourceListDeepEqual_of_lookup (a b : ResourceList)
    (h : ∀ k, lookup a k = lookup b k) : resourceListDeepEqual a b = true := by
  unfold resourceListDeepEqual
  simp [h]

theorem statusDeepEqual_of (a b : ResourceQuotaStatus) (h1 : a.Hard = b.Hard)
    (h2 : ∀ k, lookup a.Used k = lookup b.Used k) : statusDeepEqual a b = true := by
  unfold statusDeepEqual
  rw [resourceListDeepEqual_of_lookup _ _ (fun k => by rw [h1]),
    resourceListDeepEqual_of_lookup _ _ h2]
  rfl

theorem namespacesDeepEqual_refl (B : ResourceQuotasStatusByNamespace) :
    namespacesDeepEqual B B = true := by
  induction B with
  | nil => rfl
  | cons hd tl ih =>
    simp [namespacesDeepEqual, ih, statusDeepEqual_of hd.ResourceQuotaStatus
      hd.ResourceQuotaStatus rfl (fun _ => rfl)]

theorem mapDeepEqual_refl {β : Type} [DecidableEq β] (a : List (String × β)) :
    mapDeepEqual a a = true := by
  unfold mapDeepEqual
  simp

theorem DeepEqual_of_similar (a b : SharedQuota) (h : Similar a b) : DeepEqual a b = true := by
  obtain ⟨s1, s2, s3, s4, s5, s6⟩ := h
  unfold DeepEqual
  rw [s1, s2, s3, s4, statusDeepEqual_of _ _ s5 s6, namespacesDeepEqual_refl,
    mapDeepEqual_refl, resourceListDeepEqual_of_lookup _ _ (fun _ => rfl)]
  simp

/-- A second pass over the result of a successful pass on a status whose Total.Used
covers the breakdown computes a similar object. -/
theorem reconciledQuota_again (r : SharedQuotaReconciler) (q c : SharedQuota)
    (h : reconciledQuota r q = Except.ok c)
    (hcov : StatusCovers q.Status) (hnd : NamespacesNodup q.Status) :
    ∃ c2, reconciledQuota r c = Except.ok c2 ∧ Similar c2 c := by
  obtain ⟨names, hnames, _, _, hS, hH, hsettled, hin⟩ := reconciledQuota_settled r q c h
  obtain ⟨hcov1, _⟩ := reconciledQuota_covers r q c h hcov hnd
  obtain ⟨q2, hq2, hsim⟩ := Settled_similar r c names hcov1 hsettled names
    (fun _ hns => hns) c (Similar_refl c)
  obtain ⟨s1, s2, s3, s4, s5, s6⟩ := hsim
  have hprune : q2.Status.Namespaces.foldl (pruneNamespace names) q2 = q2 :=
    foldl_prune_id names _ q2 (fun e he => hin e (by rw [← s4]; exact he))
  have hlist : r.ListNamespaces c.Spec.LabelSelector = Except.ok names := by
    rw [hS]; exact hnames
  refine ⟨{ q2 with
      Status := { q2.Status with
        Total := { q2.Status.Total with Hard := q2.Spec.Quota.Hard } } },
    ?_, s1, s2, s3, s4, ?_, s6⟩
  · simp only [reconciledQuota, hlist, hq2, hprune]
  · show q2.Spec.Quota.Hard = c.Status.Total.Hard
    rw [s3, hH, hS]

/-- C10: for every quota on which syncQuotaForNamespaces returns nil, a second
run on the object in the store, with the same namespace listing and the same
calculated usages, computes a status deep-equal to the result of the first pass,
returns nil and issues no status update.  The quota enters with a breakdown that
names each namespace once and a Total.Used that is, per resource, at least the sum
of the breakdown, so that no subtraction of the pass goes below zero; the status
invariant is one such status, the empty status another, and the object in the
store after the pass is such a status again. -/
theorem syncQuotaForNamespaces_idempotent (r : SharedQuotaReconciler) (q : SharedQuota)
    (hcov : StatusCovers q.Status) (hnd : NamespacesNodup q.Status)
    (hok : (syncQuotaForNamespaces r q).err = none) :
    (∃ c1 c2, reconciledQuota r q = Except.ok c1
        ∧ reconciledQuota r (storedAfterSync r q) = Except.ok c2
        ∧ DeepEqual c2 c1 = true)
      ∧ syncQuotaForNamespaces r (storedAfterSync r q) = { err := none, update := none }
      ∧ StatusCovers (storedAfterSync r q).Status
      ∧ NamespacesNodup (storedAfterSync r q).Status
      ∧ (∀ st, StatusInvariant st → StatusCovers st)
      ∧ StatusCovers {} := by
  have hempty : StatusCovers {} := by
    intro k
    simp [sumUsed]
  obtain ⟨c1, hrec, hcase⟩ := sync_ok r q hok
  rcases hcase with ⟨hde, hu⟩ | ⟨_, hu⟩
  · have hst : storedAfterSync r q = q := by
      unfold storedAfterSync; rw [hu]
    rw [hst]
    refine ⟨⟨c1, c1, hrec, hrec, DeepEqual_of_similar _ _ (Similar_refl c1)⟩, ?_, hcov, hnd,
      StatusCovers_of_invariant, hempty⟩
    unfold syncQuotaForNamespaces
    rw [hrec]
    simp [hde]
  · have hst : storedAfterSync r q = c1 := by
      unfold storedAfterSync; rw [hu]
    rw [hst]
    obtain ⟨c2, hc2, hsim⟩ := reconciledQuota_again r q c1 hrec hcov hnd
    obtain ⟨hcov1, hnd1⟩ := reconciledQuota_covers r q c1 hrec hcov hnd
    have hde := DeepEqual_of_similar c2 c1 hsim
    refine ⟨⟨c1, c2, hrec, hc2, hde⟩, ?_, hcov1, hnd1, StatusCovers_of_invariant, hempty⟩
    unfold syncQuotaForNamespaces
    rw [hc2]
    simp [hde]

theorem aboveQuota_covers : StatusCovers aboveQuota.Status := by
  intro k
  by_cases h : "cpu" = k <;> simp [aboveQuota, exampleQuota, sumUsed, amount, lookup, h]

/-- A quota whose Total.Used of 9 cpu lies above its breakdown of 5, so that the
status invariant does not hold: the first pass issues an update, the second
none. -/
theorem syncQuotaForNamespaces_idempotent_witness :
    (StatusCovers aboveQuota.Status ∧ NamespacesNodup aboveQuota.Status
      ∧ (syncQuotaForNamespaces exampleReconciler aboveQuota).err = none)
    ∧ ¬ StatusInvariant aboveQuota.Status
    ∧ (syncQuotaForNamespaces exampleReconciler aboveQuota).update ≠ none
    ∧ syncQuotaForNamespaces exampleReconciler
        (storedAfterSync exampleReconciler aboveQuota) = { err := none, update := none } :=
  ⟨⟨aboveQuota_covers, by decide, by decide⟩,
    fun h => absurd (h "cpu") (by decide),
    by decide,
    (syncQuotaForNamespaces_idempotent exampleReconciler aboveQuota
      aboveQuota_covers (by decide) (by decide)).2.1⟩

theorem Get_found (B : ResourceQuotasStatusByNamespace) (ns : String)
    (hex : ∃ e ∈ B, e.Namespace = ns) :
    (GetResourceQuotasStatusByNamespace B ns).2 = true := by
  induction B with
  | nil => obtain ⟨e, he, _⟩ := hex; cases he
  | cons hd tl ih =>
    by_cases h : hd.Namespace = ns
    · simp [GetResourceQuotasStatusByNamespace, h]
    · simp only [GetResourceQuotasStatusByNamespace, h, if_false]
      apply ih
      obtain ⟨e, he, hens⟩ := hex
      rcases List.mem_cons.mp he with rfl | he2
      · exact absurd hens h
      · exact ⟨e, he2, hens⟩

/-- After a pass that returned nil, the object in the store is deep-equal to the
object the pass computed. -/
theorem DeepEqual_stored (r : SharedQuotaReconciler) (q q' : SharedQuota)
    (hok : (syncQuotaForNamespaces r q).err = none)
    (hrec : reconciledQuota r q = Except.ok q') :
    DeepEqual q' (storedAfterSync r q) = true := by
  obtain ⟨c, hc, hcase⟩ := sync_ok r q hok
  rw [hrec] at hc
  injection hc with hc
  subst hc
  unfold storedAfterSync
  rcases hcase with ⟨hde, hu⟩ | ⟨_, hu⟩ <;> rw [hu]
  · exact hde
  · exact DeepEqual_of_similar _ _ (Similar_refl _)

/-- C11: after every pass of syncQuotaForNamespaces that returns nil, for every
namespace n of the selector listing the computed breakdown holds an entry for n,
found by GetResourceQuotasStatusByNamespace, whose Used is the usage calculated
for n in this pass and whose Hard is the hard limit of the spec, whether or not n
had an entry before; every entry for n is that entry. -/
theorem syncQuotaForNamespaces_breakdown (r : SharedQuotaReconciler) (q : SharedQuota)
    (hok : (syncQuotaForNamespaces r q).err = none) :
    ∃ q' names, reconciledQuota r q = Except.ok q'
      ∧ r.ListNamespaces q.Spec.LabelSelector = Except.ok names
      ∧ DeepEqual q' (storedAfterSync r q) = true
      ∧ ∀ n ∈ names, ∃ u, usageOf r q.Spec n = Except.ok u
          ∧ GetResourceQuotasStatusByNamespace q'.Status.Namespaces n
              = ({ Used := u, Hard := q.Spec.Quota.Hard }, true)
          ∧ ∀ e ∈ q'.Status.Namespaces, e.Namespace = n →
              e = { Namespace := n,
                    ResourceQuotaStatus := { Used := u, Hard := q.Spec.Quota.Hard } } := by
  obtain ⟨q', hrec, _⟩ := sync_ok r q hok
  obtain ⟨names, hnames, _, _, hS, _, hsettled, _⟩ := reconciledQuota_settled r q q' hrec
  refine ⟨q', names, hrec, hnames, DeepEqual_stored r q q' hok hrec, ?_⟩
  intro n hn
  obtain ⟨u, hu, hex, hall, _⟩ := hsettled n hn
  rw [hS] at hu hall
  refine ⟨u, hu, ?_, hall⟩
  have h1 := Get_settled _ _ _ hex hall
  have h2 := Get_found _ _ hex
  exact Prod.ext h1 h2

theorem syncQuotaForNamespaces_breakdown_witness :
    (syncQuotaForNamespaces exampleReconciler exampleQuota).err = none
    ∧ ∃ q' names, reconciledQuota exampleReconciler exampleQuota = Except.ok q'
      ∧ exampleReconciler.ListNamespaces exampleQuota.Spec.LabelSelector = Except.ok names
      ∧ DeepEqual q' (storedAfterSync exampleReconciler exampleQuota) = true
      ∧ ∀ n ∈ names, ∃ u, usageOf exampleReconciler exampleQuota.Spec n = Except.ok u
          ∧ GetResourceQuotasStatusByNamespace q'.Status.Namespaces n
              = ({ Used := u, Hard := exampleQuota.Spec.Quota.Hard }, true)
          ∧ ∀ e ∈ q'.Status.Namespaces, e.Namespace = n →
              e = { Namespace := n,
                    ResourceQuotaStatus :=
                      { Used := u, Hard := exampleQuota.Spec.Quota.Hard } } :=
  ⟨by decide, syncQuotaForNamespaces_breakdown exampleReconciler exampleQuota (by decide)⟩

/-- C13: for every quota and every prior status, the status computed by a pass of
syncQuotaForNamespaces that returns nil has Total.Hard equal to the hard limit of
the spec, whatever Total.Hard held before. -/
theorem syncQuotaForNamespaces_total_hard (r : SharedQuotaReconciler) (q : SharedQuota)
    (hok : (syncQuotaForNamespaces r q).err = none) :
    ∃ q', reconciledQuota r q = Except.ok q'
      ∧ q'.Status.Total.Hard = q.Spec.Quota.Hard
      ∧ q'.Spec = q.Spec
      ∧ DeepEqual q' (storedAfterSync r q) = true := by
  obtain ⟨q', hrec, _⟩ := sync_ok r q hok
  obtain ⟨_, _, _, _, hS, hH, _, _⟩ := reconciledQuota_settled r q q' hrec
  exact ⟨q', hrec, hH, hS, DeepEqual_stored r q q' hok hrec⟩

theorem syncQuotaForNamespaces_total_hard_witness :
    (syncQuotaForNamespaces exampleReconciler exampleQuota).err = none
    ∧ exampleQuota.Status.Total.Hard = []
    ∧ ∃ q', reconciledQuota exampleReconciler exampleQuota = Except.ok q'
      ∧ q'.Status.Total.Hard = [("cpu", 10)] := by
  refine ⟨by decide, by decide, ?_⟩
  obtain ⟨q', h1, h2, _, _⟩ :=
    syncQuotaForNamespaces_total_hard exampleReconciler exampleQuota (by decide)
  exact ⟨q', h1, h2⟩

/-- The namespaces of the breakdown after the loop over the listing: those before,
in their order, then the listed namespaces that were missing, each once. -/
theorem foldNamespaces_namespaces (r : SharedQuotaReconciler) (l : List String)
    (q q1 : SharedQuota) (h : foldNamespaces r l q = Except.ok q1) :
    q1.Status.Namespaces.map (fun e => e.Namespace)
      = StringSet.Insert (q.Status.Namespaces.map (fun e => e.Namespace)) l := by
  induction l generalizing q with
  | nil =>
    simp only [foldNamespaces] at h
    injection h with h
    subst h
    rfl
  | cons hd tl ih =>
    simp only [foldNamespaces] at h
    split at h
    · cases h
    · rename_i q2 h2
      obtain ⟨u, _, _, _, _, _, _, hB⟩ := foldNamespace_ok r q q2 hd h2
      rw [ih q2 h, hB, namespaces_Insert]
      unfold StringSet.Insert
      rw [List.foldl_cons]

theorem Insert_filter_stale (B : ResourceQuotasStatusByNamespace)
    (s : ResourceQuotaStatusByNamespace) (names : List String) (hs : s.Namespace ∈ names) :
    (InsertResourceQuotasStatus B s).filter (fun e => decide (e.Namespace ∉ names))
      = B.filter (fun e => decide (e.Namespace ∉ names)) := by
  induction B with
  | nil => simp [InsertResourceQuotasStatus, insertLoop, hs]
  | cons hd tl ih =>
    by_cases h : hd.Namespace = s.Namespace
    · have hfound : (insertLoop (hd :: tl) s).2 = true :=
        (insertLoop_snd _ _).mpr ⟨hd, List.mem_cons_self _ _, h⟩
      have hhd : hd.Namespace ∈ names := by rw [h]; exact hs
      by_cases hex : ∃ e ∈ tl, e.Namespace = s.Namespace
      · have hfound2 : (insertLoop tl s).2 = true := (insertLoop_snd _ _).mpr hex
        have e1 : InsertResourceQuotasStatus (hd :: tl) s
            = s :: InsertResourceQuotasStatus tl s := by
          simp [InsertResourceQuotasStatus, insertLoop, h, hfound2]
        rw [e1, List.filter_cons, List.filter_cons, ih]
        simp [hs, hhd]
      · have habs : ∀ e ∈ tl, e.Namespace ≠ s.Namespace := by
          intro e he heq
          exact hex ⟨e, he, heq⟩
        have e1 : InsertResourceQuotasStatus (hd :: tl) s = s :: tl := by
          simp [InsertResourceQuotasStatus, insertLoop, h, insertLoop_absent tl s habs]
        rw [e1, List.filter_cons, List.filter_cons]
        simp [hs, hhd]
    · rw [Insert_cons_ne hd tl s h, List.filter_cons, List.filter_cons, ih]

theorem foldNamespaces_stale (r : SharedQuotaReconciler) (names l : List String)
    (hl : ∀ n ∈ l, n ∈ names) (q q1 : SharedQuota)
    (h : foldNamespaces r l q = Except.ok q1) :
    q1.Status.Namespaces.filter (fun e => decide (e.Namespace ∉ names))
      = q.Status.Namespaces.filter (fun e => decide (e.Namespace ∉ names)) := by
  induction l generalizing q with
  | nil =>
    simp only [foldNamespaces] at h
    injection h with h
    subst h
    rfl
  | cons hd tl ih =>
    simp only [foldNamespaces] at h
    split at h
    · cases h
    · rename_i q2 h2
      obtain ⟨u, _, _, _, _, _, _, hB⟩ := foldNamespace_ok r q q2 hd h2
      rw [ih (fun n hn => hl n (List.mem_cons_of_mem _ hn)) q2 h, hB]
      exact Insert_filter_stale _ _ names (hl hd (List.mem_cons_self _ _))

theorem pruneNamespace_namespaces (names : List String) (q : SharedQuota)
    (e : ResourceQuotaStatusByNamespace) :
    (pruneNamespace names q e).Status.Namespaces
      = q.Status.Namespaces.filter
          (fun x => decide (x.Namespace ∈ names ∨ x.Namespace ≠ e.Namespace)) := by
  unfold pruneNamespace
  simp only []
  split
  · rename_i hc
    have hne : e.Namespace ∉ names := by simpa using hc
    show RemoveResourceQuotasStatusByNamespace q.Status.Namespaces e.Namespace = _
    rw [Remove_eq_filter]
    apply List.filter_congr
    intro x _
    by_cases hx : x.Namespace = e.Namespace
    · have : x.Namespace ∉ names := by rw [hx]; exact hne
      simp [hx, hne]
    · simp [hx]
  · rename_i hc
    have hin : e.Namespace ∈ names := by simpa using hc
    symm
    rw [List.filter_eq_self]
    intro x _
    by_cases hx : x.Namespace = e.Namespace
    · simp [hx, hin]
    · simp [hx]

theorem pruneNamespace_used (names : List String) (q : SharedQuota)
    (e : ResourceQuotaStatusByNamespace) :
    (pruneNamespace names q e).Status.Total.Used
      = if e.Namespace ∈ names then q.Status.Total.Used
        else quotapkg.Subtract q.Status.Total.Used e.ResourceQuotaStatus.Used := by
  unfold pruneNamespace
  simp only []
  split
  · rename_i hc
    have hne : e.Namespace ∉ names := by simpa using hc
    simp [hne]
  · rename_i hc
    have hin : e.Namespace ∈ names := by simpa using hc
    simp [hin]

/-- The prune loop keeps the entries of listed namespaces and of namespaces the
loop does not visit, and subtracts the Used of every visited stale entry. -/
theorem foldl_prune_result (names : List String) (l : ResourceQuotasStatusByNamespace)
    (q : SharedQuota) :
    (l.foldl (pruneNamespace names) q).Status.Namespaces
        = q.Status.Namespaces.filter
            (fun x => decide (x.Namespace ∈ names
              ∨ x.Namespace ∉ l.map (fun e => e.Namespace)))
      ∧ (l.foldl (pruneNamespace names) q).Status.Total.Used
          = (l.filter (fun e => decide (e.Namespace ∉ names))).foldl
              (fun t e => quotapkg.Subtract t e.ResourceQuotaStatus.Used)
              q.Status.Total.Used := by
  induction l generalizing q with
  | nil =>
    constructor
    · symm
      rw [List.foldl_nil, List.filter_eq_self]
      intro x _
      simp
    · rfl
  | cons hd tl ih =>
    rw [List.foldl_cons]
    obtain ⟨ih1, ih2⟩ := ih (pruneNamespace names q hd)
    constructor
    · rw [ih1, pruneNamespace_namespaces, List.filter_filter]
      apply List.filter_congr
      intro x _
      by_cases h1 : x.Namespace ∈ names
      · simp [h1]
      · by_cases h2 : x.Namespace = hd.Namespace
        · have h3 : hd.Namespace ∉ names := by rw [← h2]; exact h1
          simp [h1, h2, h3]
        · simp [h1, h2]
    · rw [ih2, pruneNamespace_used]
      by_cases hin : hd.Namespace ∈ names
      · simp [hin, List.filter_cons]
      · simp [hin, List.filter_cons]

theorem amount_foldl_Subtract (l : ResourceQuotasStatusByNamespace) (t : ResourceList)
    (k : ResourceName) :
    amount (l.foldl (fun t e => quotapkg.Subtract t e.ResourceQuotaStatus.Used) t) k
      = amount t k - sumUsed l k := by
  induction l generalizing t with
  | nil => simp [sumUsed]
  | cons hd tl ih =>
    rw [List.foldl_cons, ih, amount_Subtract]
    simp only [sumUsed, List.map_cons, List.sum_cons]
    omega

theorem Insert_eq_append (s : StringSet) (items : List String) :
    ∃ added, StringSet.Insert s items = s ++ added
      ∧ ∀ n ∈ added, n ∉ s ∧ n ∈ items := by
  unfold StringSet.Insert
  induction items generalizing s with
  | nil => exact ⟨[], by simp, fun _ hn => absurd hn (List.not_mem_nil _)⟩
  | cons hd tl ih =>
    rw [List.foldl_cons]
    by_cases h : hd ∈ s
    · simp only [h, if_true]
      obtain ⟨added, h1, h2⟩ := ih s
      exact ⟨added, h1, fun n hn => ⟨(h2 n hn).1, List.mem_cons_of_mem _ (h2 n hn).2⟩⟩
    · simp only [h, if_false]
      obtain ⟨added, h1, h2⟩ := ih (s ++ [hd])
      refine ⟨hd :: added, by rw [h1]; simp, ?_⟩
      intro n hn
      rcases List.mem_cons.mp hn with rfl | hn2
      · exact ⟨h, List.mem_cons_self _ _⟩
      · obtain ⟨h3, h4⟩ := h2 n hn2
        exact ⟨fun hc => h3 (List.mem_append_left _ hc), List.mem_cons_of_mem _ h4⟩

theorem lookup_of_resourceListDeepEqual (a b : ResourceList)
    (h : resourceListDeepEqual a b = true) (k : ResourceName) :
    lookup a k = lookup b k := by
  unfold resourceListDeepEqual at h
  rw [Bool.and_eq_true, List.all_eq_true, List.all_eq_true] at h
  obtain ⟨ha, hb⟩ := h
  cases hak : lookup a k with
  | some v =>
    have := ha (k, v) (lookup_some_mem a k v hak)
    simp only [beq_iff_eq] at this
    rw [← this, hak]
  | none =>
    cases hbk : lookup b k with
    | none => rfl
    | some w =>
      have := hb (k, w) (lookup_some_mem b k w hbk)
      simp only [beq_iff_eq] at this
      rw [hak, hbk] at this
      exact this

theorem names_of_namespacesDeepEqual (a b : ResourceQuotasStatusByNamespace)
    (h : namespacesDeepEqual a b = true) :
    a.map (fun e => e.Namespace) = b.map (fun e => e.Namespace)
      ∧ ∀ k, sumUsed a k = sumUsed b k := by
  induction a generalizing b with
  | nil =>
    cases b with
    | nil => exact ⟨rfl, fun _ => rfl⟩
    | cons y ys => simp [namespacesDeepEqual] at h
  | cons x xs ih =>
    cases b with
    | nil => simp [namespacesDeepEqual] at h
    | cons y ys =>
      simp only [namespacesDeepEqual, Bool.and_eq_true, decide_eq_true_eq] at h
      obtain ⟨⟨hn, hs⟩, hrest⟩ := h
      obtain ⟨ih1, ih2⟩ := ih ys hrest
      refine ⟨by simp only [List.map_cons, hn, ih1], ?_⟩
      intro k
      unfold statusDeepEqual at hs
      rw [Bool.and_eq_true] at hs
      have hu := lookup_of_resourceListDeepEqual _ _ hs.2 k
      have := ih2 k
      simp only [sumUsed, List.map_cons, List.sum_cons, amount, hu] at this ⊢
      omega

/-- What equality.Semantic.DeepEqual of two quota objects says of their statuses. -/
theorem status_of_DeepEqual (a b : SharedQuota) (h : DeepEqual a b = true) :
    a.Status.Namespaces.map (fun e => e.Namespace)
        = b.Status.Namespaces.map (fun e => e.Namespace)
      ∧ (∀ k, lookup a.Status.Total.Used k = lookup b.Status.Total.Used k)
      ∧ (∀ k, lookup a.Status.Total.Hard k = lookup b.Status.Total.Hard k)
      ∧ ∀ k, sumUsed a.Status.Namespaces k = sumUsed b.Status.Namespaces k := by
  unfold DeepEqual at h
  simp only [Bool.and_eq_true] at h
  obtain ⟨⟨_, htotal⟩, hns⟩ := h
  unfold statusDeepEqual at htotal
  rw [Bool.and_eq_true] at htotal
  obtain ⟨n1, n2⟩ := names_of_namespacesDeepEqual _ _ hns
  exact ⟨n1, lookup_of_resourceListDeepEqual _ _ htotal.2,
    lookup_of_resourceListDeepEqual _ _ htotal.1, n2⟩

/-- C12: after every pass of syncQuotaForNamespaces that returns nil, the set of
namespaces of the breakdown, in the computed object and in the object in the store
after the pass, is the set of namespaces of the selector listing.  Every prior
entry whose namespace is not listed is removed, and its Used is subtracted (clamped
at zero) from the Total.Used the loop over the listing has left; the entries of the
still-matching namespaces keep their prior relative order, in front of the entries
of the new namespaces.  The object in the store is deep-equal to the computed one:
it names the same namespaces in the same order and holds the same Total.Used. -/
theorem syncQuotaForNamespaces_prune (r : SharedQuotaReconciler) (q : SharedQuota)
    (hok : (syncQuotaForNamespaces r q).err = none) :
    ∃ q' q1 names, reconciledQuota r q = Except.ok q'
      ∧ r.ListNamespaces q.Spec.LabelSelector = Except.ok names
      ∧ foldNamespaces r names q = Except.ok q1
      ∧ (∀ n, n ∈ q'.Status.Namespaces.map (fun e => e.Namespace) ↔ n ∈ names)
      ∧ (∀ e ∈ q.Status.Namespaces, e.Namespace ∉ names →
          ∀ x ∈ q'.Status.Namespaces, x.Namespace ≠ e.Namespace)
      ∧ q'.Status.Total.Used
          = (q.Status.Namespaces.filter (fun e => decide (e.Namespace ∉ names))).foldl
              (fun t e => quotapkg.Subtract t e.ResourceQuotaStatus.Used)
              q1.Status.Total.Used
      ∧ (∀ k, amount q'.Status.Total.Used k
          = amount q1.Status.Total.Used k
            - sumUsed
                (q.Status.Namespaces.filter (fun e => decide (e.Namespace ∉ names))) k)
      ∧ (∃ added,
          q'.Status.Namespaces.map (fun e => e.Namespace)
            = (q.Status.Namespaces.map (fun e => e.Namespace)).filter
                (fun n => decide (n ∈ names)) ++ added
          ∧ ∀ n ∈ added, n ∉ q.Status.Namespaces.map (fun e => e.Namespace))
      ∧ DeepEqual q' (storedAfterSync r q) = true
      ∧ (storedAfterSync r q).Status.Namespaces.map (fun e => e.Namespace)
          = q'.Status.Namespaces.map (fun e => e.Namespace)
      ∧ (∀ n, n ∈ (storedAfterSync r q).Status.Namespaces.map (fun e => e.Namespace)
          ↔ n ∈ names)
      ∧ (∀ e ∈ q.Status.Namespaces, e.Namespace ∉ names →
          ∀ x ∈ (storedAfterSync r q).Status.Namespaces, x.Namespace ≠ e.Namespace)
      ∧ (∀ k, amount (storedAfterSync r q).Status.Total.Used k
          = amount q1.Status.Total.Used k
            - sumUsed
                (q.Status.Namespaces.filter (fun e => decide (e.Namespace ∉ names))) k) := by
  obtain ⟨q', hrec, _⟩ := sync_ok r q hok
  obtain ⟨names, q1, hnames, hq1, hq'⟩ := reconciledQuota_ok r q q' hrec
  obtain ⟨hB, hT⟩ := foldl_prune_result names q1.Status.Namespaces q1
  have hB' : q'.Status.Namespaces
      = q1.Status.Namespaces.filter (fun x => decide (x.Namespace ∈ names)) := by
    rw [hq']
    show (q1.Status.Namespaces.foldl (pruneNamespace names) q1).Status.Namespaces = _
    rw [hB]
    apply List.filter_congr
    intro x hx
    have : x.Namespace ∈ q1.Status.Namespaces.map (fun e => e.Namespace) :=
      List.mem_map_of_mem _ hx
    simp [this]
  have hT' : q'.Status.Total.Used
      = (q.Status.Namespaces.filter (fun e => decide (e.Namespace ∉ names))).foldl
          (fun t e => quotapkg.Subtract t e.ResourceQuotaStatus.Used)
          q1.Status.Total.Used := by
    rw [hq']
    show (q1.Status.Namespaces.foldl (pruneNamespace names) q1).Status.Total.Used = _
    rw [hT, foldNamespaces_stale r names names (fun _ hn => hn) q q1 hq1]
  have hns : q'.Status.Namespaces.map (fun e => e.Namespace)
      = (StringSet.Insert (q.Status.Namespaces.map (fun e => e.Namespace)) names).filter
          (fun n => decide (n ∈ names)) := by
    rw [hB', ← foldNamespaces_namespaces r names q q1 hq1, List.filter_map]
    rfl
  have hset : ∀ n, n ∈ q'.Status.Namespaces.map (fun e => e.Namespace) ↔ n ∈ names := by
    intro n
    rw [hns, List.mem_filter, mem_Insert]
    constructor
    · rintro ⟨_, h⟩
      simpa using h
    · intro h
      exact ⟨Or.inr h, by simpa using h⟩
  have hde := DeepEqual_stored r q q' hok hrec
  obtain ⟨hsn, hsu, _, _⟩ := status_of_DeepEqual _ _ hde
  have hset2 : ∀ n, n ∈ (storedAfterSync r q).Status.Namespaces.map (fun e => e.Namespace)
      ↔ n ∈ names := by
    intro n
    rw [← hsn]
    exact hset n
  refine ⟨q', q1, names, hrec, hnames, hq1, hset, ?_, hT', ?_, ?_, hde, hsn.symm, hset2,
    ?_, ?_⟩
  · intro e _ hstale x hx heq
    apply hstale
    rw [← heq]
    exact (hset _).mp (List.mem_map_of_mem _ hx)
  · intro k
    rw [hT', amount_foldl_Subtract]
  rotate_left
  · intro e _ hstale x hx heq
    apply hstale
    rw [← heq]
    exact (hset2 _).mp (List.mem_map_of_mem _ hx)
  · intro k
    have hamount : amount (storedAfterSync r q).Status.Total.Used k
        = amount q'.Status.Total.Used k := by
      unfold amount
      rw [hsu k]
    rw [hamount, hT', amount_foldl_Subtract]
  · obtain ⟨added, h1, h2⟩ :=
      Insert_eq_append (q.Status.Namespaces.map (fun e => e.Namespace)) names
    refine ⟨added, ?_, fun n hn => (h2 n hn).1⟩
    rw [hns, h1, List.filter_append]
    congr 1
    rw [List.filter_eq_self]
    intro n hn
    simp [(h2 n hn).2]

/-- The example quota with the breakdown c, a under the listing a, b: the entry of
c is removed in the stored object, a stays in front of the new b. -/
theorem syncQuotaForNamespaces_prune_witness :
    (syncQuotaForNamespaces exampleReconciler exampleQuota).err = none
    ∧ exampleQuota.Status.Namespaces.map (fun e => e.Namespace) = ["c", "a"]
    ∧ exampleReconciler.ListNamespaces exampleQuota.Spec.LabelSelector = Except.ok ["a", "b"]
    ∧ (storedAfterSync exampleReconciler exampleQuota).Status.Namespaces.map
        (fun e => e.Namespace) = ["a", "b"]
    ∧ amount (storedAfterSync exampleReconciler exampleQuota).Status.Total.Used "cpu" = 2
    ∧ ∃ q' q1 names, reconciledQuota exampleReconciler exampleQuota = Except.ok q'
      ∧ exampleReconciler.ListNamespaces exampleQuota.Spec.LabelSelector = Except.ok names
      ∧ foldNamespaces exampleReconciler names exampleQuota = Except.ok q1
      ∧ (∀ n, n ∈ (storedAfterSync exampleReconciler exampleQuota).Status.Namespaces.map
            (fun e => e.Namespace) ↔ n ∈ names) := by
  refine ⟨by decide, by decide, by decide, by decide, by decide, ?_⟩
  obtain ⟨q', q1, names, h1, h2, h3, _, _, _, _, _, _, _, h4, _⟩ :=
    syncQuotaForNamespaces_prune exampleReconciler exampleQuota (by decide)
  exact ⟨q', q1, names, h1, h2, h3, h4⟩

theorem foldNamespace_error (r : SharedQuotaReconciler) (q : SharedQuota) (ns : String)
    (e : String) (h : usageOf r q.Spec ns = Except.error e) :
    foldNamespace r q ns = Except.error e := by
  unfold usageOf at h
  simp only [foldNamespace, h]

theorem foldNamespace_ok_of (r : SharedQuotaReconciler) (q : SharedQuota) (ns : String)
    (u : ResourceList) (h : usageOf r q.Spec ns = Except.ok u) :
    ∃ q', foldNamespace r q ns = Except.ok q' ∧ q'.Spec = q.Spec := by
  unfold usageOf at h
  simp only [foldNamespace, h]
  exact ⟨_, rfl, rfl⟩

/-- The loop over the listing returns the error of the first namespace whose usage
calculation fails. -/
theorem foldNamespaces_error (r : SharedQuotaReconciler) (pre post : List String)
    (n : String) (e : String) (q : SharedQuota)
    (hpre : ∀ m ∈ pre, ∃ u, usageOf r q.Spec m = Except.ok u)
    (hn : usageOf r q.Spec n = Except.error e) :
    foldNamespaces r (pre ++ n :: post) q = Except.error e := by
  induction pre generalizing q with
  | nil =>
    simp only [List.nil_append, foldNamespaces, foldNamespace_error r q n e hn]
  | cons hd tl ih =>
    obtain ⟨u, hu⟩ := hpre hd (List.mem_cons_self _ _)
    obtain ⟨q2, h2, hS⟩ := foldNamespace_ok_of r q hd u hu
    simp only [List.cons_append, foldNamespaces, h2]
    apply ih
    · intro m hm
      rw [hS]
      exact hpre m (List.mem_cons_of_mem _ hm)
    · rw [hS]; exact hn

/-- A list with a failing namespace splits at its first failing namespace. -/
theorem first_failure (r : SharedQuotaReconciler) (spec : SharedQuotaSpec)
    (names : List String) (n : String) (hn : n ∈ names)
    (hfail : ∃ e, usageOf r spec n = Except.error e) :
    ∃ pre m post e, names = pre ++ m :: post
      ∧ (∀ x ∈ pre, ∃ u, usageOf r spec x = Except.ok u)
      ∧ usageOf r spec m = Except.error e := by
  induction names with
  | nil => cases hn
  | cons hd tl ih =>
    cases hhd : usageOf r spec hd with
    | error e => exact ⟨[], hd, tl, e, rfl, fun _ hx => absurd hx (List.not_mem_nil _), hhd⟩
    | ok u =>
      have hn2 : n ∈ tl := by
        rcases List.mem_cons.mp hn with rfl | h
        · obtain ⟨e, he⟩ := hfail
          rw [hhd] at he
          cases he
        · exact h
      obtain ⟨pre, m, post, e, h1, h2, h3⟩ := ih hn2
      refine ⟨hd :: pre, m, post, e, by rw [h1]; rfl, ?_, h3⟩
      intro x hx
      rcases List.mem_cons.mp hx with rfl | hx2
      · exact ⟨u, hhd⟩
      · exact h2 x hx2

theorem sync_of_error (r : SharedQuotaReconciler) (q : SharedQuota) (e : String)
    (h : reconciledQuota r q = Except.error e) :
    syncQuotaForNamespaces r q = { err := some e, update := none }
      ∧ storedAfterSync r q = q := by
  have h1 : syncQuotaForNamespaces r q = { err := some e, update := none } := by
    simp only [syncQuotaForNamespaces, h]
  refine ⟨h1, ?_⟩
  simp only [storedAfterSync, h1]

theorem Reconcile_of_error (r : SharedQuotaReconciler) (req : String) (q : SharedQuota)
    (e : String) (hget : r.Get req = Except.ok q)
    (h : (syncQuotaForNamespaces r q).err = some e) :
    Reconcile r req = { RequeueAfter := 0, err := some e, event := none } := by
  simp only [Reconcile, hget, h]

/-- C14: if listing the namespaces fails, or calculating the usage of a matching
namespace fails, syncQuotaForNamespaces returns that error (of the first failing
namespace of the listing), issues no status update and leaves the quota object in
the store as it was given; Reconcile then returns this error with an empty result
instead of a requeue-after result. -/
theorem syncQuotaForNamespaces_failure (r : SharedQuotaReconciler) (q : SharedQuota)
    (req : String) (hget : r.Get req = Except.ok q) :
    (∀ e, r.ListNamespaces q.Spec.LabelSelector = Except.error e →
        syncQuotaForNamespaces r q = { err := some e, update := none }
          ∧ storedAfterSync r q = q
          ∧ Reconcile r req = { RequeueAfter := 0, err := some e, event := none })
      ∧ (∀ pre n post e,
          r.ListNamespaces q.Spec.LabelSelector = Except.ok (pre ++ n :: post) →
          (∀ m ∈ pre, ∃ u, usageOf r q.Spec m = Except.ok u) →
          usageOf r q.Spec n = Except.error e →
          syncQuotaForNamespaces r q = { err := some e, update := none }
            ∧ storedAfterSync r q = q
            ∧ Reconcile r req = { RequeueAfter := 0, err := some e, event := none })
      ∧ (∀ names n, r.ListNamespaces q.Spec.LabelSelector = Except.ok names →
          n ∈ names → (∃ e, usageOf r q.Spec n = Except.error e) →
          ∃ m e, m ∈ names ∧ usageOf r q.Spec m = Except.error e
            ∧ syncQuotaForNamespaces r q = { err := some e, update := none }
            ∧ storedAfterSync r q = q
            ∧ Reconcile r req = { RequeueAfter := 0, err := some e, event := none }) := by
  have hlist : ∀ e, r.ListNamespaces q.Spec.LabelSelector = Except.error e →
      syncQuotaForNamespaces r q = { err := some e, update := none }
        ∧ storedAfterSync r q = q
        ∧ Reconcile r req = { RequeueAfter := 0, err := some e, event := none } := by
    intro e he
    have hrec : reconciledQuota r q = Except.error e := by
      simp only [reconciledQuota, he]
    obtain ⟨h1, h2⟩ := sync_of_error r q e hrec
    exact ⟨h1, h2, Reconcile_of_error r req q e hget (by rw [h1])⟩
  have husage : ∀ pre n post e,
      r.ListNamespaces q.Spec.LabelSelector = Except.ok (pre ++ n :: post) →
      (∀ m ∈ pre, ∃ u, usageOf r q.Spec m = Except.ok u) →
      usageOf r q.Spec n = Except.error e →
      syncQuotaForNamespaces r q = { err := some e, update := none }
        ∧ storedAfterSync r q = q
        ∧ Reconcile r req = { RequeueAfter := 0, err := some e, event := none } := by
    intro pre n post e hl hpre hn
    have hrec : reconciledQuota r q = Except.error e := by
      simp only [reconciledQuota, hl, foldNamespaces_error r pre post n e q hpre hn]
    obtain ⟨h1, h2⟩ := sync_of_error r q e hrec
    exact ⟨h1, h2, Reconcile_of_error r req q e hget (by rw [h1])⟩
  refine ⟨hlist, husage, ?_⟩
  intro names n hl hn hfail
  obtain ⟨pre, m, post, e, h1, h2, h3⟩ := first_failure r q.Spec names n hn hfail
  subst h1
  obtain ⟨a, b, c⟩ := husage pre m post e hl h2 h3
  exact ⟨m, e, by simp, h3, a, b, c⟩

theorem syncQuotaForNamespaces_failure_witness :
    failingReconciler.Get "q" = Except.ok exampleQuota
    ∧ failingReconciler.ListNamespaces exampleQuota.Spec.LabelSelector
        = Except.ok (["a"] ++ "b" :: [])
    ∧ usageOf failingReconciler exampleQuota.Spec "b" = Except.error "list pods: timeout"
    ∧ syncQuotaForNamespaces failingReconciler exampleQuota
        = { err := some "list pods: timeout", update := none }
    ∧ storedAfterSync failingReconciler exampleQuota = exampleQuota
    ∧ Reconcile failingReconciler "q"
        = { RequeueAfter := 0, err := some "list pods: timeout", event := none } :=
  ⟨rfl, rfl, rfl,
    (syncQuotaForNamespaces_failure failingReconciler exampleQuota "q" rfl).2.1
      ["a"] "b" [] "list pods: timeout" rfl
      (fun m hm => ⟨[("cpu", 1)], by
        rw [List.mem_singleton] at hm
        subst hm
        rfl⟩)
      rfl⟩

theorem Insert_present (B : ResourceQuotasStatusByNamespace)
    (s : ResourceQuotaStatusByNamespace) (hex : ∃ e ∈ B, e.Namespace = s.Namespace) :
    InsertResourceQuotasStatus B s
      = B.map (fun e => if e.Namespace = s.Namespace then s else e) := by
  have hfound : (insertLoop B s).2 = true := (insertLoop_snd B s).mpr hex
  unfold InsertResourceQuotasStatus
  simp only [hfound, Bool.not_true, Bool.false_eq_true, if_false]
  exact insertLoop_fst B s

theorem Insert_filter_others (B : ResourceQuotasStatusByNamespace)
    (s : ResourceQuotaStatusByNamespace) :
    (InsertResourceQuotasStatus B s).filter (fun e => decide (e.Namespace ≠ s.Namespace))
      = B.filter (fun e => decide (e.Namespace ≠ s.Namespace)) := by
  have h := Insert_filter_stale B s [s.Namespace] (List.mem_singleton_self _)
  simpa using h

theorem Get_Insert (B : ResourceQuotasStatusByNamespace)
    (s : ResourceQuotaStatusByNamespace) :
    GetResourceQuotasStatusByNamespace (InsertResourceQuotasStatus B s) s.Namespace
      = (s.ResourceQuotaStatus, true) := by
  have hex : ∃ e ∈ InsertResourceQuotasStatus B s, e.Namespace = s.Namespace :=
    ⟨s, (mem_Insert_status B s s).mpr (Or.inl rfl), rfl⟩
  have hall : ∀ e ∈ InsertResourceQuotasStatus B s, e.Namespace = s.Namespace → e = s := by
    intro e he hens
    rcases (mem_Insert_status B s e).mp he with h | ⟨_, h⟩
    · exact h
    · exact absurd hens h
  exact Prod.ext (Get_settled _ _ _ hex hall) (Get_found _ _ hex)

/-- C15: InsertResourceQuotasStatus is an order-preserving upsert.  The entries
whose namespace differs from that of the new status are unchanged and keep their
relative order; if the list has an entry for the namespace, the result has the
same length, with the new status in the position of every such entry and every
other entry in its own position; otherwise the result is the list with the new
status appended; afterwards GetResourceQuotasStatusByNamespace returns the new
status and true for its namespace. -/
theorem InsertResourceQuotasStatus_upsert (L : ResourceQuotasStatusByNamespace)
    (s : ResourceQuotaStatusByNamespace) :
    (InsertResourceQuotasStatus L s).filter (fun e => decide (e.Namespace ≠ s.Namespace))
        = L.filter (fun e => decide (e.Namespace ≠ s.Namespace))
      ∧ ((∃ e ∈ L, e.Namespace = s.Namespace) →
          (InsertResourceQuotasStatus L s).length = L.length
            ∧ InsertResourceQuotasStatus L s
                = L.map (fun e => if e.Namespace = s.Namespace then s else e))
      ∧ ((∀ e ∈ L, e.Namespace ≠ s.Namespace) → InsertResourceQuotasStatus L s = L ++ [s])
      ∧ GetResourceQuotasStatusByNamespace (InsertResourceQuotasStatus L s) s.Namespace
          = (s.ResourceQuotaStatus, true) := by
  refine ⟨Insert_filter_others L s, ?_, Insert_absent L s, Get_Insert L s⟩
  intro hex
  have h := Insert_present L s hex
  refine ⟨?_, h⟩
  rw [h, List.length_map]

theorem Get_Remove_self (B : ResourceQuotasStatusByNamespace) (ns : String) :
    GetResourceQuotasStatusByNamespace (RemoveResourceQuotasStatusByNamespace B ns) ns
      = ({}, false) := by
  apply Get_absent
  intro e he
  exact ((mem_Remove B ns e).mp he).2

theorem Get_Remove_other (B : ResourceQuotasStatusByNamespace) (ns other : String)
    (h : other ≠ ns) :
    GetResourceQuotasStatusByNamespace (RemoveResourceQuotasStatusByNamespace B ns) other
      = GetResourceQuotasStatusByNamespace B other := by
  induction B with
  | nil => rfl
  | cons hd tl ih =>
    by_cases h1 : hd.Namespace = ns
    · have h2 : hd.Namespace ≠ other := by
        intro h3
        exact h (h3 ▸ h1)
      simp only [RemoveResourceQuotasStatusByNamespace, h1, if_true,
        GetResourceQuotasStatusByNamespace]
      rw [h1] at h2
      simp only [h2, if_false]
      exact ih
    · simp only [RemoveResourceQuotasStatusByNamespace, h1, if_false,
        GetResourceQuotasStatusByNamespace]
      by_cases h2 : hd.Namespace = other
      · simp only [h2, if_true]
      · simp only [h2, if_false]
        exact ih

/-- C16: RemoveResourceQuotasStatusByNamespace leaves exactly the entries whose
namespace differs from the given one, in their original order; afterwards
GetResourceQuotasStatusByNamespace returns the empty status and false for that
namespace and, for every other namespace, what it returned before. -/
theorem RemoveResourceQuotasStatusByNamespace_filter (L : ResourceQuotasStatusByNamespace)
    (n : String) :
    RemoveResourceQuotasStatusByNamespace L n
        = L.filter (fun e => decide (e.Namespace ≠ n))
      ∧ GetResourceQuotasStatusByNamespace (RemoveResourceQuotasStatusByNamespace L n) n
          = ({}, false)
      ∧ ∀ other, other ≠ n →
          GetResourceQuotasStatusByNamespace (RemoveResourceQuotasStatusByNamespace L n) other
            = GetResourceQuotasStatusByNamespace L other :=
  ⟨Remove_eq_filter L n, Get_Remove_self L n, Get_Remove_other L n⟩

theorem foldl_append_UID (l : List ResourceQuota) (acc : List String) :
    l.foldl (fun locks q => locks ++ [q.UID]) acc = acc ++ l.map (fun q => q.UID) := by
  induction l generalizing acc with
  | nil => simp
  | cons hd tl ih => rw [List.foldl_cons, ih]; simp

theorem lockAquisition_locks (sort : List ResourceQuota → List ResourceQuota)
    (quotas : List ResourceQuota) :
    (lockAquisition sort quotas).locks = (sort quotas).map (fun q => q.UID) := by
  simp [lockAquisition, foldl_append_UID]

theorem releaseLoop_append (l1 l2 : List String) :
    releaseLoop (l1 ++ l2) l1.length = l1.reverse := by
  induction l1 using List.reverseRecOn generalizing l2 with
  | nil => rfl
  | append_singleton init x ih =>
    have hx : (init ++ ([x] ++ l2)).get? init.length = some x := by
      rw [List.get?_eq_getElem?, List.getElem?_append_right (Nat.le_refl _)]
      simp
    rw [List.length_append, List.length_singleton, releaseLoop, List.append_assoc, ih, hx]
    simp

theorem releaseLoop_all (l : List String) : releaseLoop l l.length = l.reverse := by
  have := releaseLoop_append l []
  simpa using this

theorem lockAquisition_release (sort : List ResourceQuota → List ResourceQuota)
    (quotas : List ResourceQuota) :
    (lockAquisition sort quotas).release = (lockAquisition sort quotas).locks.reverse := by
  simp only [lockAquisition]
  exact releaseLoop_all _

theorem insertionSortByName_sorts : SortsByName insertionSortByName := by
  intro l
  refine ⟨List.perm_insertionSort _ l, ?_⟩
  haveI : IsTotal ResourceQuota (fun a b => a.Name.data ≤ b.Name.data) :=
    ⟨fun a b => le_total a.Name.data b.Name.data⟩
  haveI : IsTrans ResourceQuota (fun a b => a.Name.data ≤ b.Name.data) :=
    ⟨fun a b c hab hbc => le_trans hab hbc⟩
  have h := List.sorted_insertionSort (fun a b : ResourceQuota => a.Name.data ≤ b.Name.data) l
  unfold insertionSortByName
  refine List.Pairwise.imp ?_ h
  intro a b hab
  unfold ByName.Less
  exact not_lt.mpr hab

/-- C18: the function lockAquisition returns unlocks exactly the locks the call
has locked, each once, in the exact reverse of the order in which they were
locked: one lock per quota of the input, and none for the empty input. -/
theorem lockAquisition_release_reverse (sort : List ResourceQuota → List ResourceQuota)
    (quotas : List ResourceQuota) (hsort : SortsByName sort) :
    (lockAquisition sort quotas).release = (lockAquisition sort quotas).locks.reverse
      ∧ (lockAquisition sort quotas).release.Perm (lockAquisition sort quotas).locks
      ∧ (lockAquisition sort quotas).locks.Perm (quotas.map (fun q => q.UID))
      ∧ (∀ k, (lockAquisition sort quotas).release.count k
          = (lockAquisition sort quotas).locks.count k)
      ∧ (quotas = [] → lockAquisition sort quotas = { locks := [], release := [] }) := by
  have h1 := lockAquisition_release sort quotas
  have h2 : (lockAquisition sort quotas).release.Perm (lockAquisition sort quotas).locks := by
    rw [h1]; exact List.reverse_perm _
  refine ⟨h1, h2, ?_, fun k => h2.count_eq k, ?_⟩
  · rw [lockAquisition_locks]
    exact (hsort quotas).1.map _
  · intro hq
    subst hq
    have hnil : sort [] = [] := List.perm_nil.mp (hsort []).1
    simp [lockAquisition, hnil, releaseLoop]

theorem lockAquisition_release_reverse_witness :
    SortsByName insertionSortByName
    ∧ lockAquisition insertionSortByName
        [{ Name := "b", UID := "u2" }, { Name := "a", UID := "u1" },
          { Name := "c", UID := "u3" }]
        = { locks := ["u1", "u2", "u3"], release := ["u3", "u2", "u1"] }
    ∧ (lockAquisition insertionSortByName
        [{ Name := "b", UID := "u2" }, { Name := "a", UID := "u1" },
          { Name := "c", UID := "u3" }]).release
      = (lockAquisition insertionSortByName
        [{ Name := "b", UID := "u2" }, { Name := "a", UID := "u1" },
          { Name := "c", UID := "u3" }]).locks.reverse :=
  ⟨insertionSortByName_sorts, by decide,
    (lockAquisition_release_reverse insertionSortByName
      [{ Name := "b", UID := "u2" }, { Name := "a", UID := "u1" },
        { Name := "c", UID := "u3" }] insertionSortByName_sorts).1⟩

theorem two_mem_sublist (s : List String) (a b : String) (hab : a ≠ b) (ha : a ∈ s)
    (hb : b ∈ s) : [a, b].Sublist s ∨ [b, a].Sublist s := by
  induction s with
  | nil => cases ha
  | cons x t ih =>
    by_cases hxa : x = a
    · subst hxa
      left
      have hbt : b ∈ t := by
        rcases List.mem_cons.mp hb with h | h
        · exact absurd h.symm hab
        · exact h
      exact List.Sublist.cons₂ _ (List.singleton_sublist.mpr hbt)
    · by_cases hxb : x = b
      · subst hxb
        right
        have hat : a ∈ t := by
          rcases List.mem_cons.mp ha with h | h
          · exact absurd h.symm hxa
          · exact h
        exact List.Sublist.cons₂ _ (List.singleton_sublist.mpr hat)
      · have hat : a ∈ t := by
          rcases List.mem_cons.mp ha with h | h
          · exact absurd h.symm hxa
          · exact h
        have hbt : b ∈ t := by
          rcases List.mem_cons.mp hb with h | h
          · exact absurd h.symm hxb
          · exact h
        rcases ih hat hbt with h | h
        · exact Or.inl (List.Sublist.cons _ h)
        · exact Or.inr (List.Sublist.cons _ h)

/-- In a slice sorted by Name, the lock of a quota of greater Name is never locked
before the lock of a quota of smaller Name. -/
theorem not_before_of_less (sort : List ResourceQuota → List ResourceQuota)
    (hsort : SortsByName sort) (l : List ResourceQuota) (k1 k2 n1 n2 : String)
    (h1 : ∀ q ∈ l, q.UID = k1 → q.Name = n1) (h2 : ∀ q ∈ l, q.UID = k2 → q.Name = n2)
    (hlt : n1.data < n2.data) :
    ¬ AcquiredBefore (lockAquisition sort l).locks k2 k1 := by
  unfold AcquiredBefore
  rw [lockAquisition_locks]
  intro hsub
  obtain ⟨l', hl', hmap⟩ := List.sublist_map_iff.mp hsub
  obtain ⟨hperm, hpair⟩ := hsort l
  match l', hl', hmap with
  | [qa, qb], hl', hmap =>
    simp only [List.map_cons, List.map_nil, List.cons.injEq, and_true] at hmap
    obtain ⟨ha, hb⟩ := hmap
    have hmem : ∀ q ∈ [qa, qb], q ∈ l := fun q hq => hperm.subset (hl'.subset hq)
    have hna : qa.Name = n2 := h2 qa (hmem qa (by simp)) ha.symm
    have hnb : qb.Name = n1 := h1 qb (hmem qb (by simp)) hb.symm
    have hp := List.Pairwise.sublist hl' hpair
    simp only [List.pairwise_cons, List.mem_singleton, forall_eq, List.not_mem_nil,
      IsEmpty.forall_iff, implies_true, List.Pairwise.nil, and_true] at hp
    apply hp
    unfold ByName.Less
    rw [hna, hnb]
    exact hlt

theorem mem_locks (sort : List ResourceQuota → List ResourceQuota)
    (hsort : SortsByName sort) (l : List ResourceQuota) (k : String)
    (hk : k ∈ l.map (fun q => q.UID)) : k ∈ (lockAquisition sort l).locks := by
  rw [lockAquisition_locks]
  exact ((hsort l).1.map _).symm.subset hk

/-- Both calls lock the key of the smaller Name first. -/
theorem before_of_less (sort : List ResourceQuota → List ResourceQuota)
    (hsort : SortsByName sort) (l : List ResourceQuota) (k1 k2 n1 n2 : String)
    (hk : k1 ≠ k2) (hm1 : k1 ∈ l.map (fun q => q.UID)) (hm2 : k2 ∈ l.map (fun q => q.UID))
    (h1 : ∀ q ∈ l, q.UID = k1 → q.Name = n1) (h2 : ∀ q ∈ l, q.UID = k2 → q.Name = n2)
    (hlt : n1.data < n2.data) :
    AcquiredBefore (lockAquisition sort l).locks k1 k2
      ∧ ¬ AcquiredBefore (lockAquisition sort l).locks k2 k1 := by
  have hnot := not_before_of_less sort hsort l k1 k2 n1 n2 h1 h2 hlt
  refine ⟨?_, hnot⟩
  rcases two_mem_sublist _ k1 k2 hk (mem_locks sort hsort l k1 hm1)
    (mem_locks sort hsort l k2 hm2) with h | h
  · exact h
  · exact absurd h hnot

/-- The locks are acquired in the order of the quota names.  For every two quota
lists that both contain quotas with the lock keys k1 ≠ k2, where in both lists the
quotas of key k1 carry one name and the quotas of key k2 another name, both calls
of lockAquisition acquire the lock of k1 and the lock of k2 in the same relative
order, whatever the order of the input lists: the key of the smaller name first,
and never the other way round. -/
theorem lockAquisition_order_by_name (sort : List ResourceQuota → List ResourceQuota)
    (hsort : SortsByName sort) (l1 l2 : List ResourceQuota) (k1 k2 n1 n2 : String)
    (hk : k1 ≠ k2) (hn : n1 ≠ n2)
    (h11 : k1 ∈ l1.map (fun q => q.UID)) (h12 : k2 ∈ l1.map (fun q => q.UID))
    (h21 : k1 ∈ l2.map (fun q => q.UID)) (h22 : k2 ∈ l2.map (fun q => q.UID))
    (hname1 : ∀ q ∈ l1 ++ l2, q.UID = k1 → q.Name = n1)
    (hname2 : ∀ q ∈ l1 ++ l2, q.UID = k2 → q.Name = n2) :
    (AcquiredBefore (lockAquisition sort l1).locks k1 k2
        ∧ AcquiredBefore (lockAquisition sort l2).locks k1 k2
        ∧ ¬ AcquiredBefore (lockAquisition sort l1).locks k2 k1
        ∧ ¬ AcquiredBefore (lockAquisition sort l2).locks k2 k1)
      ∨ (AcquiredBefore (lockAquisition sort l1).locks k2 k1
        ∧ AcquiredBefore (lockAquisition sort l2).locks k2 k1
        ∧ ¬ AcquiredBefore (lockAquisition sort l1).locks k1 k2
        ∧ ¬ AcquiredBefore (lockAquisition sort l2).locks k1 k2) := by
  have hdata : n1.data ≠ n2.data := fun h => hn (String.ext h)
  have a1 : ∀ q ∈ l1, q.UID = k1 → q.Name = n1 :=
    fun q hq => hname1 q (List.mem_append_left _ hq)
  have a2 : ∀ q ∈ l1, q.UID = k2 → q.Name = n2 :=
    fun q hq => hname2 q (List.mem_append_left _ hq)
  have b1 : ∀ q ∈ l2, q.UID = k1 → q.Name = n1 :=
    fun q hq => hname1 q (List.mem_append_right _ hq)
  have b2 : ∀ q ∈ l2, q.UID = k2 → q.Name = n2 :=
    fun q hq => hname2 q (List.mem_append_right _ hq)
  rcases lt_or_gt_of_ne hdata with hlt | hgt
  · left
    obtain ⟨x1, x2⟩ := before_of_less sort hsort l1 k1 k2 n1 n2 hk h11 h12 a1 a2 hlt
    obtain ⟨y1, y2⟩ := before_of_less sort hsort l2 k1 k2 n1 n2 hk h21 h22 b1 b2 hlt
    exact ⟨x1, y1, x2, y2⟩
  · right
    obtain ⟨x1, x2⟩ := before_of_less sort hsort l1 k2 k1 n2 n1 hk.symm h12 h11 a2 a1 hgt
    obtain ⟨y1, y2⟩ := before_of_less sort hsort l2 k2 k1 n2 n1 hk.symm h22 h21 b2 b1 hgt
    exact ⟨x1, y1, x2, y2⟩

/-- C17: lock acquisition follows one total order on quota identities.  For every
two quota lists passed to lockAquisition that both contain quotas with the lock
keys (UIDs) k1 ≠ k2, both calls acquire the lock of k1 and the lock of k2 in the
same relative order, whatever the order of the input lists.  The lists hold quotas
of one cluster-scoped kind: a UID belongs to one object with one name, and within
a list the names identify the quotas. -/
theorem lockAquisition_same_order (sort : List ResourceQuota → List ResourceQuota)
    (hsort : SortsByName sort) (l1 l2 : List ResourceQuota) (k1 k2 : String)
    (hk : k1 ≠ k2)
    (h11 : k1 ∈ l1.map (fun q => q.UID)) (h12 : k2 ∈ l1.map (fun q => q.UID))
    (h21 : k1 ∈ l2.map (fun q => q.UID)) (h22 : k2 ∈ l2.map (fun q => q.UID))
    (hobject : ∀ q ∈ l1 ++ l2, ∀ q' ∈ l1 ++ l2, q.UID = q'.UID → q.Name = q'.Name)
    (hnames : ∀ l ∈ [l1, l2], NamesIdentify l) :
    ((AcquiredBefore (lockAquisition sort l1).locks k1 k2
        ∧ AcquiredBefore (lockAquisition sort l2).locks k1 k2
        ∧ ¬ AcquiredBefore (lockAquisition sort l1).locks k2 k1
        ∧ ¬ AcquiredBefore (lockAquisition sort l2).locks k2 k1)
      ∨ (AcquiredBefore (lockAquisition sort l1).locks k2 k1
        ∧ AcquiredBefore (lockAquisition sort l2).locks k2 k1
        ∧ ¬ AcquiredBefore (lockAquisition sort l1).locks k1 k2
        ∧ ¬ AcquiredBefore (lockAquisition sort l2).locks k1 k2))
      ∧ (AcquiredBefore (lockAquisition sort l1).locks k1 k2
          ↔ AcquiredBefore (lockAquisition sort l2).locks k1 k2)
      ∧ (AcquiredBefore (lockAquisition sort l1).locks k2 k1
          ↔ AcquiredBefore (lockAquisition sort l2).locks k2 k1) := by
  obtain ⟨qa, hqa, hua⟩ := List.mem_map.mp h11
  obtain ⟨qb, hqb, hub⟩ := List.mem_map.mp h12
  have hn : qa.Name ≠ qb.Name := by
    intro heq
    apply hk
    rw [← hua, ← hub]
    exact hnames l1 (List.mem_cons_self _ _) qa hqa qb hqb heq
  have hname1 : ∀ q ∈ l1 ++ l2, q.UID = k1 → q.Name = qa.Name := by
    intro q hq hu
    exact hobject q hq qa (List.mem_append_left _ hqa) (by rw [hu, hua])
  have hname2 : ∀ q ∈ l1 ++ l2, q.UID = k2 → q.Name = qb.Name := by
    intro q hq hu
    exact hobject q hq qb (List.mem_append_left _ hqb) (by rw [hu, hub])
  have hor := lockAquisition_order_by_name sort hsort l1 l2 k1 k2 qa.Name qb.Name hk hn
    h11 h12 h21 h22 hname1 hname2
  refine ⟨hor, ?_, ?_⟩
  · rcases hor with ⟨a1, a2, _, _⟩ | ⟨_, _, b1, b2⟩
    · exact ⟨fun _ => a2, fun _ => a1⟩
    · exact ⟨fun h => absurd h b1, fun h => absurd h b2⟩
  · rcases hor with ⟨_, _, a1, a2⟩ | ⟨b1, b2, _, _⟩
    · exact ⟨fun h => absurd h a1, fun h => absurd h a2⟩
    · exact ⟨fun _ => b2, fun _ => b1⟩

/-- The quotas a and b, listed in both orders with a third quota between them in
the second list: both calls lock u1 before u2. -/
theorem lockAquisition_same_order_witness :
    (SortsByName insertionSortByName ∧ ("u1" : String) ≠ "u2"
      ∧ ∀ l ∈ [[({ Name := "a", UID := "u1" } : ResourceQuota), { Name := "b", UID := "u2" }],
            [{ Name := "b", UID := "u2" }, { Name := "ab", UID := "u3" },
              { Name := "a", UID := "u1" }]], NamesIdentify l)
    ∧ (lockAquisition insertionSortByName
          [{ Name := "a", UID := "u1" }, { Name := "b", UID := "u2" }]).locks = ["u1", "u2"]
    ∧ (lockAquisition insertionSortByName
          [{ Name := "b", UID := "u2" }, { Name := "ab", UID := "u3" },
            { Name := "a", UID := "u1" }]).locks = ["u1", "u3", "u2"]
    ∧ (AcquiredBefore (lockAquisition insertionSortByName
            [{ Name := "a", UID := "u1" }, { Name := "b", UID := "u2" }]).locks "u1" "u2"
        ↔ AcquiredBefore (lockAquisition insertionSortByName
            [{ Name := "b", UID := "u2" }, { Name := "ab", UID := "u3" },
              { Name := "a", UID := "u1" }]).locks "u1" "u2") :=
  ⟨⟨insertionSortByName_sorts, by decide, by decide⟩, by decide, by decide,
    (lockAquisition_same_order insertionSortByName insertionSortByName_sorts
      [{ Name := "a", UID := "u1" }, { Name := "b", UID := "u2" }]
      [{ Name := "b", UID := "u2" }, { Name := "ab", UID := "u3" },
        { Name := "a", UID := "u1" }]
      "u1" "u2" (by decide) (by decide) (by decide) (by decide) (by decide)
      (by decide) (by decide)).2.1⟩

/-- Why the order of the locks rests on the names identifying the quotas: the slice
is sorted by Name while the locks are keyed by UID.  Two quotas of one Name with the
UIDs u1 and u2, which no listing of a cluster-scoped kind returns, would be left in
the order of the input by the insertion sort that sort.Sort runs on short slices,
and the calls on the two orders of the list would lock u1 and u2 in opposite
orders. -/
theorem lockAquisition_equal_names_order :
    ¬ (∀ (sort : List ResourceQuota → List ResourceQuota), SortsByName sort →
        ∀ (l1 l2 : List ResourceQuota) (k1 k2 : String), k1 ≠ k2 →
          k1 ∈ l1.map (fun q => q.UID) → k2 ∈ l1.map (fun q => q.UID) →
          k1 ∈ l2.map (fun q => q.UID) → k2 ∈ l2.map (fun q => q.UID) →
          (AcquiredBefore (lockAquisition sort l1).locks k1 k2
            ↔ AcquiredBefore (lockAquisition sort l2).locks k1 k2))
      ∧ (lockAquisition insertionSortByName
          [{ Name := "x", UID := "u1" }, { Name := "x", UID := "u2" }]).locks = ["u1", "u2"]
      ∧ (lockAquisition insertionSortByName
          [{ Name := "x", UID := "u2" }, { Name := "x", UID := "u1" }]).locks
          = ["u2", "u1"] := by
  refine ⟨?_, by decide, by decide⟩
  intro h
  have h2 := h insertionSortByName insertionSortByName_sorts
    [{ Name := "x", UID := "u1" }, { Name := "x", UID := "u2" }]
    [{ Name := "x", UID := "u2" }, { Name := "x", UID := "u1" }]
    "u1" "u2" (by decide) (by decide) (by decide) (by decide) (by decide)
  exact absurd (h2.mp (by decide)) (by decide)

theorem decodePayload_cases (decode : String → Except String Object) (raw : String) :
    ((raw.length = 0 || (decode raw).toBool) = true
        ∧ ∃ o, decodePayload decode raw = Except.ok o)
      ∨ ((raw.length = 0 || (decode raw).toBool) = false
        ∧ ∃ err, decodePayload decode raw = Except.error err) := by
  unfold decodePayload
  by_cases h : raw.length > 0
  · have h0 : raw.length ≠ 0 := Nat.ne_of_gt h
    cases hd : decode raw with
    | error err =>
      right
      simp [h, h0, hd, Except.toBool]
    | ok o =>
      left
      simp [h, h0, hd, Except.toBool]
  · left
    have h0 : raw.length = 0 := by omega
    simp [h0]

/-- The three outcomes of convertToAdmissionAttributes. -/
theorem convertToAdmissionAttributes_cases (decode : String → Except String Object)
    (req : AdmissionRequest) :
    (payloadsDecode decode req = false
        ∧ ∃ err, convertToAdmissionAttributes decode req = Outcome.returned (Except.error err))
      ∨ (payloadsDecode decode req = true
        ∧ (req.RequestKind.isSome && req.RequestResource.isSome && req.DryRun.isSome) = true
        ∧ ∃ attrs,
            convertToAdmissionAttributes decode req = Outcome.returned (Except.ok attrs))
      ∨ (payloadsDecode decode req = true
        ∧ (req.RequestKind.isSome && req.RequestResource.isSome && req.DryRun.isSome) = false
        ∧ ∃ reason, convertToAdmissionAttributes decode req = Outcome.panicked reason) := by
  unfold convertToAdmissionAttributes payloadsDecode
  simp only [List.all_cons, List.all_nil, Bool.and_true]
  rcases decodePayload_cases decode req.ObjectRaw with ⟨h1, o1, e1⟩ | ⟨h1, err, e1⟩
  · rcases decodePayload_cases decode req.OldObjectRaw with ⟨h2, o2, e2⟩ | ⟨h2, err, e2⟩
    · rcases decodePayload_cases decode req.OptionsRaw with ⟨h3, o3, e3⟩ | ⟨h3, err, e3⟩
      · right
        rw [e1, e2, e3, h1, h2, h3]
        simp only []
        cases hk : req.RequestKind <;> cases hr : req.RequestResource <;>
          cases hd : req.DryRun <;> simp
      · left
        rw [e1, e2, e3, h1, h2, h3]
        exact ⟨rfl, err, rfl⟩
    · left
      rw [e1, e2, h1, h2]
      exact ⟨by simp, err, rfl⟩
  · left
    rw [e1, h1]
    exact ⟨by simp, err, rfl⟩

theorem Handle_body (a : SharedQuotaAdmission) (req : AdmissionRequest)
    (hsub : req.RequestSubResource.length = 0) (hns : req.Namespace.length ≠ 0) :
    Handle a req
      = match convertToAdmissionAttributes a.Decode req with
        | Outcome.panicked reason => Outcome.panicked reason
        | Outcome.returned (Except.error err) =>
          Outcome.returned (webhook.Errored StatusBadRequest err)
        | Outcome.returned (Except.ok attributesRecord) =>
          match a.Evaluate attributesRecord with
          | some err =>
            if err.forbidden then Outcome.returned (webhook.Denied err.text)
            else Outcome.returned (webhook.Errored StatusInternalServerError err.text)
          | none => Outcome.returned (webhook.Allowed "") := by
  unfold Handle
  simp only [hsub, hns, ne_eq, not_true_eq_false, if_false]

/-- The responses of Handle.  For every namespaced, non-sub-resource request it
returns an allowed response iff the request converts to an attributes record and
the quota evaluator returns nil for that record; a Forbidden evaluator error gives
a denied response carrying the error text, any other evaluator error gives an
errored response with status 500, a decode failure gives an errored response with
status 400; no error path yields an allowed response, and a call that panics
returns no response at all. -/
theorem Handle_fail_closed (a : SharedQuotaAdmission) (req : AdmissionRequest)
    (hsub : req.RequestSubResource.length = 0) (hns : req.Namespace.length ≠ 0) :
    (Handle a req = Outcome.returned (webhook.Allowed "")
        ↔ ∃ attrs, convertToAdmissionAttributes a.Decode req
              = Outcome.returned (Except.ok attrs)
            ∧ a.Evaluate attrs = none)
      ∧ (∀ attrs err,
          convertToAdmissionAttributes a.Decode req = Outcome.returned (Except.ok attrs) →
          a.Evaluate attrs = some err →
          (err.forbidden = true →
            Handle a req = Outcome.returned (webhook.Denied err.text))
          ∧ (err.forbidden = false →
            Handle a req
              = Outcome.returned (webhook.Errored StatusInternalServerError err.text)))
      ∧ (∀ err,
          convertToAdmissionAttributes a.Decode req = Outcome.returned (Except.error err) →
          Handle a req = Outcome.returned (webhook.Errored StatusBadRequest err))
      ∧ (∀ resp, Handle a req = Outcome.returned resp → resp.Allowed = true →
          payloadsDecode a.Decode req = true
            ∧ ∃ attrs, convertToAdmissionAttributes a.Decode req
                  = Outcome.returned (Except.ok attrs)
                ∧ a.Evaluate attrs = none)
      ∧ (payloadsDecode a.Decode req = false →
          ∃ err, Handle a req = Outcome.returned (webhook.Errored StatusBadRequest err))
      ∧ (payloadsDecode a.Decode req = true → req.RequestKind.isSome = true →
          req.RequestResource.isSome = true → req.DryRun.isSome = true →
          ∃ attrs, convertToAdmissionAttributes a.Decode req
              = Outcome.returned (Except.ok attrs))
      ∧ (∀ reason, convertToAdmissionAttributes a.Decode req = Outcome.panicked reason →
          Handle a req = Outcome.panicked reason) := by
  have hbody := Handle_body a req hsub hns
  have hmain : ∀ resp, Handle a req = Outcome.returned resp → resp.Allowed = true →
      payloadsDecode a.Decode req = true
        ∧ ∃ attrs, convertToAdmissionAttributes a.Decode req
              = Outcome.returned (Except.ok attrs)
            ∧ a.Evaluate attrs = none := by
    intro resp hresp hallowed
    rw [hbody] at hresp
    rcases convertToAdmissionAttributes_cases a.Decode req with
      ⟨_, err, hc⟩ | ⟨hp, _, attrs, hc⟩ | ⟨_, _, reason, hc⟩
    · rw [hc] at hresp
      simp only [Outcome.returned.injEq] at hresp
      rw [← hresp] at hallowed
      simp [webhook.Errored] at hallowed
    · refine ⟨hp, attrs, hc, ?_⟩
      rw [hc] at hresp
      simp only [] at hresp
      cases he : a.Evaluate attrs with
      | none => rfl
      | some err =>
        rw [he] at hresp
        simp only [] at hresp
        split at hresp
        · simp only [Outcome.returned.injEq] at hresp
          rw [← hresp] at hallowed
          simp [webhook.Denied] at hallowed
        · simp only [Outcome.returned.injEq] at hresp
          rw [← hresp] at hallowed
          simp [webhook.Errored] at hallowed
    · rw [hc] at hresp
      cases hresp
  refine ⟨?_, ?_, ?_, hmain, ?_, ?_, fun reason hc => by rw [hbody, hc]⟩
  · constructor
    · intro h
      exact (hmain _ h rfl).2
    · rintro ⟨attrs, hc, he⟩
      rw [hbody, hc]
      simp only [he]
  · intro attrs err hc he
    constructor
    · intro hf
      rw [hbody, hc]
      simp only [he, hf, if_true]
    · intro hf
      rw [hbody, hc]
      simp only [he, hf, Bool.false_eq_true, if_false]
  · intro err hc
    rw [hbody, hc]
  · intro hp
    rcases convertToAdmissionAttributes_cases a.Decode req with
      ⟨_, err, hc⟩ | ⟨hp2, _⟩ | ⟨hp2, _⟩
    · exact ⟨err, by rw [hbody, hc]⟩
    · rw [hp] at hp2; cases hp2
    · rw [hp] at hp2; cases hp2
  · intro hp hk hr hd
    rcases convertToAdmissionAttributes_cases a.Decode req with
      ⟨hp2, _⟩ | ⟨_, _, attrs, hc⟩ | ⟨_, hnone, _⟩
    · rw [hp] at hp2; cases hp2
    · exact ⟨attrs, hc⟩
    · rw [hk, hr, hd] at hnone
      cases hnone

theorem Handle_fail_closed_witness :
    ((exampleRequest "ns1" "pod").RequestSubResource.length = 0
      ∧ (exampleRequest "ns1" "pod").Namespace.length ≠ 0)
    ∧ Handle exampleAdmission (exampleRequest "ns1" "pod")
        = Outcome.returned (webhook.Allowed "")
    ∧ Handle exampleAdmission (exampleRequest "full" "pod")
        = Outcome.returned
            (webhook.Denied "exceeded quota: pods, requested 1, used 3, limited 3")
    ∧ Handle exampleAdmission (exampleRequest "down" "pod")
        = Outcome.returned (webhook.Errored 500 "connection refused")
    ∧ Handle exampleAdmission (exampleRequest "ns1" "garbage")
        = Outcome.returned (webhook.Errored 400 "couldn't get version/kind")
    ∧ (Handle exampleAdmission (exampleRequest "ns1" "pod")
          = Outcome.returned (webhook.Allowed "")
        ↔ ∃ attrs, convertToAdmissionAttributes exampleAdmission.Decode
              (exampleRequest "ns1" "pod") = Outcome.returned (Except.ok attrs)
            ∧ exampleAdmission.Evaluate attrs = none) :=
  ⟨⟨by decide, by decide⟩, by decide, by decide, by decide, by decide,
    (Handle_fail_closed exampleAdmission (exampleRequest "ns1" "pod")
      (by decide) (by decide)).1⟩

theorem perm_pair (l : List ResourceQuota) (a b : ResourceQuota) (h : l.Perm [a, b]) :
    l = [a, b] ∨ l = [b, a] := by
  have hlen := h.length_eq
  match l, hlen with
  | [x, y], _ =>
    have hx : x ∈ [a, b] := h.subset (List.mem_cons_self _ _)
    have hy : y ∈ [a, b] := h.subset (by simp)
    have ha : a ∈ [x, y] := h.symm.subset (List.mem_cons_self _ _)
    have hb : b ∈ [x, y] := h.symm.subset (by simp)
    simp only [List.mem_cons, List.mem_singleton, List.not_mem_nil, or_false] at hx hy ha hb
    rcases hx with rfl | rfl
    · rcases hy with rfl | rfl
      · rcases hb with rfl | rfl <;> simp
      · simp
    · rcases hy with rfl | rfl
      · simp
      · rcases ha with rfl | rfl <;> simp

/-- On two quotas of different names, sort.Sort yields the one order of the names,
whatever the order of the input. -/
theorem sort_pair (sort : List ResourceQuota → List ResourceQuota)
    (hsort : SortsByName sort) (a b : ResourceQuota) (hlt : ByName.Less a b) :
    sort [a, b] = [a, b] ∧ sort [b, a] = [a, b] := by
  have hnot : ∀ l, (sort l).Perm [a, b] → sort l = [a, b] := by
    intro l hp
    rcases perm_pair _ a b hp with h | h
    · exact h
    · have hs := (hsort l).2
      rw [h] at hs
      simp only [List.pairwise_cons, List.mem_singleton, forall_eq, List.not_mem_nil,
        IsEmpty.forall_iff, implies_true, List.Pairwise.nil, and_true] at hs
      exact absurd hlt hs
  refine ⟨hnot _ (hsort _).1, hnot _ ?_⟩
  exact (hsort _).1.trans (List.Perm.swap a b [])

theorem lockProgram_pair (sort : List ResourceQuota → List ResourceQuota)
    (l : List ResourceQuota) (a b : ResourceQuota) (h : sort l = [a, b]) :
    lockProgram sort l = pairProgram a.UID b.UID := by
  unfold lockProgram
  rw [lockAquisition_release, lockAquisition_locks, h]
  rfl

/-- A request whose next call goes through moves on by one call; its first Lock
goes through only while the other request holds no lock. -/
theorem stepThread_pair (kx ky : String) (hne : kx ≠ ky) (i j : Nat) (hi : i ≤ 4)
    (hj : j ≤ 4) (t : LockThread)
    (h : stepThread (pairThread kx ky i) (pairThread kx ky j) = some t) :
    t = pairThread kx ky (i + 1) ∧ i < 4 ∧ (i = 0 → j = 0 ∨ j = 4) := by
  have hne2 : ky ≠ kx := fun h => hne h.symm
  interval_cases i <;> interval_cases j <;>
    simp [stepThread, pairThread, pairProgram, pairHeld, hne, hne2] at h ⊢ <;>
    exact h.symm

/-- While the other request holds no lock, the next call of a request goes
through. -/
theorem stepThread_pair_free (kx ky : String) (hne : kx ≠ ky) (i j : Nat) (hi : i < 4)
    (hj : j = 0 ∨ j = 4) :
    stepThread (pairThread kx ky i) (pairThread kx ky j)
      = some (pairThread kx ky (i + 1)) := by
  have hne2 : ky ≠ kx := fun h => hne h.symm
  rcases hj with rfl | rfl <;> interval_cases i <;>
    simp [stepThread, pairThread, pairProgram, pairHeld, hne, hne2]

theorem PairInvariant_step (kx ky : String) (hne : kx ≠ ky) (s s' : LockSystem)
    (hinv : PairInvariant kx ky s) (hstep : LockStep s s') : PairInvariant kx ky s' := by
  obtain ⟨i, j, hi, hj, hfree, rfl⟩ := hinv
  rcases hstep with ⟨t, ht, rfl⟩ | ⟨t, ht, rfl⟩
  · obtain ⟨h1, h2, h3⟩ := stepThread_pair kx ky hne i j hi hj t ht
    refine ⟨i + 1, j, by omega, hj, ?_, by rw [h1]⟩
    by_cases h0 : i = 0
    · rcases h3 h0 with h | h
      · exact Or.inr (Or.inr (Or.inl h))
      · exact Or.inr (Or.inr (Or.inr h))
    · rcases hfree with h | h | h | h
      · exact absurd h h0
      · omega
      · exact Or.inr (Or.inr (Or.inl h))
      · exact Or.inr (Or.inr (Or.inr h))
  · obtain ⟨h1, h2, h3⟩ := stepThread_pair kx ky hne j i hj hi t ht
    refine ⟨i, j + 1, hi, by omega, ?_, by rw [h1]⟩
    by_cases h0 : j = 0
    · rcases h3 h0 with h | h
      · exact Or.inl h
      · exact Or.inr (Or.inl h)
    · rcases hfree with h | h | h | h
      · exact Or.inl h
      · exact Or.inr (Or.inl h)
      · exact absurd h h0
      · omega

theorem PairInvariant_progress (kx ky : String) (hne : kx ≠ ky) (s : LockSystem)
    (hinv : PairInvariant kx ky s) : LockFinished s ∨ ∃ s', LockStep s s' := by
  obtain ⟨i, j, hi, hj, hfree, rfl⟩ := hinv
  by_cases hj0 : j = 0 ∨ j = 4
  · by_cases hi4 : i < 4
    · right
      exact ⟨_, Or.inl ⟨_, stepThread_pair_free kx ky hne i j hi4 hj0, rfl⟩⟩
    · have hi' : i = 4 := by omega
      subst hi'
      rcases hj0 with rfl | rfl
      · right
        exact ⟨_, Or.inr ⟨_, stepThread_pair_free kx ky hne 0 4 (by omega) (Or.inr rfl), rfl⟩⟩
      · left
        exact ⟨rfl, rfl⟩
  · have hi0 : i = 0 ∨ i = 4 := by
      rcases hfree with h | h | h | h
      · exact Or.inl h
      · exact Or.inr h
      · exact absurd (Or.inl h) hj0
      · exact absurd (Or.inr h) hj0
    have hj4 : j < 4 := by
      by_contra hc
      exact hj0 (Or.inr (by omega))
    right
    exact ⟨_, Or.inr ⟨_, stepThread_pair_free kx ky hne j i hj4 hi0, rfl⟩⟩

theorem PairInvariant_reachable (kx ky : String) (hne : kx ≠ ky) (init s : LockSystem)
    (hinit : PairInvariant kx ky init) (h : LockReachable init s) :
    PairInvariant kx ky s := by
  unfold LockReachable at h
  induction h with
  | refl => exact hinit
  | tail _ hstep ih => exact PairInvariant_step kx ky hne _ _ ih hstep

/-- Every step of an interleaving takes one call off the calls that are left. -/
theorem lockCallsLeft_step (s s' : LockSystem) (h : LockStep s s') :
    lockCallsLeft s' + 1 = lockCallsLeft s := by
  unfold lockCallsLeft
  rcases h with ⟨t, ht, rfl⟩ | ⟨t, ht, rfl⟩
  · unfold stepThread at ht
    split at ht
    · cases ht
    · rename_i k rest hrem
      split at ht
      · cases ht
      · injection ht with ht
        subst ht
        simp only [hrem, List.length_cons]
        omega
    · rename_i k rest hrem
      injection ht with ht
      subst ht
      simp only [hrem, List.length_cons]
      omega
  · unfold stepThread at ht
    split at ht
    · cases ht
    · rename_i k rest hrem
      split at ht
      · cases ht
      · injection ht with ht
        subst ht
        simp only [hrem, List.length_cons]
        omega
    · rename_i k rest hrem
      injection ht with ht
      subst ht
      simp only [hrem, List.length_cons]
      omega

/-- The two requests on [A, B] and [B, A] start in the pair invariant of the keys
in the order of the names. -/
theorem lockStart_pair (sort : List ResourceQuota → List ResourceQuota)
    (hsort : SortsByName sort) (A B : ResourceQuota) (hname : A.Name ≠ B.Name) :
    (PairInvariant A.UID B.UID (lockStart sort [A, B] [B, A])
        ∧ lockCallsLeft (lockStart sort [A, B] [B, A]) = 8)
      ∨ (PairInvariant B.UID A.UID (lockStart sort [A, B] [B, A])
        ∧ lockCallsLeft (lockStart sort [A, B] [B, A]) = 8) := by
  have hdata : A.Name.data ≠ B.Name.data := fun h => hname (String.ext h)
  rcases lt_or_gt_of_ne hdata with hlt | hgt
  · left
    obtain ⟨h1, h2⟩ := sort_pair sort hsort A B hlt
    have e : lockStart sort [A, B] [B, A]
        = { first := pairThread A.UID B.UID 0, second := pairThread A.UID B.UID 0 } := by
      unfold lockStart
      rw [lockProgram_pair sort _ A B h1, lockProgram_pair sort _ A B h2]
      rfl
    rw [e]
    exact ⟨⟨0, 0, by omega, by omega, Or.inl rfl, rfl⟩, rfl⟩
  · right
    obtain ⟨h1, h2⟩ := sort_pair sort hsort B A hgt
    have e : lockStart sort [A, B] [B, A]
        = { first := pairThread B.UID A.UID 0, second := pairThread B.UID A.UID 0 } := by
      unfold lockStart
      rw [lockProgram_pair sort _ B A h2, lockProgram_pair sort _ B A h1]
      rfl
    rw [e]
    exact ⟨⟨0, 0, by omega, by omega, Or.inl rfl, rfl⟩, rfl⟩

/-- C19: two admission requests that concurrently run lockAquisition on the quota
lists [A, B] and [B, A] never deadlock: in every state they reach under any
interleaving, both have finished or one of them can make its next call; every
step takes one of the eight calls off, so every interleaving ends, and it ends
with both requests having obtained and released all their locks.  A and B are two
quotas of the cluster-scoped kind: two objects, so their UIDs differ, and their
names differ. -/
theorem lockAquisition_no_deadlock (sort : List ResourceQuota → List ResourceQuota)
    (hsort : SortsByName sort) (A B : ResourceQuota) (huid : A.UID ≠ B.UID)
    (hname : A.Name ≠ B.Name) :
    (∀ s, LockReachable (lockStart sort [A, B] [B, A]) s →
        LockFinished s ∨ ∃ s', LockStep s s')
      ∧ (∀ s, LockReachable (lockStart sort [A, B] [B, A]) s →
          (∀ s', ¬ LockStep s s') → LockFinished s)
      ∧ lockCallsLeft (lockStart sort [A, B] [B, A]) = 8
      ∧ ∀ s s', LockStep s s' → lockCallsLeft s' + 1 = lockCallsLeft s := by
  have hprog : ∀ s, LockReachable (lockStart sort [A, B] [B, A]) s →
      LockFinished s ∨ ∃ s', LockStep s s' := by
    intro s hs
    rcases lockStart_pair sort hsort A B hname with ⟨hinv, _⟩ | ⟨hinv, _⟩
    · exact PairInvariant_progress _ _ huid s
        (PairInvariant_reachable _ _ huid _ s hinv hs)
    · exact PairInvariant_progress _ _ huid.symm s
        (PairInvariant_reachable _ _ huid.symm _ s hinv hs)
  refine ⟨hprog, ?_, ?_, lockCallsLeft_step⟩
  · intro s hs hstuck
    rcases hprog s hs with h | ⟨s', h⟩
    · exact h
    · exact absurd h (hstuck s')
  · rcases lockStart_pair sort hsort A B hname with ⟨_, h⟩ | ⟨_, h⟩ <;> exact h

theorem lockAquisition_no_deadlock_witness :
    (SortsByName insertionSortByName
      ∧ ({ Name := "a", UID := "u1" } : ResourceQuota).UID
          ≠ ({ Name := "b", UID := "u2" } : ResourceQuota).UID
      ∧ ({ Name := "a", UID := "u1" } : ResourceQuota).Name
          ≠ ({ Name := "b", UID := "u2" } : ResourceQuota).Name)
    ∧ lockStart insertionSortByName
        [{ Name := "a", UID := "u1" }, { Name := "b", UID := "u2" }]
        [{ Name := "b", UID := "u2" }, { Name := "a", UID := "u1" }]
      = { first := { remaining := pairProgram "u1" "u2", held := [] }
          second := { remaining := pairProgram "u1" "u2", held := [] } }
    ∧ ∀ s, LockReachable (lockStart insertionSortByName
          [{ Name := "a", UID := "u1" }, { Name := "b", UID := "u2" }]
          [{ Name := "b", UID := "u2" }, { Name := "a", UID := "u1" }]) s →
        LockFinished s ∨ ∃ s', LockStep s s' :=
  ⟨⟨insertionSortByName_sorts, by decide, by decide⟩, by decide,
    (lockAquisition_no_deadlock insertionSortByName insertionSortByName_sorts
      { Name := "a", UID := "u1" } { Name := "b", UID := "u2" }
      (by decide) (by decide)).1⟩

theorem crossedLocks_reachable :
    LockReachable (lockStart insertionSortByName [sameNameFirst, sameNameSecond]
      [sameNameSecond, sameNameFirst]) crossedLocks := by
  unfold LockReachable
  have h0 : lockStart insertionSortByName [sameNameFirst, sameNameSecond]
      [sameNameSecond, sameNameFirst]
      = { first := { remaining := pairProgram "u1" "u2", held := [] }
          second := { remaining := pairProgram "u2" "u1", held := [] } } := by decide
  rw [h0]
  have s1 : LockStep
      { first := { remaining := pairProgram "u1" "u2", held := [] }
        second := { remaining := pairProgram "u2" "u1", held := [] } }
      { first := { remaining := (pairProgram "u1" "u2").drop 1, held := ["u1"] }
        second := { remaining := pairProgram "u2" "u1", held := [] } } :=
    Or.inl ⟨{ remaining := (pairProgram "u1" "u2").drop 1, held := ["u1"] },
      by decide, rfl⟩
  have s2 : LockStep
      { first := { remaining := (pairProgram "u1" "u2").drop 1, held := ["u1"] }
        second := { remaining := pairProgram "u2" "u1", held := [] } }
      crossedLocks :=
    Or.inr ⟨{ remaining := (pairProgram "u2" "u1").drop 1, held := ["u2"] },
      by decide, rfl⟩
  exact (Relation.ReflTransGen.single s1).tail s2

theorem crossedLocks_stuck : ¬ LockFinished crossedLocks ∧ ∀ s', ¬ LockStep crossedLocks s' := by
  constructor
  · intro h
    exact absurd h.1 (by decide)
  · intro s' h
    have h1 : stepThread crossedLocks.first crossedLocks.second = none := by decide
    have h2 : stepThread crossedLocks.second crossedLocks.first = none := by decide
    rcases h with ⟨t, ht, _⟩ | ⟨t, ht, _⟩
    · rw [h1] at ht; cases ht
    · rw [h2] at ht; cases ht

/-- Why the two quotas are taken with different names: for two quotas of one name
with the UIDs u1 and u2, which no listing of a cluster-scoped kind returns, the
insertion sort that sort.Sort runs on short slices would leave each list in its
input order, the request on [A, B] would lock u1 first and the request on [B, A]
u2 first, and after one call of each, each would wait for the lock the other
holds. -/
theorem lockAquisition_equal_names_crossed :
    ¬ (∀ (sort : List ResourceQuota → List ResourceQuota), SortsByName sort →
        ∀ A B : ResourceQuota, A.UID ≠ B.UID →
          ∀ s, LockReachable (lockStart sort [A, B] [B, A]) s →
            LockFinished s ∨ ∃ s', LockStep s s')
      ∧ LockReachable (lockStart insertionSortByName [sameNameFirst, sameNameSecond]
          [sameNameSecond, sameNameFirst]) crossedLocks
      ∧ ¬ LockFinished crossedLocks
      ∧ ∀ s', ¬ LockStep crossedLocks s' := by
  refine ⟨?_, crossedLocks_reachable, crossedLocks_stuck.1, crossedLocks_stuck.2⟩
  intro h
  rcases h insertionSortByName insertionSortByName_sorts sameNameFirst sameNameSecond
    (by decide) crossedLocks crossedLocks_reachable with hf | ⟨s', hs⟩
  · exact crossedLocks_stuck.1 hf
  · exact crossedLocks_stuck.2 s' hs

/-! ## Handle: the requests it lets through unexamined -/

/-- C21: for every admission request with a non-empty sub-resource or an empty
namespace, Handle returns the allowed response `webhook.Allowed ""`, whatever the
decoder and the quota evaluator of the admission are: it returns before either is
reached, so neither a payload that does not decode nor an evaluator that refuses
changes the answer, and it does not panic. -/
theorem Handle_skips_subresource_and_cluster_scoped (a : SharedQuotaAdmission)
    (req : AdmissionRequest)
    (h : req.RequestSubResource.length ≠ 0 ∨ req.Namespace.length = 0) :
    Handle a req = Outcome.returned (webhook.Allowed "")
      ∧ (webhook.Allowed "").Allowed = true
      ∧ ∀ a2 : SharedQuotaAdmission, Handle a2 req = Handle a req := by
  have key : ∀ b : SharedQuotaAdmission,
      Handle b req = Outcome.returned (webhook.Allowed "") := by
    intro b
    unfold Handle
    by_cases hsub : req.RequestSubResource.length ≠ 0
    · rw [if_pos hsub]
    · rw [if_neg hsub]
      have hns : req.Namespace.length = 0 := by
        rcases h with h | h
        · exact absurd h hsub
        · exact h
      rw [if_pos hns]
  refine ⟨key a, rfl, ?_⟩
  intro a2
  rw [key a2, key a]

/-- A status update of a pod in the namespace "full", which the example evaluator
forbids, with a payload the example decoder rejects: the sub-resource lets it
through. -/
theorem Handle_skips_subresource_and_cluster_scoped_witness :
    ({ exampleRequest "full" "garbage" with RequestSubResource := "status" } :
        AdmissionRequest).RequestSubResource.length ≠ 0
    ∧ Handle exampleAdmission
        { exampleRequest "full" "garbage" with RequestSubResource := "status" }
      = Outcome.returned (webhook.Allowed "")
    ∧ Handle exampleAdmission (exampleRequest "full" "garbage")
      ≠ Outcome.returned (webhook.Allowed "") :=
  ⟨by decide,
   (Handle_skips_subresource_and_cluster_scoped exampleAdmission
      { exampleRequest "full" "garbage" with RequestSubResource := "status" }
      (Or.inl (by decide))).1,
   by decide⟩

/-! ## podMatchesScopeFunc: the scopes Terminating and NotTerminating -/

theorem isTerminating_iff (pod : Pod) :
    isTerminating pod = true ↔ ∃ seconds, pod.ActiveDeadlineSeconds = some seconds ∧ seconds ≥ 0 := by
  unfold isTerminating
  cases hsec : pod.ActiveDeadlineSeconds with
  | none => simp
  | some seconds =>
    by_cases hge : seconds ≥ 0
    · simp [hge]
    · simp [hge]

/-- C24: for every pod, podMatchesScopeFunc with the scope Terminating returns
true iff ActiveDeadlineSeconds is set and is at least 0, with the scope
NotTerminating it returns the negation, so exactly one of the two scopes matches
the pod; neither returns an error, whatever the QoS and selector helpers are and
whatever else the selector holds. -/
theorem podMatchesScopeFunc_terminating (h : ScopeHelpers) (pod : Pod)
    (operator : String) (values : List String) :
    (∃ t n : Bool,
        podMatchesScopeFunc h
          { ScopeName := ResourceQuotaScopeTerminating, Operator := operator, Values := values }
          (Object.pod pod) = Except.ok t
        ∧ podMatchesScopeFunc h
          { ScopeName := ResourceQuotaScopeNotTerminating, Operator := operator, Values := values }
          (Object.pod pod) = Except.ok n
        ∧ (t = true ↔ ∃ seconds, pod.ActiveDeadlineSeconds = some seconds ∧ seconds ≥ 0)
        ∧ n = !t
        ∧ ((t = true ∧ n = false) ∨ (t = false ∧ n = true))) := by
  refine ⟨isTerminating pod, !isTerminating pod, ?_, ?_, isTerminating_iff pod, rfl, ?_⟩
  · simp [podMatchesScopeFunc, toExternalPodOrError]
  · have hne : ResourceQuotaScopeNotTerminating ≠ ResourceQuotaScopeTerminating := by decide
    simp [podMatchesScopeFunc, toExternalPodOrError, hne]
  · cases isTerminating pod <;> simp

/-! ## UncoveredQuotaScopes -/

theorem isCoveredLoop_eq_any (matched : List ScopedResourceSelectorRequirement)
    (selector : ScopedResourceSelectorRequirement) :
    isCoveredLoop matched selector
      = matched.any (fun m => decide (m.ScopeName = selector.ScopeName)) := by
  induction matched with
  | nil => rfl
  | cons m rest ih =>
    by_cases hm : m.ScopeName = selector.ScopeName
    · simp [isCoveredLoop, hm]
    · simp [isCoveredLoop, hm, ih]

theorem uncoveredLoop_eq_filter (matched : List ScopedResourceSelectorRequirement)
    (limited acc : List ScopedResourceSelectorRequirement) :
    limited.foldl
        (fun uncoveredScopes selector =>
          let isCovered := isCoveredLoop matched selector
          if !isCovered then uncoveredScopes ++ [selector] else uncoveredScopes) acc
      = acc ++ limited.filter (fun selector => !isCoveredLoop matched selector) := by
  induction limited generalizing acc with
  | nil => simp
  | cons s rest ih =>
    simp only [List.foldl_cons, List.filter_cons]
    rw [ih]
    cases hc : isCoveredLoop matched s <;> simp

/-- C27: UncoveredQuotaScopes returns, in their original order, exactly the
selectors of limitedScopes whose ScopeName is the ScopeName of no selector of
matchedQuotaScopes (the filter of limitedScopes by that test, so a selector listed
twice is returned twice), its error is always nil, and with no matched scopes it
returns limitedScopes unchanged. -/
theorem UncoveredQuotaScopes_spec
    (limitedScopes matchedQuotaScopes : List ScopedResourceSelectorRequirement) :
    UncoveredQuotaScopes limitedScopes matchedQuotaScopes
        = (limitedScopes.filter
            (fun selector => decide (∀ m ∈ matchedQuotaScopes, m.ScopeName ≠ selector.ScopeName)),
           none)
      ∧ (UncoveredQuotaScopes limitedScopes matchedQuotaScopes).1.Sublist limitedScopes
      ∧ (∀ selector, selector ∈ (UncoveredQuotaScopes limitedScopes matchedQuotaScopes).1
          ↔ selector ∈ limitedScopes
            ∧ ∀ m ∈ matchedQuotaScopes, m.ScopeName ≠ selector.ScopeName)
      ∧ UncoveredQuotaScopes limitedScopes [] = (limitedScopes, none) := by
  have hfilter : ∀ matched : List ScopedResourceSelectorRequirement,
      UncoveredQuotaScopes limitedScopes matched
        = (limitedScopes.filter
            (fun selector => decide (∀ m ∈ matched, m.ScopeName ≠ selector.ScopeName)),
           none) := by
    intro matched
    unfold UncoveredQuotaScopes
    simp only [uncoveredLoop_eq_filter, List.nil_append]
    congr 1
    apply List.filter_congr
    intro s _
    rw [isCoveredLoop_eq_any]
    cases hany : matched.any (fun m => decide (m.ScopeName = s.ScopeName)) with
    | true =>
      rw [List.any_eq_true] at hany
      obtain ⟨m, hm, hdec⟩ := hany
      have heq : m.ScopeName = s.ScopeName := of_decide_eq_true hdec
      simp only [Bool.not_true]
      symm
      apply decide_eq_false
      intro hall
      exact hall m hm heq
    | false =>
      simp only [Bool.not_false]
      symm
      apply decide_eq_true
      intro m hm heq
      have : matched.any (fun m => decide (m.ScopeName = s.ScopeName)) = true :=
        List.any_eq_true.mpr ⟨m, hm, decide_eq_true heq⟩
      rw [hany] at this
      cases this
  refine ⟨hfilter matchedQuotaScopes, ?_, ?_, ?_⟩
  · rw [hfilter]
    exact List.filter_sublist _
  · intro selector
    rw [hfilter]
    simp [List.mem_filter]
  · rw [hfilter]
    simp

/-! ## lockAquisition: one lock per quota, in the order of the names -/

/-- C29: for a sort that keeps the contract of sort.Sort on ByName, lockAquisition
locks the quotas of `sort quotas` one after the other, each under its UID; that
sequence is a permutation of the input, so every quota of the input is locked
exactly once, and it ascends by Name, whatever the order of the input was. -/
theorem lockAquisition_sorted_permutation
    (sort : List ResourceQuota → List ResourceQuota) (hsort : SortsByName sort)
    (quotas : List ResourceQuota) :
    (lockAquisition sort quotas).locks = (sort quotas).map (fun q => q.UID)
      ∧ (sort quotas).Perm quotas
      ∧ (sort quotas).Pairwise (fun a b => a.Name.data ≤ b.Name.data)
      ∧ (lockAquisition sort quotas).locks.length = quotas.length
      ∧ (∀ q, (sort quotas).count q = quotas.count q)
      ∧ ∀ other : List ResourceQuota, other.Perm quotas →
          ((sort other).map (fun q => q.Name)) = (sort quotas).map (fun q => q.Name) := by
  have hperm : ∀ l, (sort l).Perm l := fun l => (hsort l).1
  have hsorted : ∀ l, (sort l).Pairwise (fun a b => a.Name.data ≤ b.Name.data) := by
    intro l
    refine (hsort l).2.imp ?_
    intro a b hab
    unfold ByName.Less at hab
    exact not_lt.mp hab
  have hlocks : (lockAquisition sort quotas).locks = (sort quotas).map (fun q => q.UID) := by
    simp [lockAquisition, foldl_append_UID]
  refine ⟨hlocks, hperm quotas, hsorted quotas, ?_, ?_, ?_⟩
  · rw [hlocks, List.length_map]
    exact (hperm quotas).length_eq
  · intro q
    exact (hperm quotas).count_eq q
  · intro other hother
    have hp : ((sort other).map (fun q => q.Name.data)).Perm
        ((sort quotas).map (fun q => q.Name.data)) :=
      (((hperm other).trans hother).trans (hperm quotas).symm).map _
    have hs1 : ((sort other).map (fun q => q.Name.data)).Sorted (· ≤ ·) :=
      List.pairwise_map.mpr (hsorted other)
    have hs2 : ((sort quotas).map (fun q => q.Name.data)).Sorted (· ≤ ·) :=
      List.pairwise_map.mpr (hsorted quotas)
    have heq := List.eq_of_perm_of_sorted hp hs1 hs2
    have hmk := congrArg (List.map String.mk) heq
    simpa [List.map_map, Function.comp_def] using hmk

/-- The insertion sort on three quotas given out of order: the locks follow the
names a, b, c. -/
theorem lockAquisition_sorted_permutation_witness :
    SortsByName insertionSortByName
    ∧ (lockAquisition insertionSortByName
        [{ Name := "b", UID := "u2" }, { Name := "c", UID := "u3" },
          { Name := "a", UID := "u1" }]).locks = ["u1", "u2", "u3"]
    ∧ (insertionSortByName
        [{ Name := "b", UID := "u2" }, { Name := "c", UID := "u3" },
          { Name := "a", UID := "u1" }]).Pairwise (fun a b => a.Name.data ≤ b.Name.data) :=
  ⟨insertionSortByName_sorts,
   by decide,
   (lockAquisition_sorted_permutation insertionSortByName insertionSortByName_sorts
      [{ Name := "b", UID := "u2" }, { Name := "c", UID := "u3" },
        { Name := "a", UID := "u1" }]).2.2.1⟩

/-! ## MatchingResources -/

theorem mem_matchingLoopStep (result : List ResourceName) (resource name : ResourceName) :
    name ∈ matchingLoopStep result resource
      ↔ name ∈ result
        ∨ (name = resource
            ∧ (quotapkg.ContainsPrefix podResourcePrefixes resource = true
                ∨ isExtendedResourceNameForQuota resource = true)) := by
  unfold matchingLoopStep
  cases hp : quotapkg.ContainsPrefix podResourcePrefixes resource <;>
    cases he : isExtendedResourceNameForQuota resource <;>
    simp [List.mem_append]

theorem mem_matchingLoop (input result : List ResourceName) (name : ResourceName) :
    name ∈ input.foldl matchingLoopStep result
      ↔ name ∈ result
        ∨ (name ∈ input
            ∧ (quotapkg.ContainsPrefix podResourcePrefixes name = true
                ∨ isExtendedResourceNameForQuota name = true)) := by
  induction input generalizing result with
  | nil => simp
  | cons r rest ih =>
    rw [List.foldl_cons, ih, mem_matchingLoopStep]
    constructor
    · rintro ((h | ⟨rfl, h⟩) | ⟨hmem, h⟩)
      · exact Or.inl h
      · exact Or.inr ⟨List.mem_cons_self _ _, h⟩
      · exact Or.inr ⟨List.mem_cons_of_mem _ hmem, h⟩
    · rintro (h | ⟨hmem, h⟩)
      · exact Or.inl (Or.inl h)
      · rcases List.mem_cons.mp hmem with rfl | hrest
        · exact Or.inl (Or.inr ⟨rfl, h⟩)
        · exact Or.inr ⟨hrest, h⟩

theorem containsPrefix_podResourcePrefixes (name : ResourceName) :
    quotapkg.ContainsPrefix podResourcePrefixes name = true
      ↔ hasPrefix name ResourceHugePagesPrefix = true
        ∨ hasPrefix name ResourceRequestsHugePagesPrefix = true := by
  simp [quotapkg.ContainsPrefix, podResourcePrefixes]

/-- C22: for every input list, a name belongs to MatchingResources of it iff it
occurs in the input and is one of the 13 names of podResources, or starts with
"hugepages-" or "requests.hugepages-", or is a non-native name that starts with
"requests."; so every returned name occurs in the input, and the result is a
function of the input alone. -/
theorem MatchingResources_mem (input : List ResourceName) (name : ResourceName) :
    (name ∈ MatchingResources input
      ↔ name ∈ input
        ∧ (name ∈ podResources
            ∨ hasPrefix name ResourceHugePagesPrefix = true
            ∨ hasPrefix name ResourceRequestsHugePagesPrefix = true
            ∨ (helper.IsNativeResource name = false
                ∧ hasPrefix name DefaultResourceRequestsPrefix = true)))
      ∧ podResources.length = 13
      ∧ podResources.Nodup
      ∧ (name ∈ MatchingResources input → name ∈ input) := by
  have hiff : name ∈ MatchingResources input
      ↔ name ∈ input
        ∧ (name ∈ podResources
            ∨ hasPrefix name ResourceHugePagesPrefix = true
            ∨ hasPrefix name ResourceRequestsHugePagesPrefix = true
            ∨ (helper.IsNativeResource name = false
                ∧ hasPrefix name DefaultResourceRequestsPrefix = true)) := by
    unfold MatchingResources
    rw [mem_matchingLoop, containsPrefix_podResourcePrefixes]
    unfold quotapkg.Intersection isExtendedResourceNameForQuota
    simp only [List.mem_filter, decide_eq_true_eq, Bool.and_eq_true, Bool.not_eq_true']
    tauto
  refine ⟨hiff, by decide, by decide, ?_⟩
  intro h
  exact (hiff.mp h).1

/-- C23, as stated, fails on the code: on the duplicate-free input that holds only
requests.nvidia.com/gpu, MatchingResources returns the name twice, once from the
intersection with podResources and once from the loop, where the name passes
isExtendedResourceNameForQuota; the result is not a set, against the comment of the
function ("returns the set of resources it matches"). -/
theorem MatchingResources_duplicates_requests_gpu :
    [ResourceRequestsGPU].Nodup
      ∧ ResourceRequestsGPU ∈ podResources
      ∧ isExtendedResourceNameForQuota ResourceRequestsGPU = true
      ∧ MatchingResources [ResourceRequestsGPU] = [ResourceRequestsGPU, ResourceRequestsGPU]
      ∧ (MatchingResources [ResourceRequestsGPU]).count ResourceRequestsGPU = 2
      ∧ ¬ (MatchingResources [ResourceRequestsGPU]).Nodup
      ∧ ¬ ∀ input : List ResourceName, input.Nodup → (MatchingResources input).Nodup := by
  refine ⟨by decide, by decide, by decide, by decide, by decide, by decide, ?_⟩
  intro h
  exact absurd (h [ResourceRequestsGPU] (by decide)) (by decide)

/-! ## podComputeUsageHelper: the bare compute keys and their aliases -/

theorem lookup_foldl_congr (reqs : ResourceList) (init1 init2 : ResourceList)
    (k : ResourceName) (h : lookup init1 k = lookup init2 k) :
    lookup (reqs.foldl usageLoopStep init1) k = lookup (reqs.foldl usageLoopStep init2) k := by
  induction reqs generalizing init1 init2 with
  | nil => exact h
  | cons hd tl ih =>
    rw [List.foldl_cons, List.foldl_cons]
    apply ih
    rw [lookup_usageLoopStep, lookup_usageLoopStep, h]

theorem lookup_usageFixedKeys_limits (requests limits1 limits2 : ResourceList)
    (k : ResourceName) (h1 : k ≠ ResourceLimitsCPU) (h2 : k ≠ ResourceLimitsMemory)
    (h3 : k ≠ ResourceLimitsEphemeralStorage) :
    lookup (usageFixedKeys requests limits1) k = lookup (usageFixedKeys requests limits2) k := by
  rw [lookup_usageFixedKeys, lookup_usageFixedKeys]
  simp [Ne.symm h1, Ne.symm h2, Ne.symm h3]

theorem lookup_helper_gpu (requests limits : ResourceList) (hnd : KeysNodup requests) :
    lookup (podComputeUsageHelper requests limits) ResourceGPU = lookup requests ResourceGPU
      ∧ lookup (podComputeUsageHelper requests limits) ResourceRequestsGPU
        = lookup requests ResourceGPU := by
  have m : ResourceRequestsGPU
      = maskResourceWithPrefix ResourceGPU DefaultResourceRequestsPrefix := by decide
  constructor
  · rw [lookup_helper_plain _ _ _ (by decide) (by decide), lookup_usageFixedKeys]
    simp [ResourceGPU, ResourceRequestsGPU, ResourceLimitsEphemeralStorage,
      ResourceRequestsEphemeralStorage, ResourceEphemeralStorage, ResourceLimitsMemory,
      ResourceRequestsMemory, ResourceMemory, ResourceLimitsCPU, ResourceRequestsCPU,
      ResourceCPU, ResourcePods, lookup_some_or_none]
  · cases hq : lookup requests ResourceGPU with
    | some q =>
      rw [m]
      exact lookup_helper_alias requests limits ResourceGPU q hnd hq (by decide)
    | none =>
      have hnw : ∀ e ∈ requests, writesKey e ResourceRequestsGPU = false := by
        intro e he
        rw [m, writesKey_mask]
        have hne := not_mem_of_lookup_none _ _ hq e he
        simp [hne]
      unfold podComputeUsageHelper
      rw [lookup_foldl_not_written _ _ _ hnw, lookup_usageFixedKeys, hq]
      simp [ResourceGPU, ResourceRequestsGPU, ResourceLimitsEphemeralStorage,
        ResourceRequestsEphemeralStorage, ResourceEphemeralStorage, ResourceLimitsMemory,
        ResourceRequestsMemory, ResourceMemory, ResourceLimitsCPU, ResourceRequestsCPU,
        ResourceCPU, ResourcePods]

theorem lookup_helper_pods (requests limits : ResourceList) :
    lookup (podComputeUsageHelper requests limits) ResourcePods = some 1 := by
  rw [lookup_helper_plain _ _ _ (by decide) (by decide), lookup_usageFixedKeys]
  simp [ResourceGPU, ResourceRequestsGPU, ResourceLimitsEphemeralStorage,
    ResourceRequestsEphemeralStorage, ResourceEphemeralStorage, ResourceLimitsMemory,
    ResourceRequestsMemory, ResourceMemory, ResourceLimitsCPU, ResourceRequestsCPU,
    ResourceCPU, ResourcePods]

/-- C30: for every requests/limits pair (requests a map, its keys distinct), in the
result of podComputeUsageHelper each bare compute key reads as its requests alias
and as the entry of requests: cpu and requests.cpu, memory and requests.memory,
ephemeral-storage and requests.ephemeral-storage, nvidia.com/gpu and
requests.nvidia.com/gpu are present together and hold the same quantity.  The
limits reach only limits.cpu, limits.memory and limits.ephemeral-storage, which
read as the entries of limits: every other key reads the same under any other
limits.  The key pods is always present and holds 1. -/
theorem podComputeUsageHelper_compute_keys (requests limits : ResourceList)
    (hnd : KeysNodup requests) :
    (lookup (podComputeUsageHelper requests limits) ResourceCPU
        = lookup (podComputeUsageHelper requests limits) ResourceRequestsCPU
      ∧ lookup (podComputeUsageHelper requests limits) ResourceCPU
        = lookup requests ResourceCPU)
    ∧ (lookup (podComputeUsageHelper requests limits) ResourceMemory
        = lookup (podComputeUsageHelper requests limits) ResourceRequestsMemory
      ∧ lookup (podComputeUsageHelper requests limits) ResourceMemory
        = lookup requests ResourceMemory)
    ∧ (lookup (podComputeUsageHelper requests limits) ResourceEphemeralStorage
        = lookup (podComputeUsageHelper requests limits) ResourceRequestsEphemeralStorage
      ∧ lookup (podComputeUsageHelper requests limits) ResourceEphemeralStorage
        = lookup requests ResourceEphemeralStorage)
    ∧ (lookup (podComputeUsageHelper requests limits) ResourceGPU
        = lookup (podComputeUsageHelper requests limits) ResourceRequestsGPU
      ∧ lookup (podComputeUsageHelper requests limits) ResourceGPU
        = lookup requests ResourceGPU)
    ∧ (lookup (podComputeUsageHelper requests limits) ResourceLimitsCPU
        = lookup limits ResourceCPU
      ∧ lookup (podComputeUsageHelper requests limits) ResourceLimitsMemory
        = lookup limits ResourceMemory
      ∧ lookup (podComputeUsageHelper requests limits) ResourceLimitsEphemeralStorage
        = lookup limits ResourceEphemeralStorage)
    ∧ (∀ (otherLimits : ResourceList) (k : ResourceName),
        k ≠ ResourceLimitsCPU → k ≠ ResourceLimitsMemory →
        k ≠ ResourceLimitsEphemeralStorage →
        lookup (podComputeUsageHelper requests limits) k
          = lookup (podComputeUsageHelper requests otherLimits) k)
    ∧ lookup (podComputeUsageHelper requests limits) ResourcePods = some 1 := by
  obtain ⟨⟨c1, c2, c3⟩, ⟨m1, m2, m3⟩, ⟨e1, e2, e3⟩⟩ := lookup_helper_compute requests limits
  obtain ⟨g1, g2⟩ := lookup_helper_gpu requests limits hnd
  refine ⟨⟨by rw [c1, c2], c1⟩, ⟨by rw [m1, m2], m1⟩, ⟨by rw [e1, e2], e1⟩,
    ⟨by rw [g1, g2], g1⟩, ⟨c3, m3, e3⟩, ?_, lookup_helper_pods requests limits⟩
  intro otherLimits k h1 h2 h3
  unfold podComputeUsageHelper
  exact lookup_foldl_congr _ _ _ k (lookup_usageFixedKeys_limits requests _ _ k h1 h2 h3)

/-- A pod that requests cpu, a GPU and an extended resource, with limits on cpu and
on a GPU: the usage holds the four requested keys with their aliases and pods, and
of the limits only limits.cpu. -/
theorem podComputeUsageHelper_compute_keys_witness :
    KeysNodup [(ResourceCPU, 2), (ResourceGPU, 1), ("example.com/foo", 3)]
    ∧ lookup (podComputeUsageHelper
          [(ResourceCPU, 2), (ResourceGPU, 1), ("example.com/foo", 3)]
          [(ResourceCPU, 4), (ResourceGPU, 1)]) ResourceGPU
        = lookup (podComputeUsageHelper
          [(ResourceCPU, 2), (ResourceGPU, 1), ("example.com/foo", 3)]
          [(ResourceCPU, 4), (ResourceGPU, 1)]) ResourceRequestsGPU
    ∧ podComputeUsageHelper
          [(ResourceCPU, 2), (ResourceGPU, 1), ("example.com/foo", 3)]
          [(ResourceCPU, 4), (ResourceGPU, 1)]
        = [(ResourcePods, 1), (ResourceCPU, 2), (ResourceRequestsCPU, 2),
            (ResourceLimitsCPU, 4), (ResourceGPU, 1), (ResourceRequestsGPU, 1),
            ("requests.example.com/foo", 3)] :=
  ⟨by decide,
   (podComputeUsageHelper_compute_keys
      [(ResourceCPU, 2), (ResourceGPU, 1), ("example.com/foo", 3)]
      [(ResourceCPU, 4), (ResourceGPU, 1)] (by decide)).2.2.2.1.1,
   by decide⟩

/-! ## ResourceQuotaNamesFor: the reverse index -/

theorem namesLoop_eq (labels : List (String × String)) (items : List SharedQuota)
    (acc : List String) :
    items.foldl
        (fun names resourceQuota =>
          if resourceQuota.Spec.LabelSelector.length > 0
              && selectorFromSetMatches resourceQuota.Spec.LabelSelector labels then
            names ++ [resourceQuota.Name]
          else names) acc
      = acc ++ (items.filter (fun resourceQuota =>
          decide (resourceQuota.Spec.LabelSelector.length > 0)
            && selectorFromSetMatches resourceQuota.Spec.LabelSelector labels)).map
          (fun resourceQuota => resourceQuota.Name) := by
  induction items generalizing acc with
  | nil => simp
  | cons hd tl ih =>
    rw [List.foldl_cons, ih, List.filter_cons]
    by_cases hc : (decide (hd.Spec.LabelSelector.length > 0)
        && selectorFromSetMatches hd.Spec.LabelSelector labels) = true
    · simp [hc]
    · simp [hc]

theorem selectorFromSetMatches_nil_right (ls : List (String × String)) (h : ls ≠ []) :
    selectorFromSetMatches ls [] = false := by
  cases ls with
  | nil => exact absurd rfl h
  | cons kv rest => simp [selectorFromSetMatches]

/-- The names ResourceQuotaNamesFor returns when both calls of the client succeed. -/
theorem ResourceQuotaNamesFor_eq (client : QuotaClient) (namespaceName : String)
    (ns : Namespace) (quotas : List SharedQuota)
    (hget : client.GetNamespace namespaceName = Except.ok ns)
    (hlist : client.ListSharedQuotas = Except.ok quotas) :
    ResourceQuotaNamesFor client namespaceName
      = ((quotas.filter (fun q =>
            decide (ns.Labels ≠ []) && decide (q.Spec.LabelSelector ≠ [])
              && selectorFromSetMatches q.Spec.LabelSelector ns.Labels)).map
          (fun q => q.Name), none) := by
  unfold ResourceQuotaNamesFor
  simp only [hget]
  by_cases hl : ns.Labels.length = 0
  · have hnil : ns.Labels = [] := List.length_eq_zero.mp hl
    simp [hl, hnil]
  · have hne : ns.Labels ≠ [] := fun h => hl (by rw [h]; rfl)
    simp only [hl, if_false, hlist, namesLoop_eq, List.nil_append]
    congr 2
    apply List.filter_congr
    intro q _
    simp [hne, List.length_pos]

/-- C25, as the code has it: when the namespace and the shared quotas are read
without error and the quotas bear distinct names, then for every quota whose
selector is not empty, ResourceQuotaNamesFor of the namespace holds the name of the
quota iff the selector the reconciler lists namespaces with,
labels.SelectorFromSet of spec.selector, matches the labels of the namespace; and
it returns no error. -/
theorem ResourceQuotaNamesFor_agrees (client : QuotaClient) (namespaceName : String)
    (ns : Namespace) (quotas : List SharedQuota) (q : SharedQuota)
    (hget : client.GetNamespace namespaceName = Except.ok ns)
    (hlist : client.ListSharedQuotas = Except.ok quotas)
    (hnames : (quotas.map (fun x => x.Name)).Nodup)
    (hq : q ∈ quotas)
    (hsel : q.Spec.LabelSelector ≠ []) :
    (ResourceQuotaNamesFor client namespaceName).2 = none
      ∧ (q.Name ∈ (ResourceQuotaNamesFor client namespaceName).1
          ↔ selectorFromSetMatches q.Spec.LabelSelector ns.Labels = true) := by
  rw [ResourceQuotaNamesFor_eq client namespaceName ns quotas hget hlist]
  refine ⟨rfl, ?_⟩
  simp only [List.mem_map, List.mem_filter, Bool.and_eq_true, decide_eq_true_eq]
  constructor
  · rintro ⟨x, ⟨hx, ⟨_, _⟩, hm⟩, hname⟩
    have hxq : x = q := List.inj_on_of_nodup_map hnames hx hq hname
    rw [← hxq]
    exact hm
  · intro hm
    refine ⟨q, ⟨hq, ⟨?_, hsel⟩, hm⟩, rfl⟩
    intro hnil
    rw [hnil, selectorFromSetMatches_nil_right _ hsel] at hm
    exact Bool.noConfusion hm

/-- The namespace "n" labelled team=x and the quota "t" that selects team=x. -/
theorem ResourceQuotaNamesFor_agrees_witness :
    exampleQuotaClient.GetNamespace "n" = Except.ok { Name := "n", Labels := [("team", "x")] }
    ∧ ResourceQuotaNamesFor exampleQuotaClient "n" = (["t"], none)
    ∧ ("t" ∈ (ResourceQuotaNamesFor exampleQuotaClient "n").1
        ↔ selectorFromSetMatches [("team", "x")] [("team", "x")] = true) :=
  ⟨rfl, by decide,
   (ResourceQuotaNamesFor_agrees exampleQuotaClient "n"
      { Name := "n", Labels := [("team", "x")] }
      [ { Name := "all" }, { Name := "t", Spec := { LabelSelector := [("team", "x")] } } ]
      { Name := "t", Spec := { LabelSelector := [("team", "x")] } }
      rfl rfl (by decide) (by decide) (by decide)).2⟩

/-- C25, as stated, fails: the quota "all" has an empty selector, and
labels.SelectorFromSet of an empty set matches every namespace, so the reconciler
aggregates the namespace "n" into it; ResourceQuotaNamesFor skips a quota whose
selector is empty and returns only "t", so a change in "n" is not mapped back to
"all". -/
theorem ResourceQuotaNamesFor_agrees_counterexample :
    selectorFromSetMatches ({ Name := "all" } : SharedQuota).Spec.LabelSelector
        [("team", "x")] = true
      ∧ ResourceQuotaNamesFor exampleQuotaClient "n" = (["t"], none)
      ∧ "all" ∉ (ResourceQuotaNamesFor exampleQuotaClient "n").1
      ∧ ¬ (∀ (client : QuotaClient) (namespaceName : String) (ns : Namespace)
            (quotas : List SharedQuota) (q : SharedQuota),
            client.GetNamespace namespaceName = Except.ok ns →
            client.ListSharedQuotas = Except.ok quotas →
            (quotas.map (fun x => x.Name)).Nodup →
            q ∈ quotas →
            (q.Name ∈ (ResourceQuotaNamesFor client namespaceName).1
              ↔ selectorFromSetMatches q.Spec.LabelSelector ns.Labels = true)) := by
  refine ⟨by decide, by decide, by decide, ?_⟩
  intro h
  have h1 := h exampleQuotaClient "n" { Name := "n", Labels := [("team", "x")] }
    [ { Name := "all" }, { Name := "t", Spec := { LabelSelector := [("team", "x")] } } ]
    { Name := "all" } rfl rfl (by decide) (by decide)
  have h2 : ({ Name := "all" } : SharedQuota).Name
      ∉ (ResourceQuotaNamesFor exampleQuotaClient "n").1 := by decide
  exact h2 (h1.mpr (by decide))

/-! ## The filter of the watches -/

/-- The UpdateFunc written for the watches does what the filter is meant to do: on
an update of a pod it answers true iff the old pod passes QuotaV1Pod and the new
pod does not. -/
theorem watchUpdateFunc_pod (now : Time) (g1 g2 : Int) (oldPod newPod : Pod) :
    ∃ notifyChange : Bool,
      watchUpdateFunc now
          { ObjectOld := WatchedObject.pod g1 oldPod, ObjectNew := WatchedObject.pod g2 newPod }
        = Outcome.returned notifyChange
      ∧ (notifyChange = true
          ↔ QuotaV1Pod oldPod now = true ∧ QuotaV1Pod newPod now = false) := by
  refine ⟨QuotaV1Pod oldPod now && !QuotaV1Pod newPod now, rfl, ?_⟩
  cases QuotaV1Pod oldPod now <;> cases QuotaV1Pod newPod now <;> simp

/-- What the watch asks on an update: the method Update of the predicate, which
compares the generations and never reaches UpdateFunc. -/
theorem watchPredicate_Update (now : Time) (e : UpdateEvent) :
    (watchPredicate now).Update e
      = (e.ObjectNew.GetGeneration != e.ObjectOld.GetGeneration) := rfl

/-- C26 fails on the code: the filter of the watch is a GenerationChangedPredicate,
whose own method Update compares the generations of the two objects and shadows the
Update of the embedded Funcs, so the UpdateFunc that tests the liveness gate is
never called.  The update of a pod from Running to Failed with an unchanged
generation passes the gate before and not after, UpdateFunc would queue it, and the
filter drops it; the update of a running pod whose generation changes leaves the
gate unchanged, and the filter queues it. -/
theorem watchPredicate_drops_liveness_change :
    ∀ now : Time,
      (QuotaV1Pod { Phase := "Running" } now = true
        ∧ QuotaV1Pod { Phase := "Failed" } now = false
        ∧ watchUpdateFunc now podFailsEvent = Outcome.returned true
        ∧ (watchPredicate now).Update podFailsEvent = false)
      ∧ (QuotaV1Pod { Phase := "Running" } now = true
        ∧ watchUpdateFunc now podGenerationEvent = Outcome.returned false
        ∧ (watchPredicate now).Update podGenerationEvent = true) := by
  intro now
  have hrun : QuotaV1Pod { Phase := "Running" } now = true := by
    simp [QuotaV1Pod, PodFailed, PodSucceeded]
  have hfail : QuotaV1Pod { Phase := "Failed" } now = false := by
    simp [QuotaV1Pod, PodFailed, PodSucceeded]
  refine ⟨⟨hrun, hfail, ?_, rfl⟩, hrun, ?_, rfl⟩
  · simp [watchUpdateFunc, podFailsEvent, hrun, hfail]
  · simp [watchUpdateFunc, podGenerationEvent, hrun]

/-! ## QuotaV1Pod: the liveness gate -/

/-- The gate as the code computes it, with the grace period as the int64 of
nanoseconds that `time.Duration(secs) * time.Second` yields. -/
theorem QuotaV1Pod_false_iff (pod : Pod) (now : Time) :
    QuotaV1Pod pod now = false
      ↔ pod.Phase = PodFailed ∨ pod.Phase = PodSucceeded
        ∨ ∃ deletionTime secs, pod.DeletionTimestamp = some deletionTime
            ∧ pod.DeletionGracePeriodSeconds = some secs
            ∧ now > deletionTime + gracePeriodDuration secs := by
  constructor
  · intro h
    unfold QuotaV1Pod at h
    by_cases hf : PodFailed = pod.Phase
    · exact Or.inl hf.symm
    · by_cases hs : PodSucceeded = pod.Phase
      · exact Or.inr (Or.inl hs.symm)
      · right; right
        cases hd : pod.DeletionTimestamp with
        | none => simp [hf, hs, hd] at h
        | some deletionTime =>
          cases hg : pod.DeletionGracePeriodSeconds with
          | none => simp [hf, hs, hd, hg] at h
          | some secs =>
            refine ⟨deletionTime, secs, rfl, rfl, ?_⟩
            by_contra hnot
            simp [hf, hs, hd, hg, hnot] at h
  · exact QuotaV1Pod_false_of pod now

/-- For a grace period the int64 of nanoseconds can hold, the gate is the one of
the claim: the pod is not charged iff its phase is terminal, or it has a deletion
timestamp and a grace period and now is strictly after the timestamp plus the grace
seconds.  A pod marked for deletion without a grace period, or whose grace period
ends now, is charged. -/
theorem QuotaV1Pod_false_iff_exact (pod : Pod) (now : Time)
    (hrange : ∀ secs, pod.DeletionGracePeriodSeconds = some secs →
      -9223372036 ≤ secs ∧ secs ≤ 9223372036) :
    (QuotaV1Pod pod now = false
      ↔ pod.Phase = PodFailed ∨ pod.Phase = PodSucceeded
        ∨ ∃ deletionTime secs, pod.DeletionTimestamp = some deletionTime
            ∧ pod.DeletionGracePeriodSeconds = some secs
            ∧ now > deletionTime + secs * 1000000000)
    ∧ (pod.Phase ≠ PodFailed → pod.Phase ≠ PodSucceeded →
        pod.DeletionGracePeriodSeconds = none → QuotaV1Pod pod now = true)
    ∧ (pod.Phase ≠ PodFailed → pod.Phase ≠ PodSucceeded →
        ∀ deletionTime secs, pod.DeletionTimestamp = some deletionTime →
          pod.DeletionGracePeriodSeconds = some secs →
          now = deletionTime + secs * 1000000000 → QuotaV1Pod pod now = true) := by
  have hiff : QuotaV1Pod pod now = false
      ↔ pod.Phase = PodFailed ∨ pod.Phase = PodSucceeded
        ∨ ∃ deletionTime secs, pod.DeletionTimestamp = some deletionTime
            ∧ pod.DeletionGracePeriodSeconds = some secs
            ∧ now > deletionTime + secs * 1000000000 := by
    rw [QuotaV1Pod_false_iff]
    constructor
    · rintro (h | h | ⟨t, secs, ht, hs, hgt⟩)
      · exact Or.inl h
      · exact Or.inr (Or.inl h)
      · obtain ⟨h1, h2⟩ := hrange secs hs
        rw [gracePeriodDuration_exact secs h1 h2] at hgt
        exact Or.inr (Or.inr ⟨t, secs, ht, hs, hgt⟩)
    · rintro (h | h | ⟨t, secs, ht, hs, hgt⟩)
      · exact Or.inl h
      · exact Or.inr (Or.inl h)
      · obtain ⟨h1, h2⟩ := hrange secs hs
        rw [← gracePeriodDuration_exact secs h1 h2] at hgt
        exact Or.inr (Or.inr ⟨t, secs, ht, hs, hgt⟩)
  refine ⟨hiff, ?_, ?_⟩
  · intro hf hs hg
    cases hq : QuotaV1Pod pod now with
    | true => rfl
    | false =>
      rcases hiff.mp hq with h | h | ⟨t, secs, _, hsec, _⟩
      · exact absurd h hf
      · exact absurd h hs
      · rw [hg] at hsec; cases hsec
  · intro hf hs t secs ht hsec hnow
    cases hq : QuotaV1Pod pod now with
    | true => rfl
    | false =>
      rcases hiff.mp hq with h | h | ⟨t2, secs2, ht2, hsec2, hgt⟩
      · exact absurd h hf
      · exact absurd h hs
      · rw [ht] at ht2; rw [hsec] at hsec2
        cases ht2; cases hsec2
        rw [hnow] at hgt
        exact absurd hgt (lt_irrefl _)

/-- C28 fails on the code: for a grace period of 9223372037 seconds the product
`time.Duration(secs) * time.Second` exceeds an int64 and wraps to a negative
duration of about 292 years, so one instant after its deletion the running pod
longGracePod is already reported as not eligible and PodUsageFunc charges only
count/pods, although its phase is not terminal and now is far before its deletion
timestamp plus its grace seconds. -/
theorem QuotaV1Pod_grace_period_overflow :
    longGracePod.Phase ≠ PodFailed
      ∧ longGracePod.Phase ≠ PodSucceeded
      ∧ longGracePod.DeletionTimestamp = some 1700000000000000000
      ∧ longGracePod.DeletionGracePeriodSeconds = some 9223372037
      ∧ ¬ ((1700000000000000001 : Int) > 1700000000000000000 + 9223372037 * 1000000000)
      ∧ gracePeriodDuration 9223372037 = -9223372036709551616
      ∧ QuotaV1Pod longGracePod 1700000000000000001 = false
      ∧ PodUsageFunc (Object.pod longGracePod) 1700000000000000001
          = Except.ok [(podObjectCountName, 1)]
      ∧ QuotaV1Pod { longGracePod with DeletionGracePeriodSeconds := some 9223372036 }
          1700000000000000001 = true
      ∧ ¬ (∀ (pod : Pod) (now : Time),
            QuotaV1Pod pod now = false
              ↔ pod.Phase = PodFailed ∨ pod.Phase = PodSucceeded
                ∨ ∃ deletionTime secs, pod.DeletionTimestamp = some deletionTime
                    ∧ pod.DeletionGracePeriodSeconds = some secs
                    ∧ now > deletionTime + secs * 1000000000) := by
  refine ⟨by decide, by decide, rfl, rfl, by decide, by decide, by decide, by decide,
    by decide, ?_⟩
  intro h
  have hq : QuotaV1Pod longGracePod 1700000000000000001 = false := by decide
  rcases (h longGracePod 1700000000000000001).mp hq with hp | hp | ⟨t, secs, ht, hs, hgt⟩
  · exact absurd hp (by decide)
  · exact absurd hp (by decide)
  · have ht2 : t = 1700000000000000000 := by
      have : longGracePod.DeletionTimestamp = some 1700000000000000000 := rfl
      rw [this] at ht
      exact (Option.some.inj ht).symm
    have hs2 : secs = 9223372037 := by
      have : longGracePod.DeletionGracePeriodSeconds = some 9223372037 := rfl
      rw [this] at hs
      exact (Option.some.inj hs).symm
    subst ht2
    subst hs2
    exact absurd hgt (by decide)

/-! ## convertToAdmissionAttributes: the fields it dereferences -/

/-- When convertToAdmissionAttributes returns: iff a payload fails to decode, or
the request carries its kind, its resource and its dry-run flag. -/
theorem convertToAdmissionAttributes_returns_iff (decode : String → Except String Object)
    (req : AdmissionRequest) :
    (∃ result, convertToAdmissionAttributes decode req = Outcome.returned result)
      ↔ payloadsDecode decode req = false
        ∨ (req.RequestKind.isSome && req.RequestResource.isSome && req.DryRun.isSome)
            = true := by
  rcases convertToAdmissionAttributes_cases decode req with
    ⟨h1, err, he⟩ | ⟨_, h2, attrs, he⟩ | ⟨h1, h2, reason, he⟩
  · exact ⟨fun _ => Or.inl h1, fun _ => ⟨_, he⟩⟩
  · exact ⟨fun _ => Or.inr h2, fun _ => ⟨_, he⟩⟩
  · constructor
    · rintro ⟨result, hr⟩
      rw [he] at hr
      cases hr
    · rintro (h | h)
      · rw [h1] at h; cases h
      · rw [h2] at h; cases h

/-- C31 fails on the code: convertToAdmissionAttributes passes `*req.DryRun` to
NewAttributesRecord without testing the pointer.  For the request
dryRunAbsentRequest, whose payload decodes and whose dry-run flag is absent, it
neither returns an attributes record nor a decode error: it panics on the nil
pointer, whatever the decoder is once the payload decodes; the same request with
the flag set returns a record.  So it is not total. -/
theorem convertToAdmissionAttributes_panics_without_dry_run :
    dryRunAbsentRequest.DryRun = none
      ∧ dryRunAbsentRequest.RequestKind ≠ none
      ∧ dryRunAbsentRequest.RequestResource ≠ none
      ∧ payloadsDecode exampleAdmission.Decode dryRunAbsentRequest = true
      ∧ convertToAdmissionAttributes exampleAdmission.Decode dryRunAbsentRequest
          = Outcome.panicked "invalid memory address or nil pointer dereference"
      ∧ (∀ decode : String → Except String Object,
          payloadsDecode decode dryRunAbsentRequest = true →
          ∀ result, convertToAdmissionAttributes decode dryRunAbsentRequest
            ≠ Outcome.returned result)
      ∧ ({ dryRunAbsentRequest with DryRun := some false } : AdmissionRequest)
          = exampleRequest "default" "pod"
      ∧ (∃ attrs, convertToAdmissionAttributes exampleAdmission.Decode
            (exampleRequest "default" "pod") = Outcome.returned (Except.ok attrs))
      ∧ ¬ (∀ (decode : String → Except String Object) (req : AdmissionRequest),
            ∃ result, convertToAdmissionAttributes decode req = Outcome.returned result) := by
  have hpanic : convertToAdmissionAttributes exampleAdmission.Decode dryRunAbsentRequest
      = Outcome.panicked "invalid memory address or nil pointer dereference" := by decide
  refine ⟨rfl, by decide, by decide, by decide, hpanic, ?_, rfl, ?_, ?_⟩
  · intro decode hdec result hr
    have hiff := (convertToAdmissionAttributes_returns_iff decode dryRunAbsentRequest).mp
      ⟨result, hr⟩
    rcases hiff with h | h
    · rw [hdec] at h; cases h
    · exact absurd h (by decide)
  · rcases convertToAdmissionAttributes_cases exampleAdmission.Decode
        (exampleRequest "default" "pod") with
      ⟨h1, _⟩ | ⟨_, _, attrs, he⟩ | ⟨_, h2, _⟩
    · exact absurd h1 (by decide)
    · exact ⟨attrs, he⟩
    · exact absurd h2 (by decide)
  · intro h
    obtain ⟨result, hr⟩ := h exampleAdmission.Decode dryRunAbsentRequest
    rw [hpanic] at hr
    cases hr

/-- C20 fails on the code: Handle does not return an allowed response for every
namespaced, non-sub-resource request whose payloads decode and whose evaluator
returns no error.  For the request dryRunAbsentRequest, whose payload decodes and
whose dry-run flag is absent, and an evaluator that never returns an error, Handle
reaches convertToAdmissionAttributes, which dereferences the nil DryRun, and
panics: it returns no response, neither allowed nor denied nor errored.  The same
request with the flag set is allowed. -/
theorem Handle_panics_without_dry_run :
    dryRunAbsentRequest.RequestSubResource.length = 0
      ∧ dryRunAbsentRequest.Namespace.length ≠ 0
      ∧ payloadsDecode permissiveAdmission.Decode dryRunAbsentRequest = true
      ∧ (∀ attrs, permissiveAdmission.Evaluate attrs = none)
      ∧ Handle permissiveAdmission dryRunAbsentRequest
          = Outcome.panicked "invalid memory address or nil pointer dereference"
      ∧ (∀ resp, Handle permissiveAdmission dryRunAbsentRequest ≠ Outcome.returned resp)
      ∧ Handle permissiveAdmission (exampleRequest "default" "pod")
          = Outcome.returned (webhook.Allowed "")
      ∧ ¬ (∀ (a : SharedQuotaAdmission) (req : AdmissionRequest),
            req.RequestSubResource.length = 0 → req.Namespace.length ≠ 0 →
            (Handle a req = Outcome.returned (webhook.Allowed "")
              ↔ payloadsDecode a.Decode req = true
                ∧ ∀ attrs, convertToAdmissionAttributes a.Decode req
                    = Outcome.returned (Except.ok attrs) → a.Evaluate attrs = none))
      ∧ ¬ (∀ (a : SharedQuotaAdmission) (req : AdmissionRequest),
            req.RequestSubResource.length = 0 → req.Namespace.length ≠ 0 →
            payloadsDecode a.Decode req = true → (∀ attrs, a.Evaluate attrs = none) →
            ∃ resp, Handle a req = Outcome.returned resp ∧ resp.Allowed = true) := by
  have hpanic : Handle permissiveAdmission dryRunAbsentRequest
      = Outcome.panicked "invalid memory address or nil pointer dereference" := by decide
  refine ⟨by decide, by decide, by decide, fun _ => rfl, hpanic, ?_, by decide, ?_, ?_⟩
  · intro resp hresp
    rw [hpanic] at hresp
    cases hresp
  · intro h
    have h1 := (h permissiveAdmission dryRunAbsentRequest (by decide) (by decide)).mpr
      ⟨by decide, fun attrs hattrs => rfl⟩
    rw [hpanic] at h1
    cases h1
  · intro h
    obtain ⟨resp, hresp, _⟩ := h permissiveAdmission dryRunAbsentRequest (by decide)
      (by decide) (by decide) (fun _ => rfl)
    rw [hpanic] at hresp
    cases hresp

end SharedQuotaCore
